import Mathlib

/-! URL shortener core (`src/src/utils/storage.js`, `src/src/utils/urlUtils.js`,
`src/src/components/ShortenerForm.jsx`, `src/src/utils/loggerMiddleware.js`)

Shallow embedding of the mapping store, of the URL utilities, of what the form validates and
submits, and of the in-memory log.

Modelling conventions
* The `localStorage` item `urlShortener_mappings` is represented by the array that
  `JSON.parse` yields for it (`Store`); an absent item is the empty array.
* A timestamp (a `Date`, or the ISO-8601 string `toISOString` yields for it) is its time value
  in milliseconds, an `Int`.  `JsDate.invalid` is the `Invalid Date`.
* `clickCount` is a natural number (a JavaScript number below `2^53`, where `+= 1` is exact).
* The clock is read once per call (`now`), `Math.random()` is a stream of draws, and whether
  `localStorage.setItem` succeeds is an input (`writeOk`).
* The `do … while` loop of `createMapping` has no bound in the source; the embedding carries a
  `fuel` and yields `none` when the fuel runs out before the loop ends.  More fuel never changes
  a result that was reached (`createMapping_mono`).
* The platform constructor `new URL(s)` is a parameter (`urlParses`) of `isValidURL`, and the
  platform conversion of a string to a number is a parameter (`stringToNumber`) of `Number`.
* A JavaScript number is `NaN`, an infinity or a rational (`-0` is `0`).  Products and sums of
  numbers are rounded to the nearest double (`roundDouble`); the arithmetic on draws is exact.
* `parseInt`, `String.prototype.trim`, `Array.prototype.slice` and the `Date` constructor on a
  number are embedded after ECMAScript.
* Of `Logger.log` the effect on the fields of the instance is embedded; the console output and
  the copy of the last entries in `localStorage` are not.
* Strings are Lean strings.  The two regular expressions of urlUtils.js only accept characters
  of the Basic Latin block, on which UTF-16 code units and Unicode scalar values coincide.
-/

namespace UrlShortener

/-! ## Data model -/

/-- URL mapping record (storage.js, lines 14-23), as it is read back from `localStorage`. -/
structure Mapping where
  shortcode : String
  originalUrl : String
  createdAt : Int
  expiryDate : Option Int
  clickCount : Nat
deriving DecidableEq

/-- The parsed content of the `urlShortener_mappings` item. -/
abbrev Store := List Mapping

/-- A JavaScript `Date` object: a time value in milliseconds or the `Invalid Date`. -/
inductive JsDate where
  | valid (ms : Int)
  | invalid
deriving DecidableEq

/-- The exceptions that the storage functions can raise. -/
inductive JsError where
  /-- storage.js line 82. -/
  | shortcodeInUse (shortcode : String)
  /-- storage.js line 48, raised by `saveMappings` when `setItem` throws. -/
  | saveFailed
  /-- The `RangeError` of `Date.prototype.toISOString` on an `Invalid Date` (line 91). -/
  | invalidTimeValue
deriving DecidableEq

/-- The `message` property of the exception. -/
def JsError.message : JsError → String
  | .shortcodeInUse shortcode =>
      "Shortcode \"" ++ shortcode ++ "\" is already in use. Please choose a different one."
  | .saveFailed => "Failed to save URL mappings. Storage might be full."
  | .invalidTimeValue => "Invalid time value"

/-- One value of `Math.random()`: the number `num / den`, which lies in `[0, 1)`. -/
structure Draw where
  num : Nat
  den : Nat
  lt : num < den

/-- The values that the coming calls of `Math.random()` return. -/
abbrev Rand := Nat → Draw

/-- The stream that is left after `n` draws. -/
def Rand.drop (rand : Rand) (n : Nat) : Rand := fun i => rand (i + n)

/-! ## urlUtils.js -/

/-- The alphabet of `generateShortcode` (urlUtils.js line 34). -/
def chars : String := "abcdefghijklmnopqrstuvwxyzABCDEFGHIJKLMNOPQRSTUVWXYZ0123456789"

/-- Embeds `String.prototype.charAt`: the one-character string at `i`, or `""` out of range. -/
def charAt (s : String) (i : Nat) : String :=
  match s.toList.get? i with
  | some c => String.singleton c
  | none => ""

/-- Embeds `Math.floor(Math.random() * len)` for the draw `d`.  The product is exact here; in
IEEE arithmetic the rounded product of a double below 1 and 62 is still below 62. -/
def randomIndex (d : Draw) (len : Nat) : Nat := d.num * len / d.den

/-- Embeds `generateShortcode(length)` (urlUtils.js lines 33-40): `length` characters, one
draw each. -/
def generateShortcode (rand : Rand) (length : Nat) : String :=
  (List.range length).foldl
    (fun result i => result ++ charAt chars (randomIndex (rand i) chars.length)) ""

/-- The default `length` of `generateShortcode`. -/
def defaultLength : Nat := 6

/-! ### Regular expressions

The two patterns of urlUtils.js are anchored (`^…$`) and use character classes, grouping,
`?`, `+`, `*` and `{m,n}` only, so `test` decides membership of the whole string in a regular
language.  Membership is computed with derivatives. -/

/-- Abstract syntax of the regular expressions. -/
inductive Regex where
  /-- Matches no string. -/
  | none
  /-- Matches the empty string. -/
  | eps
  /-- A character class. -/
  | cls (p : Char → Bool)
  /-- Concatenation. -/
  | seq (r s : Regex)
  /-- Alternation. -/
  | alt (r s : Regex)
  /-- The quantifier `*`. -/
  | star (r : Regex)

namespace Regex

/-- Whether the expression matches the empty string. -/
def nullable : Regex → Bool
  | none => false
  | eps => true
  | cls _ => false
  | seq r s => r.nullable && s.nullable
  | alt r s => r.nullable || s.nullable
  | star _ => true

/-- Concatenation that drops a branch that cannot match. -/
def mkSeq : Regex → Regex → Regex
  | none, _ => none
  | eps, s => s
  | r, s => seq r s

/-- Alternation that drops a branch that cannot match. -/
def mkAlt : Regex → Regex → Regex
  | none, s => s
  | r, none => r
  | r, s => alt r s

/-- The derivative: what must match the rest of the input once `c` has been read. -/
def deriv (c : Char) : Regex → Regex
  | none => none
  | eps => none
  | cls p => if p c then eps else none
  | seq r s => if r.nullable then mkAlt (mkSeq (r.deriv c) s) (s.deriv c) else mkSeq (r.deriv c) s
  | alt r s => mkAlt (r.deriv c) (s.deriv c)
  | star r => mkSeq (r.deriv c) (star r)

/-- Whether the expression matches the whole of `input`. -/
def matchesAll (r : Regex) (input : List Char) : Bool :=
  (input.foldl (fun r c => r.deriv c) r).nullable

/-- The quantifier `?`. -/
def opt (r : Regex) : Regex := alt r eps

/-- The quantifier `+`. -/
def plus (r : Regex) : Regex := seq r (star r)

/-- The quantifier `{0,n}`. -/
def upTo (r : Regex) : Nat → Regex
  | 0 => eps
  | n + 1 => opt (seq r (upTo r n))

/-- The quantifier `{m,n}` (for `m ≤ n`). -/
def range (r : Regex) : Nat → Nat → Regex
  | 0, n => upTo r n
  | m + 1, n => seq r (range r m (n - 1))

/-- A literal string. -/
def lit : List Char → Regex
  | [] => eps
  | c :: cs => seq (cls (fun d => d == c)) (lit cs)

/-- Embeds `RegExp.prototype.test` for a pattern of the form `^r$`. -/
def test (r : Regex) (s : String) : Bool := r.matchesAll s.toList

/-- The strings of the regular language of an expression: the reference semantics against
which the derivative matcher is checked (`matchesAll_iff`). -/
inductive Matches : Regex → List Char → Prop
  | eps : Matches eps []
  | cls (p : Char → Bool) (c : Char) : p c = true → Matches (cls p) [c]
  | seq {r s : Regex} {u v : List Char} :
      Matches r u → Matches s v → Matches (seq r s) (u ++ v)
  | altLeft {r s : Regex} {u : List Char} : Matches r u → Matches (alt r s) u
  | altRight {r s : Regex} {u : List Char} : Matches s u → Matches (alt r s) u
  | starNil {r : Regex} : Matches (star r) []
  | starCons {r : Regex} {u v : List Char} :
      Matches r u → Matches (star r) v → Matches (star r) (u ++ v)

end Regex

/-- The class `\d`. -/
def isDigit (c : Char) : Bool := decide ('0' ≤ c) && decide (c ≤ '9')

/-- The class `a-z`. -/
def isLower (c : Char) : Bool := decide ('a' ≤ c) && decide (c ≤ 'z')

/-- The class `A-Z`. -/
def isUpper (c : Char) : Bool := decide ('A' ≤ c) && decide (c ≤ 'Z')

/-- The class `\w`. -/
def isWord (c : Char) : Bool := isLower c || isUpper c || isDigit c || c == '_'

/-- Embeds `URL_PATTERN` (urlUtils.js line 7):
`/^(https?:\/\/)?([\da-z\.-]+)\.([a-z\.]{2,6})([\/\w \.-]*)*\/?$/`. -/
def URL_PATTERN : Regex :=
  .seq (.opt (.seq (.lit "http".toList) (.seq (.opt (.lit "s".toList)) (.lit "://".toList))))
  (.seq (.plus (.cls (fun c => isDigit c || isLower c || c == '.' || c == '-')))
  (.seq (.lit ".".toList)
  (.seq (.range (.cls (fun c => isLower c || c == '.')) 2 6)
  (.seq (.star (.star (.cls (fun c => c == '/' || isWord c || c == ' ' || c == '.' || c == '-'))))
  (.opt (.lit "/".toList))))))

/-- Embeds `String.prototype.startsWith`. -/
def startsWith (s searchString : String) : Bool := searchString.toList.isPrefixOf s.toList

/-- Embeds `isValidURL(url)` (urlUtils.js lines 14-26).  `urlParses s` tells whether the platform
constructor `new URL(s)` returns instead of throwing. -/
def isValidURL (urlParses : String → Bool) (url : String) : Bool :=
  if url = "" then false
  else
    let urlToTest := if startsWith url "http" then url else "https://" ++ url
    if urlParses urlToTest then URL_PATTERN.test urlToTest else false

/-- The pattern of `isValidShortcode` (urlUtils.js line 51): `/^[a-zA-Z0-9]{3,20}$/`. -/
def shortcodePattern : Regex :=
  .range (.cls (fun c => isLower c || isUpper c || isDigit c)) 3 20

/-- Embeds `isValidShortcode(shortcode)` (urlUtils.js lines 47-53). -/
def isValidShortcode (shortcode : String) : Bool :=
  if shortcode = "" then false else shortcodePattern.test shortcode

/-- Embeds `normalizeURL(url)` (urlUtils.js lines 60-63). -/
def normalizeURL (url : String) : String :=
  if url = "" then ""
  else if startsWith url "http" then url else "https://" ++ url

/-- The class `[a-zA-Z0-9]` of `shortcodePattern`. -/
def isAlphanumeric (c : Char) : Bool := isLower c || isUpper c || isDigit c

/-- A JavaScript number: `NaN`, an infinity, or a finite value (a rational; `-0` is `0`). -/
inductive JsNumber where
  | nan
  | posInf
  | negInf
  | finite (q : ℚ)
deriving DecidableEq

namespace JsNumber

/-- Embeds `isNaN(n)`. -/
def isNaN : JsNumber → Bool
  | nan => true
  | _ => false

/-- The comparison `n > q` for a finite `q`; it is `false` for `NaN`. -/
def greaterThan : JsNumber → ℚ → Bool
  | nan, _ => false
  | posInf, _ => true
  | negInf, _ => false
  | finite x, q => decide (q < x)

/-- Embeds the operator `>` on two numbers; it is `false` when either is `NaN`. -/
def greaterThanNumber : JsNumber → JsNumber → Bool
  | nan, _ => false
  | _, nan => false
  | posInf, posInf => false
  | posInf, _ => true
  | negInf, _ => false
  | finite _, posInf => false
  | finite _, negInf => true
  | finite x, finite y => decide (y < x)

/-- The comparison `n <= q` for a finite `q`; it is `false` for `NaN`. -/
def atMost : JsNumber → ℚ → Bool
  | nan, _ => false
  | posInf, _ => false
  | negInf, _ => true
  | finite x, q => decide (x ≤ q)

end JsNumber

/-- The JavaScript values that the utilities are documented to receive. -/
inductive JsValue where
  | null
  | undefined
  | str (s : String)
  | num (n : JsNumber)
deriving DecidableEq

/-- Whether `!v` is `true`: `null`, `undefined`, the empty string, `0` and `NaN` are falsy. -/
def JsValue.falsy : JsValue → Bool
  | .null => true
  | .undefined => true
  | .str s => decide (s = "")
  | .num .nan => true
  | .num (.finite q) => decide (q = 0)
  | .num _ => false

/-- Embeds `Number(v)`; `stringToNumber` is the platform conversion of a string. -/
def Number (stringToNumber : String → JsNumber) : JsValue → JsNumber
  | .null => .finite 0
  | .undefined => .nan
  | .str s => stringToNumber s
  | .num n => n

/-- Embeds `isValidShortcode(shortcode)` (urlUtils.js lines 47-53) for an argument of any
type: line 48 returns `false` for every value that is not a string. -/
def isValidShortcodeValue : JsValue → Bool
  | .str s => isValidShortcode s
  | _ => false

/-- Embeds `isValidPeriod(period)` (urlUtils.js lines 70-74). -/
def isValidPeriod (stringToNumber : String → JsNumber) (period : JsValue) : Bool :=
  if period.falsy then true
  else
    let num := Number stringToNumber period
    !num.isNaN && num.greaterThan 0 && num.atMost 8760

/-- Embeds `isExpired(expiryDate)` (urlUtils.js lines 92-95) at clock value `now`. -/
def isExpired (now : Int) (expiryDate : Option Int) : Bool :=
  match expiryDate with
  | none => false
  | some e => decide (now > e)

/-! ## storage.js -/

/-- Embeds `getAllMappings()` (storage.js lines 29-37). -/
def getAllMappings (store : Store) : List Mapping := store

/-- Embeds `saveMappings(mappings)` (storage.js lines 43-50): the new store, or the
exception. -/
def saveMappings (writeOk : Bool) (mappings : List Mapping) : Except JsError Store :=
  if writeOk then .ok mappings else .error .saveFailed

/-- Embeds `getMapping(shortcode)` (storage.js lines 57-60). -/
def getMapping (store : Store) (shortcode : String) : Option Mapping :=
  (getAllMappings store).find? (fun mapping => mapping.shortcode == shortcode)

/-- The `do … while` loop of `createMapping` (storage.js lines 76-78): draws shortcodes until
one is not stored.  Returns the shortcode and the remaining random stream; `none` when `fuel`
iterations did not end the loop. -/
def generateUnique : Nat → Rand → List Mapping → Option (String × Rand)
  | 0, _, _ => none
  | fuel + 1, rand, mappings =>
    let shortcode := generateShortcode rand defaultLength
    if mappings.any (fun mapping => mapping.shortcode == shortcode) then
      generateUnique fuel (rand.drop defaultLength) mappings
    else
      some (shortcode, rand.drop defaultLength)

/-- What a call leaves behind: its completion (a value or an exception), the store, and the
random stream. -/
structure Outcome (α : Type) where
  result : α
  store : Store
  rand : Rand

/-- Lines 73-84 of `createMapping`: the generated or the checked custom shortcode.
`customShortcode = none` is `null`/`undefined`; the empty string is falsy as well. -/
def resolveShortcode (fuel : Nat) (rand : Rand) (mappings : List Mapping)
    (customShortcode : Option String) : Option (Except JsError String × Rand) :=
  match customShortcode with
  | some shortcode =>
    if shortcode = "" then
      (generateUnique fuel rand mappings).map (fun p => (.ok p.1, p.2))
    else if mappings.any (fun mapping => mapping.shortcode == shortcode) then
      some (.error (.shortcodeInUse shortcode), rand)
    else
      some (.ok shortcode, rand)
  | none => (generateUnique fuel rand mappings).map (fun p => (.ok p.1, p.2))

/-- Line 91 of `createMapping`: `expiryDate ? expiryDate.toISOString() : null`. -/
def expiryToISO : Option JsDate → Except JsError (Option Int)
  | none => .ok none
  | some (.valid ms) => .ok (some ms)
  | some .invalid => .error .invalidTimeValue

/-- Embeds `createMapping(originalUrl, customShortcode, expiryDate)` (storage.js lines 69-100). -/
def createMapping (fuel : Nat) (rand : Rand) (now : Int) (writeOk : Bool) (store : Store)
    (originalUrl : String) (customShortcode : Option String) (expiryDate : Option JsDate) :
    Option (Outcome (Except JsError Mapping)) :=
  let mappings := getAllMappings store
  match resolveShortcode fuel rand mappings customShortcode with
  | none => none
  | some (.error e, rand1) => some ⟨.error e, store, rand1⟩
  | some (.ok shortcode, rand1) =>
    -- lines 87-93: the new record
    match expiryToISO expiryDate with
    | .error e => some ⟨.error e, store, rand1⟩
    | .ok expiryIso =>
      let newMapping : Mapping := ⟨shortcode, originalUrl, now, expiryIso, 0⟩
      -- lines 96-99: save and return
      let updatedMappings := mappings ++ [newMapping]
      match saveMappings writeOk updatedMappings with
      | .error e => some ⟨.error e, store, rand1⟩
      | .ok store1 => some ⟨.ok newMapping, store1, rand1⟩

/-- One element of the `urlData` array of `createMultipleMappings`. -/
structure UrlData where
  url : String
  shortcode : Option String
  expiryDate : Option JsDate
deriving DecidableEq

/-- One element of the `errors` array of `createMultipleMappings` (storage.js line 116). -/
structure CreationError where
  index : Nat
  url : String
  error : String
deriving DecidableEq

/-- The object `{ results, errors }` that `createMultipleMappings` returns. -/
structure BatchResult where
  results : List Mapping
  errors : List CreationError
deriving DecidableEq

/-- The clock value and the fate of the write of one call. -/
structure Env where
  now : Int
  writeOk : Bool

/-- The `forEach` of `createMultipleMappings` (storage.js lines 111-118), from position `index`
on; the request at position `i` runs under `env i`. -/
def createMultipleMappingsFrom (fuel : Nat) (env : Nat → Env) :
    Nat → List UrlData → Rand → Store → List Mapping → List CreationError →
    Option (Outcome BatchResult)
  | _, [], rand, store, results, errors => some ⟨⟨results, errors⟩, store, rand⟩
  | index, data :: rest, rand, store, results, errors =>
    match createMapping fuel rand (env index).now (env index).writeOk store
        data.url data.shortcode data.expiryDate with
    | none => none
    | some out =>
      match out.result with
      | .ok mapping =>
        createMultipleMappingsFrom fuel env (index + 1) rest out.rand out.store
          (results ++ [mapping]) errors
      | .error error =>
        createMultipleMappingsFrom fuel env (index + 1) rest out.rand out.store
          results (errors ++ [⟨index, data.url, error.message⟩])

/-- Embeds `createMultipleMappings(urlData)` (storage.js lines 107-121). -/
def createMultipleMappings (fuel : Nat) (rand : Rand) (env : Nat → Env) (store : Store)
    (urlData : List UrlData) : Option (Outcome BatchResult) :=
  createMultipleMappingsFrom fuel env 0 urlData rand store [] []

/-- Embeds `Array.prototype.findIndex`; `none` stands for `-1`. -/
def findIndex {α : Type} (p : α → Bool) : List α → Option Nat
  | [] => none
  | a :: l => if p a then some 0 else (findIndex p l).map (· + 1)

/-- The record after `clickCount += 1` (storage.js line 140). -/
def Mapping.clicked (mapping : Mapping) : Mapping :=
  { mapping with clickCount := mapping.clickCount + 1 }

/-- Embeds `incrementClickCount(shortcode)` (storage.js lines 128-147): the returned boolean and the
store afterwards. -/
def incrementClickCount (now : Int) (writeOk : Bool) (store : Store) (shortcode : String) :
    Bool × Store :=
  let mappings := getAllMappings store
  match findIndex (fun mapping => mapping.shortcode == shortcode) mappings with
  | none => (false, store)
  | some mappingIndex =>
    match mappings.get? mappingIndex with
    | none => (false, store)
    | some mapping =>
      if isExpired now mapping.expiryDate then (false, store)
      else
        let mappings1 := mappings.set mappingIndex mapping.clicked
        match saveMappings writeOk mappings1 with
        | .error _ => (false, store)
        | .ok store1 => (true, store1)

/-- The object that `getStatistics` returns. -/
structure Statistics where
  totalUrls : Nat
  totalClicks : Nat
  activeUrls : Nat
  expiredUrls : Nat
deriving DecidableEq

/-- Embeds `getStatistics()` (storage.js lines 153-164). -/
def getStatistics (now : Int) (store : Store) : Statistics :=
  let mappings := getAllMappings store
  { totalUrls := mappings.length
    totalClicks := mappings.foldl (fun sum mapping => sum + mapping.clickCount) 0
    activeUrls := (mappings.filter (fun mapping => !isExpired now mapping.expiryDate)).length
    expiredUrls := (mappings.filter (fun mapping => isExpired now mapping.expiryDate)).length }

/-- Embeds `cleanupExpiredUrls()` (storage.js lines 170-180): the removed count or the exception of
`saveMappings`, and the store afterwards. -/
def cleanupExpiredUrls (now : Int) (writeOk : Bool) (store : Store) :
    Except JsError Nat × Store :=
  let mappings := getAllMappings store
  let activeMappings := mappings.filter (fun mapping => !isExpired now mapping.expiryDate)
  let removedCount := mappings.length - activeMappings.length
  if removedCount > 0 then
    match saveMappings writeOk activeMappings with
    | .error e => (.error e, store)
    | .ok store1 => (.ok removedCount, store1)
  else (.ok removedCount, store)

/-- Embeds `deleteMapping(shortcode)` (storage.js lines 187-202). -/
def deleteMapping (writeOk : Bool) (store : Store) (shortcode : String) : Bool × Store :=
  let mappings := getAllMappings store
  let filteredMappings := mappings.filter (fun mapping => mapping.shortcode != shortcode)
  if filteredMappings.length = mappings.length then (false, store)
  else
    match saveMappings writeOk filteredMappings with
    | .error _ => (false, store)
    | .ok store1 => (true, store1)

/-! ## The batch as a sequence of `createMapping` calls -/

/-- Applies `createMapping` to the requests one after the other, each against the store and
the random stream left by the previous one; the request at position `i` of the batch runs
under `env i`.  Returns the outcome of every call, in request order. -/
def runRequests (fuel : Nat) (env : Nat → Env) :
    Nat → List UrlData → Rand → Store → Option (List (Outcome (Except JsError Mapping)))
  | _, [], _, _ => some []
  | index, data :: rest, rand, store =>
    match createMapping fuel rand (env index).now (env index).writeOk store
        data.url data.shortcode data.expiryDate with
    | none => none
    | some out => (runRequests fuel env (index + 1) rest out.rand out.store).map (out :: ·)

/-- The records of the calls that returned, in call order. -/
def createdOf : List (Outcome (Except JsError Mapping)) → List Mapping
  | [] => []
  | out :: outs =>
    match out.result with
    | .ok mapping => mapping :: createdOf outs
    | .error _ => createdOf outs

/-- The error entries of the calls that threw, in call order; the first call is the request at
position `index`. -/
def failuresFrom : Nat → List UrlData → List (Outcome (Except JsError Mapping)) →
    List CreationError
  | index, data :: rest, out :: outs =>
    match out.result with
    | .ok _ => failuresFrom (index + 1) rest outs
    | .error error => ⟨index, data.url, error.message⟩ :: failuresFrom (index + 1) rest outs
  | _, _, _ => []

/-- The store after the last call. -/
def lastStore (store : Store) : List (Outcome (Except JsError Mapping)) → Store
  | [] => store
  | out :: outs => lastStore out.store outs

/-- The random stream after the last call. -/
def lastRand (rand : Rand) : List (Outcome (Except JsError Mapping)) → Rand
  | [] => rand
  | out :: outs => lastRand out.rand outs

/-! ## Sequences of calls -/

/-- One call of the mutating interface of storage.js, together with what the environment
contributes to it (clock, random stream, fate of the write, fuel of the generation loop). -/
inductive Call where
  /-- A call of `createMapping`. -/
  | create (fuel : Nat) (rand : Rand) (env : Env) (originalUrl : String)
      (customShortcode : Option String) (expiryDate : Option JsDate)
  /-- A call of `incrementClickCount`. -/
  | click (env : Env) (shortcode : String)
  /-- A call of `deleteMapping`. -/
  | delete (env : Env) (shortcode : String)
  /-- A call of `cleanupExpiredUrls`. -/
  | cleanup (env : Env)

/-- Whether the call is one of the two that remove records. -/
def Call.removes : Call → Bool
  | .delete _ _ => true
  | .cleanup _ => true
  | _ => false

/-- The store after the call and, for a `createMapping` that returned, the returned record;
`none` when the call does not return. -/
def Call.run : Call → Store → Option (Store × Option Mapping)
  | .create fuel rand env originalUrl customShortcode expiryDate, store =>
    match createMapping fuel rand env.now env.writeOk store originalUrl customShortcode
        expiryDate with
    | none => none
    | some out =>
      match out.result with
      | .ok mapping => some (out.store, some mapping)
      | .error _ => some (out.store, none)
  | .click env shortcode, store =>
    some ((incrementClickCount env.now env.writeOk store shortcode).2, none)
  | .delete env shortcode, store =>
    some ((deleteMapping env.writeOk store shortcode).2, none)
  | .cleanup env, store =>
    some ((cleanupExpiredUrls env.now env.writeOk store).2, none)

/-- Runs the calls one after the other: the final store and the records returned by the
successful `createMapping` calls, in call order. -/
def runCalls : List Call → Store → Option (Store × List Mapping)
  | [], store => some (store, [])
  | call :: calls, store =>
    match call.run store with
    | none => none
    | some (store1, created) =>
      match runCalls calls store1 with
      | none => none
      | some (store2, rest) => some (store2, created.toList ++ rest)

/-- The shortcodes of the stored records, in store order. -/
def shortcodes (store : Store) : List String := store.map (fun mapping => mapping.shortcode)


/-! ## urlUtils.js: expiry dates

A finite `JsNumber` is a rational; the operators `*` and `+` round their exact result to the
nearest double (53 significant bits, ties to even, subnormal numbers and overflow included),
as IEEE 754 prescribes.  The time value of a `Date` is a whole number of milliseconds of
absolute value at most `8.64e15`; any other argument of the constructor gives an
`Invalid Date`. -/

/-- The integer nearest to a rational; of two nearest integers the even one. -/
def roundHalfEven (x : ℚ) : Int :=
  if x - ⌊x⌋ < 1 / 2 then ⌊x⌋
  else if 1 / 2 < x - ⌊x⌋ then ⌊x⌋ + 1
  else if ⌊x⌋ % 2 = 0 then ⌊x⌋ else ⌊x⌋ + 1

/-- The exponent of the unit in the last place of the doubles around `x`: a double has 53
significant bits, and the subnormal doubles are the multiples of `2 ^ (-1074)`. -/
def ulpExponent (x : ℚ) : Int := max (Int.log 2 |x| - 52) (-1074)

/-- The double nearest to a rational (round to nearest, ties to even); an infinity when the
rounded value is beyond the largest double. -/
def roundDouble (x : ℚ) : JsNumber :=
  let rounded : ℚ := roundHalfEven (x / 2 ^ ulpExponent x) * 2 ^ ulpExponent x
  if (2 : ℚ) ^ (1024 : Int) ≤ |rounded| then (if 0 < x then .posInf else .negInf)
  else .finite rounded

namespace JsNumber

/-- Embeds the operator `*` on numbers. -/
def mul : JsNumber → JsNumber → JsNumber
  | finite x, finite y => roundDouble (x * y)
  | finite x, posInf => if x = 0 then nan else if 0 < x then posInf else negInf
  | finite x, negInf => if x = 0 then nan else if 0 < x then negInf else posInf
  | posInf, finite y => if y = 0 then nan else if 0 < y then posInf else negInf
  | negInf, finite y => if y = 0 then nan else if 0 < y then negInf else posInf
  | posInf, posInf => posInf
  | posInf, negInf => negInf
  | negInf, posInf => negInf
  | negInf, negInf => posInf
  | _, _ => nan

/-- Embeds the operator `+` on numbers. -/
def add : JsNumber → JsNumber → JsNumber
  | finite x, finite y => roundDouble (x + y)
  | finite _, posInf => posInf
  | finite _, negInf => negInf
  | posInf, finite _ => posInf
  | negInf, finite _ => negInf
  | posInf, posInf => posInf
  | negInf, negInf => negInf
  | _, _ => nan

/-- Embeds the unary operator `-` on numbers. -/
def neg : JsNumber → JsNumber
  | nan => nan
  | posInf => negInf
  | negInf => posInf
  | finite x => finite (-x)

end JsNumber

/-- The integer part of a rational, rounding towards zero (`ToIntegerOrInfinity` on a finite
number). -/
def truncate (q : ℚ) : Int := if 0 ≤ q then ⌊q⌋ else ⌈q⌉

/-- The largest time value of a `Date`, in milliseconds. -/
def maxTime : Int := 8640000000000000

/-- Embeds `new Date(value)` for a number `value`: the time value is `TimeClip(value)`. -/
def newDate (value : JsNumber) : JsDate :=
  match value with
  | .finite q => if |q| > (maxTime : ℚ) then .invalid else .valid (truncate q)
  | _ => .invalid

/-- Embeds `calculateExpiryDate(hours)` (urlUtils.js lines 81-85) for a number `hours` at clock
value `now`; `none` is `null`. -/
def calculateExpiryDate (now : Int) (hours : JsNumber) : Option JsDate :=
  if (JsValue.num hours).falsy then none
  else
    some (newDate ((JsNumber.finite now).add
      (((hours.mul (.finite 60)).mul (.finite 60)).mul (.finite 1000))))

/-- Embeds `isExpired(expiryDate)` (urlUtils.js lines 92-95) at clock value `now` for an
argument that is `null` or a `Date` object: an object is truthy, `new Date(date)` has the
time value of `date`, and a comparison with the `NaN` of an `Invalid Date` is `false`. -/
def isExpiredDate (now : Int) (expiryDate : Option JsDate) : Bool :=
  match expiryDate with
  | none => false
  | some .invalid => false
  | some (.valid e) => decide (now > e)

/-! ## ShortenerForm.jsx -/

/-- The characters that `String.prototype.trim` and `parseInt` skip: the white space and line
terminator code points of ECMAScript. -/
def isJsWhitespace (c : Char) : Bool :=
  let n := c.toNat
  (9 ≤ n && n ≤ 13) || n == 32 || n == 160 || n == 5760 || (8192 ≤ n && n ≤ 8202) ||
    n == 8232 || n == 8233 || n == 8239 || n == 8287 || n == 12288 || n == 65279

/-- Embeds `String.prototype.trim`. -/
def trim (s : String) : String :=
  String.mk ((s.toList.dropWhile isJsWhitespace).reverse.dropWhile isJsWhitespace).reverse

/-- The value of a digit of `parseInt`: `0`-`9`, and `a`-`z` or `A`-`Z` for ten to
thirty-five. -/
def digitValue (c : Char) : Option Nat :=
  if isDigit c then some (c.toNat - 48)
  else if isLower c then some (c.toNat - 97 + 10)
  else if isUpper c then some (c.toNat - 65 + 10)
  else none

/-- The mathematical integer that `parseInt(string)` reads, called without a radix: white
space is skipped, then a sign, then the prefix `0x` or `0X` (radix 16), then the longest run of
digits of the radix is read; the rest of the string is ignored, and the result is `none` when
no digit was read. -/
def parseIntValue (string : String) : Option Int :=
  let s := string.toList.dropWhile isJsWhitespace
  let sign : Int := match s with
    | '-' :: _ => -1
    | _ => 1
  let s := match s with
    | '-' :: rest => rest
    | '+' :: rest => rest
    | _ => s
  let radix : Nat := match s with
    | '0' :: 'x' :: _ => 16
    | '0' :: 'X' :: _ => 16
    | _ => 10
  let s := match s with
    | '0' :: 'x' :: rest => rest
    | '0' :: 'X' :: rest => rest
    | _ => s
  let digits := s.takeWhile (fun c => match digitValue c with
    | some d => decide (d < radix)
    | none => false)
  if digits.isEmpty then none
  else some (sign * ((digits.foldl (fun n c => n * radix + (digitValue c).getD 0) 0 : Nat) : Int))

/-- Embeds the platform function `parseInt(string)` called without a radix: `NaN` when no digit
was read, else the double nearest to the integer read. -/
def parseInt (string : String) : JsNumber :=
  match parseIntValue string with
  | none => .nan
  | some n => roundDouble n

/-- One row of the form's state `urls` (ShortenerForm.jsx line 37): the three input values. -/
structure UrlInput where
  url : String
  shortcode : String
  validityPeriod : String
deriving DecidableEq

/-- The checks that `validateInputs` makes on one row (ShortenerForm.jsx lines 100-130):
whether the row raises no error. -/
def validateInput (urlParses : String → Bool) (stringToNumber : String → JsNumber)
    (urlData : UrlInput) : Bool :=
  (!decide (trim urlData.url = "") && isValidURL urlParses urlData.url) &&
  (decide (urlData.shortcode = "") || isValidShortcode urlData.shortcode) &&
  (decide (urlData.validityPeriod = "") ||
    isValidPeriod stringToNumber (.str urlData.validityPeriod))

/-- The request that `handleSubmit` prepares from one row (ShortenerForm.jsx lines 160-166);
`now` is the clock value read by `calculateExpiryDate`. -/
def prepareUrlData (now : Int) (urlInput : UrlInput) : UrlData :=
  { url := normalizeURL (trim urlInput.url)
    shortcode := if trim urlInput.shortcode = "" then none else some (trim urlInput.shortcode)
    expiryDate :=
      if urlInput.validityPeriod = "" then none
      else calculateExpiryDate now (parseInt urlInput.validityPeriod) }

/-! ## loggerMiddleware.js -/

/-- Embeds `Array.prototype.slice(start)` for a number `start`: a negative `start` counts from
the end of the array. -/
def slice {α : Type} (array : List α) (start : JsNumber) : List α :=
  match start with
  | .nan => array
  | .negInf => array
  | .posInf => []
  | .finite q =>
    let relativeStart := truncate q
    if relativeStart < 0 then array.drop ((array.length : Int) + relativeStart).toNat
    else array.drop relativeStart.toNat

/-- The object that `createLogEntry` builds (loggerMiddleware.js lines 41-52); `data` stands
for the copied data object. -/
structure LogEntry where
  timestamp : Int
  level : String
  category : String
  message : String
  data : String
  sessionId : String
  userAgent : String
  url : String
deriving DecidableEq

/-- The fields of a `Logger` instance (loggerMiddleware.js lines 25-30); `sessionId` is absent
until `getSessionId` sets it. -/
structure Logger where
  logs : List LogEntry
  maxLogs : JsNumber
  enableConsoleOutput : Bool
  enableStorage : Bool
  sessionId : Option String
deriving DecidableEq

/-- What the environment contributes to one call of `log`: the clock, the session identifier
that `getSessionId` would make up, `navigator.userAgent` and `window.location.href`. -/
structure LogEnv where
  now : Int
  freshSessionId : String
  userAgent : String
  href : String

/-- The argument of `configure`: each property is a value or `undefined` (`none`). -/
structure LoggerConfig where
  enableConsoleOutput : Option Bool
  enableStorage : Option Bool
  maxLogs : Option JsNumber

namespace Logger

/-- Embeds the constructor (loggerMiddleware.js lines 25-30). -/
def new : Logger := ⟨[], .finite 1000, true, true, none⟩

/-- Embeds `getSessionId()` (loggerMiddleware.js lines 58-63). -/
def getSessionId (logger : Logger) (env : LogEnv) : String × Logger :=
  match logger.sessionId with
  | some sessionId => (sessionId, logger)
  | none => (env.freshSessionId, { logger with sessionId := some env.freshSessionId })

/-- Embeds `createLogEntry(level, category, message, data)` (loggerMiddleware.js
lines 41-52). -/
def createLogEntry (logger : Logger) (env : LogEnv) (level category message data : String) :
    LogEntry × Logger :=
  let (sessionId, logger1) := logger.getSessionId env
  (⟨env.now, level, category, message, data, sessionId, env.userAgent, env.href⟩, logger1)

/-- Embeds `log(level, category, message, data)` (loggerMiddleware.js lines 71-95), as far as the
fields of the instance go: the console output, the copy kept in `localStorage` and
`handleError` do not touch them. -/
def log (logger : Logger) (env : LogEnv) (level category message data : String) : Logger :=
  let (logEntry, logger1) := logger.createLogEntry env level category message data
  let logs := logger1.logs ++ [logEntry]
  if (JsNumber.finite logs.length).greaterThanNumber logger1.maxLogs then
    { logger1 with logs := slice logs logger1.maxLogs.neg }
  else { logger1 with logs := logs }

/-- Embeds `getLogs()` (loggerMiddleware.js lines 176-178). -/
def getLogs (logger : Logger) : List LogEntry := logger.logs

/-- Embeds `configure(config)` (loggerMiddleware.js lines 208-218). -/
def configure (logger : Logger) (config : LoggerConfig) : Logger :=
  let logger1 := match config.enableConsoleOutput with
    | some value => { logger with enableConsoleOutput := value }
    | none => logger
  let logger2 := match config.enableStorage with
    | some value => { logger1 with enableStorage := value }
    | none => logger1
  match config.maxLogs with
  | some value => { logger2 with maxLogs := value }
  | none => logger2

end Logger

/-- One call of `log`: what the environment contributes and the four arguments. -/
structure LogCall where
  env : LogEnv
  level : String
  category : String
  message : String
  data : String

/-- The logger after the calls of `log`, made one after the other. -/
def logAll (logger : Logger) (calls : List LogCall) : Logger :=
  calls.foldl (fun logger call =>
    logger.log call.env call.level call.category call.message call.data) logger


/-! ## Auxiliary notions for the proofs -/

/-- Whether no character class of the expression contains `c`, so that no string it matches
contains `c`. -/
def Regex.rejects (c : Char) : Regex → Bool
  | .none => true
  | .eps => true
  | .cls p => !p c
  | .seq r s => r.rejects c && s.rejects c
  | .alt r s => r.rejects c && s.rejects c
  | .star r => r.rejects c

/-- The code points that `isJsWhitespace` accepts. -/
def whitespaceCodes : List Nat :=
  [9, 10, 11, 12, 13, 32, 160, 5760, 8192, 8193, 8194, 8195, 8196, 8197, 8198, 8199, 8200,
   8201, 8202, 8232, 8233, 8239, 8287, 12288, 65279]


/-! ## Sample inputs -/

/-- A random stream whose `k`-th group of six draws selects the `k`-th letter of the alphabet
six times: it generates `aaaaaa`, then `bbbbbb`, and so on. -/
def stepRand : Rand := fun i => ⟨i / 6 % 62, 62, Nat.mod_lt _ (by decide)⟩

/-- The environment with clock value `now` in which the write succeeds. -/
def envAt (now : Int) : Env := ⟨now, true⟩

/-- A sequence of calls without removals: a generated shortcode, a colliding custom one, a
second generated one (whose first draw collides), and a click. -/
def sampleCalls : List Call :=
  [.create 5 stepRand (envAt 1000) "https://a.example" none none,
   .create 5 stepRand (envAt 2000) "https://b.example" (some "aaaaaa") none,
   .create 5 stepRand (envAt 3000) "https://c.example" (some "") none,
   .click (envAt 4000) "bbbbbb"]

/-- The store that `sampleCalls` leaves. -/
def sampleStore : Store :=
  [⟨"aaaaaa", "https://a.example", 1000, none, 0⟩, ⟨"bbbbbb", "https://c.example", 3000, none, 1⟩]

/-- The records that the `createMapping` calls of `sampleCalls` return. -/
def sampleCreated : List Mapping :=
  [⟨"aaaaaa", "https://a.example", 1000, none, 0⟩, ⟨"bbbbbb", "https://c.example", 3000, none, 0⟩]

/-- A batch of three requests whose second url is not a valid URL. -/
def batchWithInvalidUrl : List UrlData :=
  [⟨"https://a.example", none, none⟩, ⟨"not a url", none, none⟩,
   ⟨"https://c.example", none, none⟩]

/-- A batch of three requests whose second custom shortcode is already stored in
`[⟨"abc123", "https://old.example", 500, none, 4⟩]`. -/
def batchWithTakenShortcode : List UrlData :=
  [⟨"https://a.example", some "first", none⟩, ⟨"not a url", some "abc123", none⟩,
   ⟨"https://c.example", none, some (.valid 9000)⟩]

/-- The store in which `abc123` is taken. -/
def storeWithAbc123 : Store := [⟨"abc123", "https://old.example", 500, none, 4⟩]

/-- What `createMultipleMappings` leaves for `batchWithTakenShortcode` on `storeWithAbc123`
at clock value 1000 with the random stream `stepRand`. -/
def takenShortcodeOutcome : Outcome BatchResult :=
  ⟨⟨[⟨"first", "https://a.example", 1000, none, 0⟩,
      ⟨"aaaaaa", "https://c.example", 1000, some 9000, 0⟩],
     [⟨1, "not a url",
        "Shortcode \"abc123\" is already in use. Please choose a different one."⟩]⟩,
    [⟨"abc123", "https://old.example", 500, none, 4⟩,
     ⟨"first", "https://a.example", 1000, none, 0⟩,
     ⟨"aaaaaa", "https://c.example", 1000, some 9000, 0⟩],
    stepRand.drop defaultLength⟩

/-- A stand-in for the platform constructor `new URL(s)` in examples: the string begins with
`http://` or `https://`.  On `httpbin.org` (no scheme and no base URL, so the constructor
throws) and on `https://httpbin.org` (which parses) it agrees with the platform. -/
def hasHttpScheme (s : String) : Bool := startsWith s "http://" || startsWith s "https://"

/-- Five records of which the first and the fourth are expired at clock value 1000. -/
def fiveRecords : Store :=
  [⟨"a1", "https://a.example", 0, some 10, 1⟩, ⟨"b2", "https://b.example", 0, none, 2⟩,
   ⟨"c3", "https://c.example", 0, some 2000, 3⟩, ⟨"d4", "https://d.example", 0, some 999, 4⟩,
   ⟨"e5", "https://e.example", 0, some 1000, 5⟩]

/-- The character that the `i`-th draw of `rand` selects from `chars`. -/
def drawnChar (rand : Rand) (i : Nat) : Char :=
  (chars.toList.get? (randomIndex (rand i) chars.length)).getD 'a'


/-- A random stream whose every draw is 0: it generates `aaaaaa` every time. -/
def zeroRand : Rand := fun _ => ⟨0, 1, Nat.zero_lt_one⟩

/-- The shortcode that the `k`-th iteration (counted from 0) of the generation loop of
`createMapping` draws from the stream `rand`. -/
def candidate (rand : Rand) (k : Nat) : String :=
  generateShortcode (rand.drop (defaultLength * k)) defaultLength


/-- A batch of three requests that carry the same custom shortcode `dup`. -/
def batchWithDuplicates : List UrlData :=
  [⟨"https://a.example", some "dup", none⟩, ⟨"https://b.example", some "dup", none⟩,
   ⟨"https://c.example", some "dup", none⟩]

/-- A batch of two requests that carry the empty string as custom shortcode. -/
def batchWithEmptyShortcodes : List UrlData :=
  [⟨"https://a.example", some "", none⟩, ⟨"https://b.example", some "", none⟩]


/-- The number that a run of decimal digits denotes. -/
def decimalValue (digits : List Char) : Nat :=
  digits.foldl (fun n c => n * 10 + (c.toNat - 48)) 0

/-- A stand-in for the platform conversion `Number(s)` of a string in examples: it reads
decimal digits with at most one point.  On `24`, `0.5` and `1.5` it agrees with the
platform. -/
def decimalNumber (s : String) : JsNumber :=
  let whole := s.toList.takeWhile isDigit
  match s.toList.dropWhile isDigit with
  | [] => .finite (decimalValue whole)
  | '.' :: fraction =>
    if fraction.all isDigit && !(whole.isEmpty && fraction.isEmpty) then
      .finite (decimalValue whole + decimalValue fraction / 10 ^ fraction.length)
    else .nan
  | _ => .nan


/-- Every generation loop of the batch ends: for every request without a custom shortcode,
once the requests before it have completed, one of the shortcodes drawn at its turn is not
stored. -/
def GenerationEnds (env : Nat → Env) (rand : Rand) (store : Store) (urlData : List UrlData) :
    Prop :=
  ∀ j d, urlData.get? j = some d → (d.shortcode = none ∨ d.shortcode = some "") →
    ∀ fuel outs, runRequests fuel env 0 (urlData.take j) rand store = some outs →
      ∃ k, candidate (lastRand rand outs) k ∉ shortcodes (lastStore store outs)

/-- A batch whose third request needs a generated shortcode, after two requests with the custom
shortcode `dup`. -/
def batchWithGeneration : List UrlData :=
  [⟨"https://a.example", some "dup", none⟩, ⟨"https://b.example", some "dup", none⟩,
   ⟨"https://c.example", none, none⟩]

/-- The store in which `aaaaaa` is taken. -/
def storeWithAaaaaa : Store := [⟨"aaaaaa", "https://old.example", 500, none, 0⟩]

/-! ## Lemmas -/

theorem any_shortcode_eq_false_iff (store : Store) (s : String) :
    store.any (fun mapping => mapping.shortcode == s) = false ↔ s ∉ shortcodes store := by
  induction store with
  | nil => simp [shortcodes]
  | cons m l ih =>
    simp only [shortcodes, List.map_cons, List.mem_cons, not_or] at ih ⊢
    simp only [List.any_cons, Bool.or_eq_false_iff, ih, beq_eq_false_iff_ne, ne_eq]
    constructor
    · rintro ⟨h1, h2⟩; exact ⟨fun h => h1 h.symm, h2⟩
    · rintro ⟨h1, h2⟩; exact ⟨fun h => h1 h.symm, h2⟩

theorem any_shortcode_eq_true_iff (store : Store) (s : String) :
    store.any (fun mapping => mapping.shortcode == s) = true ↔ s ∈ shortcodes store := by
  rw [← not_iff_not, Bool.not_eq_true, any_shortcode_eq_false_iff]

theorem generateUnique_fresh (fuel : Nat) (rand : Rand) (mappings : List Mapping)
    (p : String × Rand) (h : generateUnique fuel rand mappings = some p) :
    p.1 ∉ shortcodes mappings := by
  induction fuel generalizing rand with
  | zero => simp [generateUnique] at h
  | succ n ih =>
    simp only [generateUnique] at h
    split at h
    · exact ih _ h
    · rename_i hany
      simp only [Option.some.injEq] at h
      subst h
      rw [Bool.not_eq_true] at hany
      exact (any_shortcode_eq_false_iff _ _).1 hany

theorem resolveShortcode_ok (fuel : Nat) (rand rand1 : Rand) (mappings : List Mapping)
    (customShortcode : Option String) (shortcode : String)
    (h : resolveShortcode fuel rand mappings customShortcode = some (.ok shortcode, rand1)) :
    shortcode ∉ shortcodes mappings ∧
      ∀ s, customShortcode = some s → s ≠ "" → shortcode = s := by
  unfold resolveShortcode at h
  split at h
  · rename_i s
    split at h
    · rename_i hs
      cases hg : generateUnique fuel rand mappings with
      | none => simp [hg] at h
      | some p =>
        simp only [hg, Option.map_some', Option.some.injEq, Prod.mk.injEq, Except.ok.injEq] at h
        refine ⟨?_, ?_⟩
        · rw [← h.1]; exact generateUnique_fresh _ _ _ _ hg
        · intro s1 h1 h2
          simp only [Option.some.injEq] at h1
          exact absurd (h1 ▸ hs) h2
    · split at h
      · simp at h
      · rename_i hany
        simp only [Option.some.injEq, Prod.mk.injEq, Except.ok.injEq] at h
        refine ⟨?_, ?_⟩
        · rw [← h.1]
          rw [Bool.not_eq_true] at hany
          exact (any_shortcode_eq_false_iff _ _).1 hany
        · intro s1 h1 _
          simp only [Option.some.injEq] at h1
          rw [← h.1, h1]
  · cases hg : generateUnique fuel rand mappings with
    | none => simp [hg] at h
    | some p =>
      simp only [hg, Option.map_some', Option.some.injEq, Prod.mk.injEq, Except.ok.injEq] at h
      refine ⟨?_, ?_⟩
      · rw [← h.1]; exact generateUnique_fresh _ _ _ _ hg
      · intro s1 h1; simp at h1

/-- Every completed call of `createMapping` either raised an exception and left the store as
it was, or appended exactly the returned record, whose shortcode was not stored before. -/
theorem createMapping_inv {fuel : Nat} {rand : Rand} {now : Int} {writeOk : Bool}
    {store : Store} {originalUrl : String} {customShortcode : Option String}
    {expiryDate : Option JsDate} {out : Outcome (Except JsError Mapping)}
    (h : createMapping fuel rand now writeOk store originalUrl customShortcode expiryDate
      = some out) :
    (∃ e, out.result = .error e ∧ out.store = store) ∨
    (∃ shortcode iso, out.result = .ok ⟨shortcode, originalUrl, now, iso, 0⟩ ∧
      out.store = store ++ [⟨shortcode, originalUrl, now, iso, 0⟩] ∧ writeOk = true ∧
      shortcode ∉ shortcodes store ∧ expiryToISO expiryDate = .ok iso ∧
      ∀ s, customShortcode = some s → s ≠ "" → shortcode = s) := by
  unfold createMapping at h
  simp only [getAllMappings] at h
  split at h
  · simp at h
  · simp only [Option.some.injEq] at h
    subst h
    exact Or.inl ⟨_, rfl, rfl⟩
  · rename_i shortcode rand1 hres
    have hfresh := resolveShortcode_ok _ _ _ _ _ _ hres
    split at h
    · simp only [Option.some.injEq] at h
      subst h
      exact Or.inl ⟨_, rfl, rfl⟩
    · rename_i iso hiso
      cases writeOk with
      | false =>
        simp only [saveMappings, Bool.false_eq_true, if_false, Option.some.injEq] at h
        subst h
        exact Or.inl ⟨_, rfl, rfl⟩
      | true =>
        simp only [saveMappings, if_true, Option.some.injEq] at h
        subst h
        exact Or.inr ⟨shortcode, iso, rfl, rfl, rfl, hfresh.1, hiso, hfresh.2⟩

theorem findIndex_eq_none_iff {α : Type} (p : α → Bool) (l : List α) :
    findIndex p l = none ↔ ∀ a ∈ l, p a = false := by
  induction l with
  | nil => simp [findIndex]
  | cons a l ih =>
    by_cases ha : p a = true
    · simp [findIndex, ha]
    · simp only [Bool.not_eq_true] at ha
      simp [findIndex, ha, ih]

theorem findIndex_eq_some {α : Type} (p : α → Bool) (l : List α) (i : Nat)
    (h : findIndex p l = some i) :
    ∃ a, l.get? i = some a ∧ p a = true ∧ l.find? p = some a := by
  induction l generalizing i with
  | nil => simp [findIndex] at h
  | cons b l ih =>
    by_cases hb : p b = true
    · simp only [findIndex, hb, if_true, Option.some.injEq] at h
      subst h
      exact ⟨b, rfl, hb, by simp [List.find?, hb]⟩
    · simp only [Bool.not_eq_true] at hb
      simp only [findIndex, hb, Bool.false_eq_true, if_false, Option.map_eq_some'] at h
      obtain ⟨j, hj, rfl⟩ := h
      obtain ⟨a, h1, h2, h3⟩ := ih j hj
      exact ⟨a, by simpa using h1, h2, by simp [List.find?, hb, h3]⟩

theorem map_set_of_eq {α β : Type} (f : α → β) (l : List α) (i : Nat) (a b : α)
    (h : l.get? i = some a) (hf : f b = f a) : (l.set i b).map f = l.map f := by
  induction l generalizing i with
  | nil => simp
  | cons c l ih =>
    cases i with
    | zero =>
      simp only [List.get?_cons_zero, Option.some.injEq] at h
      subst h
      simp [hf]
    | succ j =>
      simp only [List.get?_cons_succ] at h
      simp [ih j h]

/-- The two ways a call of `incrementClickCount` can end: `false` with the store as it was, or
`true` with the counter of the first record carrying the shortcode raised by one. -/
theorem incrementClickCount_inv (now : Int) (writeOk : Bool) (store : Store) (s : String) :
    incrementClickCount now writeOk store s = (false, store) ∨
    ∃ i m, findIndex (fun mapping => mapping.shortcode == s) store = some i ∧
      store.get? i = some m ∧ m.shortcode = s ∧ getMapping store s = some m ∧
      isExpired now m.expiryDate = false ∧ writeOk = true ∧
      incrementClickCount now writeOk store s = (true, store.set i m.clicked) := by
  unfold incrementClickCount
  simp only [getAllMappings]
  cases hfi : findIndex (fun mapping => mapping.shortcode == s) store with
  | none => exact Or.inl rfl
  | some i =>
    obtain ⟨m, hget, hp, hfind⟩ := findIndex_eq_some _ _ _ hfi
    simp only [hget]
    by_cases hexp : isExpired now m.expiryDate = true
    · simp [hexp]
    · cases writeOk with
      | false => simp [saveMappings]
      | true =>
        refine Or.inr ⟨i, m, rfl, hget, by simpa using hp, ?_, by simpa using hexp, rfl, ?_⟩
        · simpa [getMapping, getAllMappings] using hfind
        · simp [hexp, saveMappings, Mapping.clicked]

theorem shortcodes_incrementClickCount (now : Int) (writeOk : Bool) (store : Store)
    (s : String) : shortcodes (incrementClickCount now writeOk store s).2 = shortcodes store := by
  rcases incrementClickCount_inv now writeOk store s with h | ⟨i, m, _, hget, _, _, _, _, h⟩
  · rw [h]
  · rw [h]
    exact map_set_of_eq _ _ _ _ _ hget rfl

theorem deleteMapping_store (writeOk : Bool) (store : Store) (s : String) :
    (deleteMapping writeOk store s).2 = store ∨
    (deleteMapping writeOk store s).2 = store.filter (fun mapping => mapping.shortcode != s) := by
  unfold deleteMapping
  simp only [getAllMappings]
  split
  · exact Or.inl rfl
  · cases writeOk with
    | false => exact Or.inl rfl
    | true => exact Or.inr rfl

theorem cleanupExpiredUrls_store (now : Int) (writeOk : Bool) (store : Store) :
    (cleanupExpiredUrls now writeOk store).2 = store ∨
    (cleanupExpiredUrls now writeOk store).2 =
      store.filter (fun mapping => !isExpired now mapping.expiryDate) := by
  unfold cleanupExpiredUrls
  simp only [getAllMappings]
  split
  · cases writeOk with
    | false => exact Or.inl rfl
    | true => exact Or.inr rfl
  · exact Or.inl rfl

theorem nodup_shortcodes_filter (store : Store) (p : Mapping → Bool)
    (h : (shortcodes store).Nodup) : (shortcodes (store.filter p)).Nodup :=
  h.sublist ((List.filter_sublist store).map _)

/-- One call preserves the uniqueness of the stored shortcodes; a call that is not a removal
appends the shortcode of the created record, if any, to the stored shortcodes. -/
theorem Call.run_spec (call : Call) (store store1 : Store) (created : Option Mapping)
    (h : call.run store = some (store1, created)) :
    ((shortcodes store).Nodup → (shortcodes store1).Nodup) ∧
    (call.removes = false →
      shortcodes store1 = shortcodes store ++ created.toList.map (fun m => m.shortcode)) ∧
    (∀ m, created = some m → m.shortcode ∉ shortcodes store) := by
  cases call with
  | create fuel rand env url custom expiry =>
    simp only [Call.run] at h
    cases hc : createMapping fuel rand env.now env.writeOk store url custom expiry with
    | none => simp [hc] at h
    | some out =>
      simp only [hc] at h
      rcases createMapping_inv hc with ⟨e, he, hst⟩ | ⟨sc, iso, hr, hst, _, hfresh, _, _⟩
      · simp only [he, Option.some.injEq, Prod.mk.injEq] at h
        obtain ⟨h1, h2⟩ := h
        subst h1 h2
        simp [hst]
      · simp only [hr, Option.some.injEq, Prod.mk.injEq] at h
        obtain ⟨h1, h2⟩ := h
        subst h1 h2
        refine ⟨?_, ?_, ?_⟩
        · intro hnd
          rw [hst]
          simp only [shortcodes, List.map_append, List.map_cons, List.map_nil]
          rw [List.nodup_append]
          refine ⟨hnd, by simp, ?_⟩
          simpa [List.Disjoint, shortcodes] using hfresh
        · intro _
          simp [hst, shortcodes]
        · intro m hm
          simp only [Option.some.injEq] at hm
          subst hm
          exact hfresh
  | click env s =>
    simp only [Call.run, Option.some.injEq, Prod.mk.injEq] at h
    obtain ⟨h1, h2⟩ := h
    subst h1 h2
    simp [shortcodes_incrementClickCount]
  | delete env s =>
    simp only [Call.run, Option.some.injEq, Prod.mk.injEq] at h
    obtain ⟨h1, h2⟩ := h
    subst h1 h2
    refine ⟨?_, by simp [Call.removes], by simp⟩
    intro hnd
    rcases deleteMapping_store env.writeOk store s with h | h <;> rw [h]
    · exact hnd
    · exact nodup_shortcodes_filter _ _ hnd
  | cleanup env =>
    simp only [Call.run, Option.some.injEq, Prod.mk.injEq] at h
    obtain ⟨h1, h2⟩ := h
    subst h1 h2
    refine ⟨?_, by simp [Call.removes], by simp⟩
    intro hnd
    rcases cleanupExpiredUrls_store env.now env.writeOk store with h | h <;> rw [h]
    · exact hnd
    · exact nodup_shortcodes_filter _ _ hnd

theorem runCalls_nodup (calls : List Call) (store store1 : Store) (created : List Mapping)
    (h : runCalls calls store = some (store1, created)) (hnd : (shortcodes store).Nodup) :
    (shortcodes store1).Nodup := by
  induction calls generalizing store created with
  | nil =>
    simp only [runCalls, Option.some.injEq, Prod.mk.injEq] at h
    rw [← h.1]; exact hnd
  | cons call calls ih =>
    simp only [runCalls] at h
    cases hc : call.run store with
    | none => simp [hc] at h
    | some r =>
      obtain ⟨st, cr⟩ := r
      simp only [hc] at h
      cases hr : runCalls calls st with
      | none => simp [hr] at h
      | some r2 =>
        obtain ⟨st2, rest⟩ := r2
        simp only [hr, Option.some.injEq, Prod.mk.injEq] at h
        obtain ⟨h1, _⟩ := h
        subst h1
        exact ih st rest hr ((Call.run_spec call store st cr hc).1 hnd)

theorem runCalls_created (calls : List Call) (store store1 : Store) (created : List Mapping)
    (h : runCalls calls store = some (store1, created))
    (hrem : ∀ call ∈ calls, call.removes = false) :
    shortcodes store1 = shortcodes store ++ created.map (fun m => m.shortcode) := by
  induction calls generalizing store created with
  | nil =>
    simp only [runCalls, Option.some.injEq, Prod.mk.injEq] at h
    rw [← h.1, ← h.2]; simp
  | cons call calls ih =>
    simp only [runCalls] at h
    cases hc : call.run store with
    | none => simp [hc] at h
    | some r =>
      obtain ⟨st, cr⟩ := r
      simp only [hc] at h
      cases hr : runCalls calls st with
      | none => simp [hr] at h
      | some r2 =>
        obtain ⟨st2, rest⟩ := r2
        simp only [hr, Option.some.injEq, Prod.mk.injEq] at h
        obtain ⟨h1, h2⟩ := h
        subst h1 h2
        rw [ih st rest hr (fun c hcm => hrem c (List.mem_cons_of_mem _ hcm))]
        rw [(Call.run_spec call store st cr hc).2.1 (hrem call (List.mem_cons_self _ _))]
        simp

theorem getMapping_eq_none_iff (store : Store) (s : String) :
    getMapping store s = none ↔ s ∉ shortcodes store := by
  simp only [getMapping, getAllMappings, List.find?_eq_none, shortcodes, List.mem_map, not_exists,
    not_and, beq_iff_eq, Bool.not_eq_true, beq_eq_false_iff_ne, ne_eq]

theorem getMapping_shortcode (store : Store) (s : String) (m : Mapping)
    (h : getMapping store s = some m) : m ∈ store ∧ m.shortcode = s := by
  simp only [getMapping, getAllMappings] at h
  exact ⟨List.mem_of_find?_eq_some h, by simpa using List.find?_some h⟩

theorem getMapping_of_mem_nodup (store : Store) (m : Mapping) (hm : m ∈ store)
    (hnd : (shortcodes store).Nodup) : getMapping store m.shortcode = some m := by
  induction store with
  | nil => simp at hm
  | cons a l ih =>
    simp only [shortcodes, List.map_cons, List.nodup_cons, List.mem_map, not_exists,
      not_and] at hnd
    rcases List.mem_cons.1 hm with rfl | hml
    · simp [getMapping, getAllMappings]
    · have hne : a.shortcode ≠ m.shortcode := fun h => hnd.1 m hml h.symm
      have := ih hml hnd.2
      simp only [getMapping, getAllMappings] at this ⊢
      rw [List.find?_cons_of_neg _ (by simpa using hne)]
      exact this

theorem getMapping_append_fresh (store : Store) (m : Mapping)
    (h : m.shortcode ∉ shortcodes store) : getMapping (store ++ [m]) m.shortcode = some m := by
  have hnone := (getMapping_eq_none_iff store m.shortcode).2 h
  simp only [getMapping, getAllMappings] at hnone ⊢
  simp [List.find?_append, hnone]

theorem find?_set_findIndex {α : Type} (p : α → Bool) (l : List α) (i : Nat) (b : α)
    (h : findIndex p l = some i) (hb : p b = true) : (l.set i b).find? p = some b := by
  induction l generalizing i with
  | nil => simp [findIndex] at h
  | cons c l ih =>
    by_cases hc : p c = true
    · simp only [findIndex, hc, if_true, Option.some.injEq] at h
      subst h
      simp [List.find?, hb]
    · simp only [Bool.not_eq_true] at hc
      simp only [findIndex, hc, Bool.false_eq_true, if_false, Option.map_eq_some'] at h
      obtain ⟨j, hj, rfl⟩ := h
      simp [List.find?, hc, ih j hj]

/-- The reasons for which `createMapping` throws. -/
theorem createMapping_error_inv {fuel : Nat} {rand : Rand} {now : Int} {writeOk : Bool}
    {store : Store} {originalUrl : String} {customShortcode : Option String}
    {expiryDate : Option JsDate} {out : Outcome (Except JsError Mapping)} {e : JsError}
    (h : createMapping fuel rand now writeOk store originalUrl customShortcode expiryDate
      = some out)
    (he : out.result = .error e) :
    (∃ s, customShortcode = some s ∧ s ≠ "" ∧ s ∈ shortcodes store ∧ e = .shortcodeInUse s) ∨
    (expiryDate = some .invalid ∧ e = .invalidTimeValue) ∨
    (writeOk = false ∧ e = .saveFailed) := by
  unfold createMapping at h
  simp only [getAllMappings] at h
  split at h
  · simp at h
  · rename_i e1 rand1 hres
    simp only [Option.some.injEq] at h
    subst h
    simp only [Except.error.injEq] at he
    subst he
    left
    unfold resolveShortcode at hres
    split at hres
    · rename_i s
      split at hres
      · cases hg : generateUnique fuel rand store with
        | none => simp [hg] at hres
        | some p => simp [hg] at hres
      · rename_i hs
        split at hres
        · rename_i hany
          simp only [Option.some.injEq, Prod.mk.injEq, Except.error.injEq] at hres
          exact ⟨s, rfl, hs, (any_shortcode_eq_true_iff _ _).1 hany, hres.1.symm⟩
        · simp at hres
    · cases hg : generateUnique fuel rand store with
      | none => simp [hg] at hres
      | some p => simp [hg] at hres
  · split at h
    · rename_i e1 hiso
      simp only [Option.some.injEq] at h
      subst h
      simp only [Except.error.injEq] at he
      subst he
      right; left
      unfold expiryToISO at hiso
      split at hiso
      · simp at hiso
      · simp at hiso
      · simp only [Except.error.injEq] at hiso
        exact ⟨rfl, hiso.symm⟩
    · cases writeOk with
      | false =>
        simp only [saveMappings, Bool.false_eq_true, if_false, Option.some.injEq] at h
        subst h
        simp only [Except.error.injEq] at he
        exact Or.inr (Or.inr ⟨rfl, he.symm⟩)
      | true =>
        simp only [saveMappings, if_true, Option.some.injEq] at h
        subst h
        simp at he

/-- The loop accumulators of `createMultipleMappings` collect what the sequence of
`createMapping` calls produces. -/
theorem createMultipleMappingsFrom_eq (fuel : Nat) (env : Nat → Env) (index : Nat)
    (urlData : List UrlData) (rand : Rand) (store : Store) (results : List Mapping)
    (errors : List CreationError) :
    createMultipleMappingsFrom fuel env index urlData rand store results errors =
      (runRequests fuel env index urlData rand store).map (fun outs =>
        ⟨⟨results ++ createdOf outs, errors ++ failuresFrom index urlData outs⟩,
          lastStore store outs, lastRand rand outs⟩) := by
  induction urlData generalizing index rand store results errors with
  | nil => simp [createMultipleMappingsFrom, runRequests, createdOf, failuresFrom, lastStore,
      lastRand]
  | cons data rest ih =>
    simp only [createMultipleMappingsFrom, runRequests]
    cases hc : createMapping fuel rand (env index).now (env index).writeOk store
        data.url data.shortcode data.expiryDate with
    | none => simp
    | some out =>
      simp only [Option.map_map]
      cases hr : out.result with
      | ok mapping =>
        simp only [ih]
        congr 1
        funext outs
        simp [createdOf, failuresFrom, lastStore, lastRand, hr]
      | error e =>
        simp only [ih]
        congr 1
        funext outs
        simp [createdOf, failuresFrom, lastStore, lastRand, hr]

theorem runRequests_length (fuel : Nat) (env : Nat → Env) (index : Nat)
    (urlData : List UrlData) (rand : Rand) (store : Store)
    (outs : List (Outcome (Except JsError Mapping)))
    (h : runRequests fuel env index urlData rand store = some outs) :
    outs.length = urlData.length := by
  induction urlData generalizing index rand store outs with
  | nil =>
    simp only [runRequests, Option.some.injEq] at h
    subst h; rfl
  | cons data rest ih =>
    simp only [runRequests] at h
    cases hc : createMapping fuel rand (env index).now (env index).writeOk store
        data.url data.shortcode data.expiryDate with
    | none => simp [hc] at h
    | some out =>
      simp only [hc, Option.map_eq_some'] at h
      obtain ⟨outs1, h1, rfl⟩ := h
      simp [ih _ _ _ _ h1]

theorem createMultipleMappings_eq (fuel : Nat) (rand : Rand) (env : Nat → Env) (store : Store)
    (urlData : List UrlData) :
    createMultipleMappings fuel rand env store urlData =
      (runRequests fuel env 0 urlData rand store).map (fun outs =>
        ⟨⟨createdOf outs, failuresFrom 0 urlData outs⟩, lastStore store outs,
          lastRand rand outs⟩) := by
  simp [createMultipleMappings, createMultipleMappingsFrom_eq]

theorem runRequests_cons {fuel : Nat} {env : Nat → Env} {index : Nat} {data : UrlData}
    {rest : List UrlData} {rand : Rand} {store : Store}
    {outs : List (Outcome (Except JsError Mapping))}
    (h : runRequests fuel env index (data :: rest) rand store = some outs) :
    ∃ out outs1, createMapping fuel rand (env index).now (env index).writeOk store
        data.url data.shortcode data.expiryDate = some out ∧
      runRequests fuel env (index + 1) rest out.rand out.store = some outs1 ∧
      outs = out :: outs1 := by
  simp only [runRequests] at h
  cases hc : createMapping fuel rand (env index).now (env index).writeOk store
      data.url data.shortcode data.expiryDate with
  | none => simp [hc] at h
  | some out =>
    simp only [hc, Option.map_eq_some'] at h
    obtain ⟨outs1, h1, h2⟩ := h
    exact ⟨out, outs1, rfl, h1, h2.symm⟩

/-- The call for the request at position `j` runs against the store and the random stream
that the calls before it left. -/
theorem runRequests_step (fuel : Nat) (env : Nat → Env) (index : Nat)
    (urlData : List UrlData) (rand : Rand) (store : Store)
    (outs : List (Outcome (Except JsError Mapping)))
    (h : runRequests fuel env index urlData rand store = some outs)
    (j : Nat) (d : UrlData) (o : Outcome (Except JsError Mapping))
    (hd : urlData.get? j = some d) (ho : outs.get? j = some o) :
    createMapping fuel (lastRand rand (outs.take j)) (env (index + j)).now
      (env (index + j)).writeOk (lastStore store (outs.take j)) d.url d.shortcode d.expiryDate
      = some o := by
  induction urlData generalizing index rand store outs j with
  | nil => simp at hd
  | cons data rest ih =>
    obtain ⟨out, outs1, hc, hrest, rfl⟩ := runRequests_cons h
    cases j with
    | zero =>
      simp only [List.get?_cons_zero, Option.some.injEq] at hd ho
      subst hd ho
      simpa [lastRand, lastStore] using hc
    | succ k =>
      simp only [List.get?_cons_succ] at hd ho
      have := ih (index + 1) out.rand out.store outs1 hrest k hd ho
      simpa [lastRand, lastStore, Nat.add_assoc, Nat.add_comm 1 k] using this

theorem lastStore_eq (fuel : Nat) (env : Nat → Env) (index : Nat)
    (urlData : List UrlData) (rand : Rand) (store : Store)
    (outs : List (Outcome (Except JsError Mapping)))
    (h : runRequests fuel env index urlData rand store = some outs) :
    lastStore store outs = store ++ createdOf outs := by
  induction urlData generalizing index rand store outs with
  | nil =>
    simp only [runRequests, Option.some.injEq] at h
    subst h
    simp [lastStore, createdOf]
  | cons data rest ih =>
    obtain ⟨out, outs1, hc, hrest, rfl⟩ := runRequests_cons h
    have := ih (index + 1) out.rand out.store outs1 hrest
    rcases createMapping_inv hc with ⟨e, he, hst⟩ | ⟨sc, iso, hr, hst, _⟩
    · simp only [lastStore, createdOf, he, this]
      rw [hst]
    · simp only [lastStore, createdOf, hr, this]
      rw [hst]
      simp

/-- The calls for the first `j` requests are the first `j` calls of the whole batch. -/
theorem runRequests_take (fuel : Nat) (env : Nat → Env) (index : Nat)
    (urlData : List UrlData) (rand : Rand) (store : Store)
    (outs : List (Outcome (Except JsError Mapping)))
    (h : runRequests fuel env index urlData rand store = some outs) (j : Nat) :
    runRequests fuel env index (urlData.take j) rand store = some (outs.take j) := by
  induction urlData generalizing index rand store outs j with
  | nil =>
    simp only [runRequests, Option.some.injEq] at h
    subst h
    simp [runRequests]
  | cons data rest ih =>
    obtain ⟨out, outs1, hc, hrest, rfl⟩ := runRequests_cons h
    cases j with
    | zero => simp [runRequests]
    | succ k =>
      simp only [List.take_succ_cons, runRequests, hc]
      rw [ih (index + 1) out.rand out.store outs1 hrest k]
      rfl

theorem length_createdOf_add_failuresFrom (index : Nat) (urlData : List UrlData)
    (outs : List (Outcome (Except JsError Mapping))) (hlen : outs.length = urlData.length) :
    (createdOf outs).length + (failuresFrom index urlData outs).length = urlData.length := by
  induction urlData generalizing index outs with
  | nil =>
    cases outs with
    | nil => simp [createdOf, failuresFrom]
    | cons o os => simp at hlen
  | cons data rest ih =>
    cases outs with
    | nil => simp at hlen
    | cons o os =>
      simp only [List.length_cons, Nat.add_right_cancel_iff] at hlen
      have := ih (index + 1) os hlen
      cases hr : o.result with
      | ok m => simp only [createdOf, failuresFrom, hr, List.length_cons]; omega
      | error e => simp only [createdOf, failuresFrom, hr, List.length_cons]; omega

theorem failuresFrom_index_bounds (index : Nat) (urlData : List UrlData)
    (outs : List (Outcome (Except JsError Mapping))) :
    ∀ e ∈ failuresFrom index urlData outs, index ≤ e.index ∧ e.index < index + urlData.length := by
  induction urlData generalizing index outs with
  | nil => intro e he; simp [failuresFrom] at he
  | cons data rest ih =>
    cases outs with
    | nil => intro e he; simp [failuresFrom] at he
    | cons o os =>
      intro e he
      cases hr : o.result with
      | ok m =>
        simp only [failuresFrom, hr] at he
        have := ih (index + 1) os e he
        simp only [List.length_cons]; omega
      | error err =>
        simp only [failuresFrom, hr, List.mem_cons] at he
        rcases he with rfl | he
        · simp
        · have := ih (index + 1) os e he
          simp only [List.length_cons]; omega

theorem failuresFrom_index_increasing (index : Nat) (urlData : List UrlData)
    (outs : List (Outcome (Except JsError Mapping))) :
    ((failuresFrom index urlData outs).map (fun e => e.index)).Pairwise (· < ·) := by
  induction urlData generalizing index outs with
  | nil => simp [failuresFrom]
  | cons data rest ih =>
    cases outs with
    | nil => simp [failuresFrom]
    | cons o os =>
      cases hr : o.result with
      | ok m => simpa [failuresFrom, hr] using ih (index + 1) os
      | error err =>
        simp only [failuresFrom, hr, List.map_cons, List.pairwise_cons, List.mem_map,
          forall_exists_index, and_imp, forall_apply_eq_imp_iff₂]
        refine ⟨fun e he => ?_, ih (index + 1) os⟩
        have := (failuresFrom_index_bounds (index + 1) rest os e he).1
        omega

/-- What the batch reports for the request at position `j`: a call that returned contributes
its record to `results` and no entry to `errors`; a call that threw contributes the entry with
index `j`. -/
theorem batch_entry (index : Nat) (urlData : List UrlData)
    (outs : List (Outcome (Except JsError Mapping)))
    (j : Nat) (d : UrlData) (o : Outcome (Except JsError Mapping))
    (hd : urlData.get? j = some d) (ho : outs.get? j = some o) :
    (∀ r, o.result = .ok r → r ∈ createdOf outs ∧
      ∀ e ∈ failuresFrom index urlData outs, e.index ≠ index + j) ∧
    (∀ err, o.result = .error err →
      ⟨index + j, d.url, err.message⟩ ∈ failuresFrom index urlData outs ∧
      ∀ e ∈ failuresFrom index urlData outs, e.index = index + j →
        e = ⟨index + j, d.url, err.message⟩) := by
  induction urlData generalizing index outs j with
  | nil => simp at hd
  | cons data rest ih =>
    cases outs with
    | nil => simp at ho
    | cons o1 os =>
      cases j with
      | zero =>
        simp only [List.get?_cons_zero, Option.some.injEq] at hd ho
        subst hd ho
        refine ⟨fun r hr => ?_, fun err herr => ?_⟩
        · refine ⟨by simp [createdOf, hr], fun e he => ?_⟩
          simp only [failuresFrom, hr] at he
          have := (failuresFrom_index_bounds (index + 1) rest os e he).1
          omega
        · refine ⟨by simp [failuresFrom, herr], fun e he hi => ?_⟩
          simp only [failuresFrom, herr, List.mem_cons] at he
          rcases he with rfl | he
          · rfl
          · have := (failuresFrom_index_bounds (index + 1) rest os e he).1
            omega
      | succ k =>
        simp only [List.get?_cons_succ] at hd ho
        have ih1 := ih (index + 1) os k hd ho
        have hidx : index + 1 + k = index + (k + 1) := by omega
        rw [hidx] at ih1
        refine ⟨fun r hr => ?_, fun err herr => ?_⟩
        · obtain ⟨h1, h2⟩ := ih1.1 r hr
          cases hr1 : o1.result with
          | ok m =>
            refine ⟨by simp [createdOf, hr1, h1], fun e he => ?_⟩
            simp only [failuresFrom, hr1] at he
            exact h2 e he
          | error e1 =>
            refine ⟨by simp [createdOf, hr1, h1], fun e he => ?_⟩
            simp only [failuresFrom, hr1, List.mem_cons] at he
            rcases he with rfl | he
            · simp
            · exact h2 e he
        · obtain ⟨h1, h2⟩ := ih1.2 err herr
          cases hr1 : o1.result with
          | ok m =>
            refine ⟨by simp [failuresFrom, hr1, h1], fun e he hi => ?_⟩
            simp only [failuresFrom, hr1] at he
            exact h2 e he hi
          | error e1 =>
            refine ⟨by simp [failuresFrom, hr1, h1], fun e he hi => ?_⟩
            simp only [failuresFrom, hr1, List.mem_cons] at he
            rcases he with rfl | he
            · simp at hi
            · exact h2 e he hi

/-- Every entry of `errors` stems from a call that threw. -/
theorem failuresFrom_mem (index : Nat) (urlData : List UrlData)
    (outs : List (Outcome (Except JsError Mapping))) :
    ∀ e ∈ failuresFrom index urlData outs, ∃ j d o err, e.index = index + j ∧
      urlData.get? j = some d ∧ outs.get? j = some o ∧ o.result = .error err ∧
      e = ⟨index + j, d.url, err.message⟩ := by
  induction urlData generalizing index outs with
  | nil => intro e he; simp [failuresFrom] at he
  | cons data rest ih =>
    cases outs with
    | nil => intro e he; simp [failuresFrom] at he
    | cons o os =>
      intro e he
      have hrec : e ∈ failuresFrom (index + 1) rest os → ∃ j d o1 err, e.index = index + j ∧
          (data :: rest).get? j = some d ∧ (o :: os).get? j = some o1 ∧
          o1.result = .error err ∧ e = ⟨index + j, d.url, err.message⟩ := by
        intro he1
        obtain ⟨j, d, o1, err, h1, h2, h3, h4, h5⟩ := ih (index + 1) os e he1
        have hidx : index + 1 + j = index + (j + 1) := by omega
        rw [hidx] at h1 h5
        exact ⟨j + 1, d, o1, err, h1, by simpa using h2, by simpa using h3, h4, h5⟩
      cases hr : o.result with
      | ok m =>
        simp only [failuresFrom, hr] at he
        exact hrec he
      | error err =>
        simp only [failuresFrom, hr, List.mem_cons] at he
        rcases he with rfl | he
        · exact ⟨0, data, o, err, rfl, rfl, rfl, hr, rfl⟩
        · exact hrec he

/-! ### Fuel -/

theorem generateUnique_mono (fuel fuel1 : Nat) (rand : Rand) (mappings : List Mapping)
    (p : String × Rand) (h : generateUnique fuel rand mappings = some p) (hle : fuel ≤ fuel1) :
    generateUnique fuel1 rand mappings = some p := by
  induction fuel generalizing fuel1 rand with
  | zero => simp [generateUnique] at h
  | succ n ih =>
    cases fuel1 with
    | zero => omega
    | succ n1 =>
      simp only [generateUnique] at h ⊢
      split
      · rename_i hany
        rw [if_pos hany] at h
        exact ih n1 _ h (by omega)
      · rename_i hany
        rw [if_neg hany] at h
        exact h

theorem resolveShortcode_mono (fuel fuel1 : Nat) (rand : Rand) (mappings : List Mapping)
    (customShortcode : Option String) (p : Except JsError String × Rand)
    (h : resolveShortcode fuel rand mappings customShortcode = some p) (hle : fuel ≤ fuel1) :
    resolveShortcode fuel1 rand mappings customShortcode = some p := by
  have gen : ∀ q, (generateUnique fuel rand mappings).map
        (fun p => ((Except.ok p.1 : Except JsError String), p.2)) = some q →
      (generateUnique fuel1 rand mappings).map
        (fun p => ((Except.ok p.1 : Except JsError String), p.2)) = some q := by
    intro q hq
    cases hg : generateUnique fuel rand mappings with
    | none => simp [hg] at hq
    | some g =>
      rw [generateUnique_mono fuel fuel1 rand mappings g hg hle]
      simpa [hg] using hq
  unfold resolveShortcode at h ⊢
  split
  · rename_i s
    simp only at h
    split
    · rename_i hs
      rw [if_pos hs] at h
      exact gen p h
    · rename_i hs
      rw [if_neg hs] at h
      exact h
  · exact gen p h

theorem createMapping_mono (fuel fuel1 : Nat) (rand : Rand) (now : Int) (writeOk : Bool)
    (store : Store) (originalUrl : String) (customShortcode : Option String)
    (expiryDate : Option JsDate) (out : Outcome (Except JsError Mapping))
    (h : createMapping fuel rand now writeOk store originalUrl customShortcode expiryDate
      = some out) (hle : fuel ≤ fuel1) :
    createMapping fuel1 rand now writeOk store originalUrl customShortcode expiryDate
      = some out := by
  unfold createMapping at h ⊢
  simp only at h ⊢
  cases hres : resolveShortcode fuel rand (getAllMappings store) customShortcode with
  | none => simp [hres] at h
  | some p =>
    rw [resolveShortcode_mono fuel fuel1 rand _ customShortcode p hres hle]
    simpa [hres] using h

theorem runRequests_mono (fuel fuel1 : Nat) (env : Nat → Env) (index : Nat)
    (urlData : List UrlData) (rand : Rand) (store : Store)
    (outs : List (Outcome (Except JsError Mapping)))
    (h : runRequests fuel env index urlData rand store = some outs) (hle : fuel ≤ fuel1) :
    runRequests fuel1 env index urlData rand store = some outs := by
  induction urlData generalizing index rand store outs with
  | nil => simpa [runRequests] using h
  | cons data rest ih =>
    obtain ⟨out, outs1, hc, hrest, rfl⟩ := runRequests_cons h
    simp only [runRequests]
    rw [createMapping_mono fuel fuel1 _ _ _ _ _ _ _ out hc hle]
    simp only
    rw [ih (index + 1) out.rand out.store outs1 hrest]
    rfl

theorem createMultipleMappings_mono (fuel fuel1 : Nat) (rand : Rand) (env : Nat → Env)
    (store : Store) (urlData : List UrlData) (out : Outcome BatchResult)
    (h : createMultipleMappings fuel rand env store urlData = some out) (hle : fuel ≤ fuel1) :
    createMultipleMappings fuel1 rand env store urlData = some out := by
  rw [createMultipleMappings_eq] at h ⊢
  cases hr : runRequests fuel env 0 urlData rand store with
  | none => simp [hr] at h
  | some outs =>
    rw [runRequests_mono fuel fuel1 env 0 urlData rand store outs hr hle]
    simpa [hr] using h

/-- With a non-empty custom shortcode no shortcode is generated and `createMapping` returns
or throws whatever the fuel. -/
theorem createMapping_custom_returns (fuel : Nat) (rand : Rand) (now : Int) (writeOk : Bool)
    (store : Store) (originalUrl s : String) (expiryDate : Option JsDate) (hs : s ≠ "") :
    ∃ out, createMapping fuel rand now writeOk store originalUrl (some s) expiryDate
      = some out := by
  unfold createMapping resolveShortcode
  simp only [hs, if_false]
  split
  · rename_i heq
    split at heq <;> simp at heq
  · exact ⟨_, rfl⟩
  · split
    · exact ⟨_, rfl⟩
    · split <;> exact ⟨_, rfl⟩

theorem runRequests_custom_returns (fuel : Nat) (env : Nat → Env) (index : Nat)
    (urlData : List UrlData) (rand : Rand) (store : Store)
    (hcustom : ∀ d ∈ urlData, ∃ s, d.shortcode = some s ∧ s ≠ "") :
    ∃ outs, runRequests fuel env index urlData rand store = some outs := by
  induction urlData generalizing index rand store with
  | nil => exact ⟨[], rfl⟩
  | cons data rest ih =>
    obtain ⟨s, hs, hne⟩ := hcustom data (List.mem_cons_self _ _)
    obtain ⟨out, hout⟩ := createMapping_custom_returns fuel rand (env index).now
      (env index).writeOk store data.url s data.expiryDate hne
    obtain ⟨outs, houts⟩ := ih (index + 1) out.rand out.store
      (fun d hd => hcustom d (List.mem_cons_of_mem _ hd))
    refine ⟨out :: outs, ?_⟩
    simp only [runRequests, hs, hout, houts]
    rfl

/-- A completed call of `createMapping` returns a record exactly when none of the three
reasons for an exception applies. -/
theorem createMapping_ok_iff {fuel : Nat} {rand : Rand} {now : Int} {writeOk : Bool}
    {store : Store} {originalUrl : String} {customShortcode : Option String}
    {expiryDate : Option JsDate} {out : Outcome (Except JsError Mapping)}
    (h : createMapping fuel rand now writeOk store originalUrl customShortcode expiryDate
      = some out) :
    (∃ e, out.result = .error e) ↔
      ((∃ s, customShortcode = some s ∧ s ≠ "" ∧ s ∈ shortcodes store) ∨
        expiryDate = some .invalid ∨ writeOk = false) := by
  constructor
  · rintro ⟨e, he⟩
    rcases createMapping_error_inv h he with ⟨s, h1, h2, h3, _⟩ | ⟨h1, _⟩ | ⟨h1, _⟩
    · exact Or.inl ⟨s, h1, h2, h3⟩
    · exact Or.inr (Or.inl h1)
    · exact Or.inr (Or.inr h1)
  · intro hreason
    rcases createMapping_inv h with ⟨e, he, _⟩ | ⟨sc, iso, _, _, hw, hfresh, hiso, hcustom⟩
    · exact ⟨e, he⟩
    · exfalso
      rcases hreason with ⟨s, h1, h2, h3⟩ | h1 | h1
      · exact hfresh (hcustom s h1 h2 ▸ h3)
      · rw [h1] at hiso; simp [expiryToISO] at hiso
      · rw [h1] at hw; simp at hw

/-- The call for the request at position `j` of a batch runs against the initial store
extended by the records that the requests before `j` created. -/
theorem runRequests_step_store (fuel : Nat) (env : Nat → Env)
    (urlData : List UrlData) (rand : Rand) (store : Store)
    (outs : List (Outcome (Except JsError Mapping)))
    (h : runRequests fuel env 0 urlData rand store = some outs)
    (j : Nat) (d : UrlData) (o : Outcome (Except JsError Mapping))
    (hd : urlData.get? j = some d) (ho : outs.get? j = some o) :
    createMapping fuel (lastRand rand (outs.take j)) (env j).now (env j).writeOk
      (store ++ createdOf (outs.take j)) d.url d.shortcode d.expiryDate = some o := by
  have h1 := runRequests_step fuel env 0 urlData rand store outs h j d o hd ho
  rw [lastStore_eq fuel env 0 (urlData.take j) rand store (outs.take j)
    (runRequests_take fuel env 0 urlData rand store outs h j)] at h1
  simpa using h1

/-- A call of `createMapping` that threw left the store as it was and raised one of the three
exceptions of storage.js. -/
theorem createMapping_error_store {fuel : Nat} {rand : Rand} {now : Int} {writeOk : Bool}
    {store : Store} {originalUrl : String} {customShortcode : Option String}
    {expiryDate : Option JsDate} {out : Outcome (Except JsError Mapping)} {e : JsError}
    (h : createMapping fuel rand now writeOk store originalUrl customShortcode expiryDate
      = some out)
    (he : out.result = .error e) : out.store = store := by
  rcases createMapping_inv h with ⟨e1, _, hst⟩ | ⟨sc, iso, hr, _⟩
  · exact hst
  · rw [hr] at he; simp at he

theorem startsWith_https_append (v : String) : startsWith ("https://" ++ v) "http" = true := by
  simp [startsWith, List.isPrefixOf]

theorem https_append_ne (v : String) : "https://" ++ v ≠ v := by
  intro h
  have := congrArg String.length h
  simp only [String.length_append, add_left_eq_self] at this
  exact absurd this (by decide)

theorem normalizeURL_eq_self_iff (url : String) :
    normalizeURL url = url ↔ (url = "" ∨ startsWith url "http" = true) := by
  unfold normalizeURL
  by_cases h0 : url = ""
  · simp [h0]
  · by_cases h1 : startsWith url "http" = true
    · simp [h0, h1]
    · simp [h0, h1, https_append_ne]

theorem createMapping_shortcode_taken_aux (fuel : Nat) (rand : Rand) (now : Int)
    (writeOk : Bool) (store : Store) (originalUrl s : String) (expiryDate : Option JsDate)
    (hs : s ≠ "") (hmem : s ∈ shortcodes store) :
    createMapping fuel rand now writeOk store originalUrl (some s) expiryDate
      = some ⟨.error (.shortcodeInUse s), store, rand⟩ := by
  have hany := (any_shortcode_eq_true_iff store s).2 hmem
  simp [createMapping, resolveShortcode, getAllMappings, hs, hany]

theorem createMapping_round_trip_aux {fuel : Nat} {rand : Rand} {now : Int} {writeOk : Bool}
    {store : Store} {originalUrl : String} {customShortcode : Option String}
    {expiryDate : Option JsDate} {out : Outcome (Except JsError Mapping)} {r : Mapping}
    (h : createMapping fuel rand now writeOk store originalUrl customShortcode expiryDate
      = some out)
    (hr : out.result = .ok r) :
    getMapping out.store r.shortcode = some r ∧ r.originalUrl = originalUrl := by
  rcases createMapping_inv h with ⟨e, he, _⟩ | ⟨sc, iso, hres, hst, _, hfresh, _, _⟩
  · rw [he] at hr; simp at hr
  · rw [hres] at hr
    simp only [Except.ok.injEq] at hr
    subst hr
    exact ⟨by rw [hst]; exact getMapping_append_fresh store _ hfresh, rfl⟩

/-! ## C1: uniqueness of the stored shortcodes -/

/-- C1, as stated, fails: `createMapping` succeeds twice with the shortcode `abc` when
`deleteMapping` removed the first record in between, so the shortcodes returned by the
successful calls of a sequence with removals are not pairwise distinct. -/
theorem returned_shortcodes_repeat_after_delete :
    runCalls
      [.create 1 stepRand (envAt 1000) "https://a.example" (some "abc") none,
       .delete (envAt 2000) "abc",
       .create 1 stepRand (envAt 3000) "https://b.example" (some "abc") none] []
      = some ([⟨"abc", "https://b.example", 3000, none, 0⟩],
          [⟨"abc", "https://a.example", 1000, none, 0⟩,
           ⟨"abc", "https://b.example", 3000, none, 0⟩]) ∧
    ¬ (List.map (fun m => m.shortcode)
        [(⟨"abc", "https://a.example", 1000, none, 0⟩ : Mapping),
         ⟨"abc", "https://b.example", 3000, none, 0⟩]).Nodup := by
  decide

/-- C1 (amended): starting from the empty store, after any finite sequence of completed calls
of `createMapping` (custom or generated shortcode, returning or throwing),
`incrementClickCount`, `deleteMapping` and `cleanupExpiredUrls`, no two stored records have
the same shortcode; and when the sequence contains no `deleteMapping` or `cleanupExpiredUrls`
call, the shortcodes returned by the successful `createMapping` calls are pairwise distinct
(they are exactly the stored shortcodes). -/
theorem shortcode_uniqueness (calls : List Call) (store : Store) (created : List Mapping)
    (h : runCalls calls [] = some (store, created)) :
    (shortcodes store).Nodup ∧
    ((∀ call ∈ calls, call.removes = false) →
      (created.map (fun m => m.shortcode)).Nodup ∧
      shortcodes store = created.map (fun m => m.shortcode)) := by
  have hnd := runCalls_nodup calls [] store created h (by simp [shortcodes])
  refine ⟨hnd, fun hrem => ?_⟩
  have heq := runCalls_created calls [] store created h hrem
  simp only [shortcodes, List.map_nil, List.nil_append] at heq hnd
  exact ⟨heq ▸ hnd, heq⟩

/-- Witness for C1: a generated shortcode, a colliding custom one, a second generated one
(whose first draw collides), and a click. -/
theorem shortcode_uniqueness_witness :
    runCalls sampleCalls [] = some (sampleStore, sampleCreated) ∧
    (shortcodes sampleStore).Nodup ∧
    (sampleCreated.map (fun m => m.shortcode)).Nodup :=
  have h : runCalls sampleCalls [] = some (sampleStore, sampleCreated) := by decide
  ⟨h, (shortcode_uniqueness sampleCalls sampleStore sampleCreated h).1,
   ((shortcode_uniqueness sampleCalls sampleStore sampleCreated h).2 (by decide)).1⟩

/-! ## C3: click gating -/

/-- C3: when the record that `getMapping(s)` finds is expired at the current time (its
`expiryDate` is non-null and `now > expiryDate`), `incrementClickCount(s)` returns `false` and
leaves the whole store, that record's `clickCount` included, unchanged. -/
theorem incrementClickCount_expired (now : Int) (writeOk : Bool) (store : Store) (s : String)
    (m : Mapping) (e : Int) (hget : getMapping store s = some m)
    (he : m.expiryDate = some e) (hnow : now > e) :
    incrementClickCount now writeOk store s = (false, store) ∧
    getMapping (incrementClickCount now writeOk store s).2 s = some m := by
  have hexp : isExpired now m.expiryDate = true := by simp [isExpired, he, hnow]
  have h : incrementClickCount now writeOk store s = (false, store) := by
    rcases incrementClickCount_inv now writeOk store s with h | ⟨i, m1, _, _, _, hg, hne, _, _⟩
    · exact h
    · rw [hget] at hg
      simp only [Option.some.injEq] at hg
      subst hg
      rw [hexp] at hne
      exact absurd hne (by simp)
  exact ⟨h, by rw [h]; exact hget⟩

/-- Witness for C3: a record that expired at 5000 is clicked at 5001. -/
theorem incrementClickCount_expired_witness :
    incrementClickCount 5001 true [⟨"abc123", "https://a.example", 1000, some 5000, 4⟩] "abc123"
      = (false, [⟨"abc123", "https://a.example", 1000, some 5000, 4⟩]) :=
  (incrementClickCount_expired 5001 true [⟨"abc123", "https://a.example", 1000, some 5000, 4⟩]
    "abc123" ⟨"abc123", "https://a.example", 1000, some 5000, 4⟩ 5000
    (by decide) rfl (by decide)).1

/-! ## C4: counting a click -/

/-- C4: for a store with pairwise distinct shortcodes and a write that succeeds,
`incrementClickCount(s)` returns `true` exactly when a record with shortcode `s` is stored and
not expired; then the record stored under `s` afterwards is the previous one with
`clickCount + 1`; and when no record has shortcode `s` it returns `false` and the store is
unchanged. -/
theorem incrementClickCount_correct (now : Int) (store : Store) (s : String)
    (hnd : (shortcodes store).Nodup) :
    ((incrementClickCount now true store s).1 = true ↔
      ∃ m ∈ store, m.shortcode = s ∧ isExpired now m.expiryDate = false) ∧
    (∀ m ∈ store, m.shortcode = s → isExpired now m.expiryDate = false →
      getMapping (incrementClickCount now true store s).2 s
        = some { m with clickCount := m.clickCount + 1 } ∧
      shortcodes (incrementClickCount now true store s).2 = shortcodes store) ∧
    (s ∉ shortcodes store → incrementClickCount now true store s = (false, store)) := by
  have key : ∀ m ∈ store, m.shortcode = s → isExpired now m.expiryDate = false →
      ∃ i, findIndex (fun mapping => mapping.shortcode == s) store = some i ∧
        incrementClickCount now true store s = (true, store.set i m.clicked) := by
    intro m hm hms hne
    have hget : getMapping store s = some m := hms ▸ getMapping_of_mem_nodup store m hm hnd
    rcases incrementClickCount_inv now true store s with h | ⟨i, m1, hfi, _, _, hg, _, _, h⟩
    · exfalso
      unfold incrementClickCount at h
      simp only [getAllMappings] at h
      cases hfi : findIndex (fun mapping => mapping.shortcode == s) store with
      | none =>
        have := (findIndex_eq_none_iff _ _).1 hfi m hm
        simp [hms] at this
      | some i =>
        obtain ⟨a, hga, _, hfa⟩ := findIndex_eq_some _ _ _ hfi
        have ham : a = m := by
          have : getMapping store s = some a := by simpa [getMapping, getAllMappings] using hfa
          rw [hget] at this
          exact (Option.some.inj this).symm
        subst ham
        have hga1 : store[i]? = some a := by simpa using hga
        simp [hfi, hga1, hne, saveMappings] at h
    · rw [hget] at hg
      simp only [Option.some.injEq] at hg
      subst hg
      exact ⟨i, hfi, h⟩
  refine ⟨⟨?_, ?_⟩, ?_, ?_⟩
  · intro htrue
    rcases incrementClickCount_inv now true store s with h | ⟨i, m, _, _, _, hg, hne, _, _⟩
    · rw [h] at htrue; simp at htrue
    · obtain ⟨hm, hms⟩ := getMapping_shortcode store s m hg
      exact ⟨m, hm, hms, hne⟩
  · rintro ⟨m, hm, hms, hne⟩
    obtain ⟨i, _, h⟩ := key m hm hms hne
    rw [h]
  · intro m hm hms hne
    obtain ⟨i, hfi, h⟩ := key m hm hms hne
    refine ⟨?_, shortcodes_incrementClickCount now true store s⟩
    rw [h]
    simp only [getMapping, getAllMappings]
    exact find?_set_findIndex _ _ _ _ hfi (by simpa [Mapping.clicked] using hms)
  · intro hs
    rcases incrementClickCount_inv now true store s with h | ⟨i, m, _, _, _, hg, _, _, _⟩
    · exact h
    · exact absurd (List.mem_map.2 ⟨m, (getMapping_shortcode store s m hg).1,
        (getMapping_shortcode store s m hg).2⟩) hs

/-- Witness for C4: the second of two records is clicked before its expiry. -/
theorem incrementClickCount_correct_witness :
    getMapping (incrementClickCount 4000 true
        [⟨"abc123", "https://a.example", 1000, none, 4⟩,
         ⟨"xyz789", "https://b.example", 2000, some 5000, 7⟩] "xyz789").2 "xyz789"
      = some ⟨"xyz789", "https://b.example", 2000, some 5000, 8⟩ :=
  ((incrementClickCount_correct 4000
      [⟨"abc123", "https://a.example", 1000, none, 4⟩,
       ⟨"xyz789", "https://b.example", 2000, some 5000, 7⟩] "xyz789" (by decide)).2.1
    ⟨"xyz789", "https://b.example", 2000, some 5000, 7⟩ (by decide) rfl (by decide)).1

/-! ## C5: round trip -/

/-- C5: after every successful call `r = createMapping(url, customShortcode, expiryDate)`,
`getMapping(r.shortcode)` returns `r`; `r.originalUrl` is the submitted url, `r.expiryDate`
the submitted expiry (`null` when none was given), `r.clickCount` is `0`, and `r.shortcode` is
the custom shortcode when a (non-empty) one was supplied. -/
theorem createMapping_round_trip (fuel : Nat) (rand : Rand) (now : Int) (writeOk : Bool)
    (store : Store) (originalUrl : String) (customShortcode : Option String)
    (expiryDate : Option JsDate) (out : Outcome (Except JsError Mapping)) (r : Mapping)
    (h : createMapping fuel rand now writeOk store originalUrl customShortcode expiryDate
      = some out)
    (hr : out.result = .ok r) :
    getMapping out.store r.shortcode = some r ∧
    r.originalUrl = originalUrl ∧
    (expiryDate = none → r.expiryDate = none) ∧
    (∀ ms, expiryDate = some (.valid ms) → r.expiryDate = some ms) ∧
    expiryDate ≠ some .invalid ∧
    r.clickCount = 0 ∧
    (∀ s, customShortcode = some s → s ≠ "" → r.shortcode = s) := by
  rcases createMapping_inv h with ⟨e, he, _⟩ | ⟨sc, iso, hres, hst, _, hfresh, hiso, hcustom⟩
  · rw [he] at hr; simp at hr
  · rw [hres] at hr
    simp only [Except.ok.injEq] at hr
    subst hr
    refine ⟨?_, rfl, ?_, ?_, ?_, rfl, hcustom⟩
    · rw [hst]; exact getMapping_append_fresh store _ hfresh
    · intro hnone
      rw [hnone] at hiso
      simp only [expiryToISO, Except.ok.injEq] at hiso
      exact hiso.symm
    · intro ms hms
      rw [hms] at hiso
      simp only [expiryToISO, Except.ok.injEq] at hiso
      exact hiso.symm
    · intro hinv
      rw [hinv] at hiso
      simp [expiryToISO] at hiso

/-- Witness for C5: a custom shortcode with an expiry, created next to an existing record. -/
theorem createMapping_round_trip_witness :
    getMapping [⟨"abc123", "https://a.example", 1000, none, 4⟩,
        ⟨"mylink", "https://b.example", 2000, some 9000, 0⟩] "mylink"
      = some ⟨"mylink", "https://b.example", 2000, some 9000, 0⟩ :=
  (createMapping_round_trip 1 stepRand 2000 true [⟨"abc123", "https://a.example", 1000, none, 4⟩]
    "https://b.example" (some "mylink") (some (.valid 9000))
    ⟨.ok ⟨"mylink", "https://b.example", 2000, some 9000, 0⟩,
      [⟨"abc123", "https://a.example", 1000, none, 4⟩,
        ⟨"mylink", "https://b.example", 2000, some 9000, 0⟩], stepRand⟩
    ⟨"mylink", "https://b.example", 2000, some 9000, 0⟩ rfl rfl).1

/-! ## C6: which requests of a batch are rejected -/

/-- C6, as stated, fails: of three requests whose second url fails `isValidURL` (even when the
platform parser accepts every string) all three are created and persisted, and `errors` is
empty. -/
theorem createMultipleMappings_accepts_invalid_url :
    isValidURL (fun _ => true) "not a url" = false ∧
    (createMultipleMappings 5 stepRand (fun _ => envAt 1000) [] batchWithInvalidUrl).map
        (fun out => (out.result, out.store))
      = some (⟨[⟨"aaaaaa", "https://a.example", 1000, none, 0⟩,
                ⟨"bbbbbb", "not a url", 1000, none, 0⟩,
                ⟨"cccccc", "https://c.example", 1000, none, 0⟩], []⟩,
          [⟨"aaaaaa", "https://a.example", 1000, none, 0⟩,
           ⟨"bbbbbb", "not a url", 1000, none, 0⟩,
           ⟨"cccccc", "https://c.example", 1000, none, 0⟩]) := by
  decide

/-- C6 (amended): `createMultipleMappings` does not look at `isValidURL`.  In every completed
batch the request at position `j` is rejected exactly when `createMapping` throws for it: its
non-empty custom shortcode is stored at its turn (in the initial store or by an earlier request
of the batch), its expiry date is invalid, or the write fails.  A rejected request is reported
in `errors` with its zero-based index, its url and the message of that exception; every other
request, whatever its url, is created; and the store grows by exactly the created records. -/
theorem createMultipleMappings_rejections (fuel : Nat) (rand : Rand) (env : Nat → Env)
    (store : Store) (urlData : List UrlData) (out : Outcome BatchResult)
    (h : createMultipleMappings fuel rand env store urlData = some out) :
    ∃ outs : List (Outcome (Except JsError Mapping)),
      runRequests fuel env 0 urlData rand store = some outs ∧
      out.result.results = createdOf outs ∧
      out.store = store ++ out.result.results ∧
      ∀ j d o, urlData.get? j = some d → outs.get? j = some o →
        ((∃ err, o.result = .error err) ↔
          ((∃ s, d.shortcode = some s ∧ s ≠ "" ∧
              s ∈ shortcodes (store ++ createdOf (outs.take j))) ∨
            d.expiryDate = some .invalid ∨ (env j).writeOk = false)) ∧
        (∀ err, o.result = .error err →
          ⟨j, d.url, err.message⟩ ∈ out.result.errors ∧
          ((∃ s, d.shortcode = some s ∧ s ≠ "" ∧
              s ∈ shortcodes (store ++ createdOf (outs.take j)) ∧ err = .shortcodeInUse s) ∨
            (d.expiryDate = some .invalid ∧ err = .invalidTimeValue) ∨
            ((env j).writeOk = false ∧ err = .saveFailed))) ∧
        (∀ r, o.result = .ok r →
          r ∈ out.result.results ∧ r ∈ out.store ∧ r.originalUrl = d.url ∧
          ∀ e ∈ out.result.errors, e.index ≠ j) := by
  rw [createMultipleMappings_eq] at h
  cases hr : runRequests fuel env 0 urlData rand store with
  | none => simp [hr] at h
  | some outs =>
    simp only [hr, Option.map_some', Option.some.injEq] at h
    subst h
    refine ⟨outs, rfl, rfl, lastStore_eq fuel env 0 urlData rand store outs hr, ?_⟩
    intro j d o hd ho
    have hstep := runRequests_step_store fuel env urlData rand store outs hr j d o hd ho
    have hentry := batch_entry 0 urlData outs j d o hd ho
    simp only [Nat.zero_add] at hentry
    refine ⟨createMapping_ok_iff hstep, fun err herr => ⟨(hentry.2 err herr).1, ?_⟩,
      fun r hrok => ?_⟩
    · rcases createMapping_error_inv hstep herr with ⟨s, h1, h2, h3, h4⟩ | h1 | h1
      · exact Or.inl ⟨s, h1, h2, h3, h4⟩
      · exact Or.inr (Or.inl h1)
      · exact Or.inr (Or.inr h1)
    · have hmem := (hentry.1 r hrok).1
      refine ⟨hmem, ?_, ?_, (hentry.1 r hrok).2⟩
      · show r ∈ lastStore store outs
        rw [lastStore_eq fuel env 0 urlData rand store outs hr]
        exact List.mem_append_right _ hmem
      · rcases createMapping_inv hstep with ⟨e, he, _⟩ | ⟨sc, iso, hres, _⟩
        · rw [he] at hrok; simp at hrok
        · rw [hres] at hrok
          simp only [Except.ok.injEq] at hrok
          rw [← hrok]

/-- Witness for C6: of three requests the second, whose custom shortcode `abc123` is stored,
is the only one rejected, with index 1; the other two are created and persisted. -/
theorem createMultipleMappings_rejections_witness :
    createMultipleMappings 5 stepRand (fun _ => envAt 1000) storeWithAbc123
        batchWithTakenShortcode = some takenShortcodeOutcome ∧
    takenShortcodeOutcome.store = storeWithAbc123 ++ takenShortcodeOutcome.result.results ∧
    takenShortcodeOutcome.result.results.length = 2 ∧
    takenShortcodeOutcome.result.errors
      = [⟨1, "not a url", (JsError.shortcodeInUse "abc123").message⟩] :=
  ⟨rfl,
   (createMultipleMappings_rejections 5 stepRand (fun _ => envAt 1000) storeWithAbc123
      batchWithTakenShortcode takenShortcodeOutcome rfl).elim (fun _ hx => hx.2.2.1),
   rfl, rfl⟩

/-! ## C8: `createMapping` and the validity of the URL -/

/-- C8, as stated, fails: `createMapping` stores a record for a url that `isValidURL` rejects
(even when the platform parser accepts every string). -/
theorem createMapping_accepts_invalid_url :
    isValidURL (fun _ => true) "not a url" = false ∧
    (createMapping 1 stepRand 1000 true [] "not a url" none none).map
        (fun out => (out.result, out.store))
      = some (.ok ⟨"aaaaaa", "not a url", 1000, none, 0⟩,
          [⟨"aaaaaa", "not a url", 1000, none, 0⟩]) := by
  constructor
  · decide
  · rfl

/-- C8 (amended): `createMapping` does not validate the URL.  For every `originalUrl`, valid
or not: whether the call returns does not depend on the url (it returns whenever a non-empty
custom shortcode is given); a completed call throws exactly when the custom shortcode is
already stored, the expiry date is invalid or the write fails, with one of the three
exceptions of storage.js and the store unchanged; otherwise it appends and returns the record
with that `originalUrl`. -/
theorem createMapping_no_url_validation (fuel : Nat) (rand : Rand) (now : Int) (writeOk : Bool)
    (store : Store) (originalUrl : String) (customShortcode : Option String)
    (expiryDate : Option JsDate) :
    (∀ url1, (createMapping fuel rand now writeOk store url1 customShortcode expiryDate).isSome
      = (createMapping fuel rand now writeOk store originalUrl customShortcode
          expiryDate).isSome) ∧
    ((∃ s, customShortcode = some s ∧ s ≠ "") →
      ∃ out, createMapping fuel rand now writeOk store originalUrl customShortcode expiryDate
        = some out) ∧
    ∀ out, createMapping fuel rand now writeOk store originalUrl customShortcode expiryDate
        = some out →
      ((∃ e, out.result = .error e) ↔
        ((∃ s, customShortcode = some s ∧ s ≠ "" ∧ s ∈ shortcodes store) ∨
          expiryDate = some .invalid ∨ writeOk = false)) ∧
      (∀ e, out.result = .error e → out.store = store ∧
        ((∃ s, e = .shortcodeInUse s) ∨ e = .invalidTimeValue ∨ e = .saveFailed)) ∧
      (∀ r, out.result = .ok r → r.originalUrl = originalUrl ∧ out.store = store ++ [r]) := by
  refine ⟨fun url1 => ?_, ?_, fun out h => ⟨createMapping_ok_iff h, fun e he => ?_,
    fun r hr => ?_⟩⟩
  · unfold createMapping
    simp only
    cases resolveShortcode fuel rand (getAllMappings store) customShortcode with
    | none => rfl
    | some p =>
      obtain ⟨res, rand1⟩ := p
      cases res with
      | error e => rfl
      | ok sc =>
        cases expiryToISO expiryDate with
        | error e => rfl
        | ok iso => cases writeOk <;> rfl
  · rintro ⟨s, rfl, hs⟩
    exact createMapping_custom_returns fuel rand now writeOk store originalUrl s expiryDate hs
  · refine ⟨createMapping_error_store h he, ?_⟩
    rcases createMapping_error_inv h he with ⟨s, _, _, _, h4⟩ | ⟨_, h2⟩ | ⟨_, h2⟩
    · exact Or.inl ⟨s, h4⟩
    · exact Or.inr (Or.inl h2)
    · exact Or.inr (Or.inr h2)
  · rcases createMapping_inv h with ⟨e, he, _⟩ | ⟨sc, iso, hres, hst, _⟩
    · rw [he] at hr; simp at hr
    · rw [hres] at hr
      simp only [Except.ok.injEq] at hr
      subst hr
      exact ⟨rfl, hst⟩

/-- Witness for C8: the url `not a url` with the free custom shortcode `mylink`. -/
theorem createMapping_no_url_validation_witness :
    isValidURL (fun _ => true) "not a url" = false ∧
    createMapping 1 stepRand 1000 true storeWithAbc123 "not a url" (some "mylink") none
      = some ⟨.ok ⟨"mylink", "not a url", 1000, none, 0⟩,
          [⟨"abc123", "https://old.example", 500, none, 4⟩,
           ⟨"mylink", "not a url", 1000, none, 0⟩], stepRand⟩ ∧
    (⟨"mylink", "not a url", 1000, none, 0⟩ : Mapping).originalUrl = "not a url" :=
  have h : createMapping 1 stepRand 1000 true storeWithAbc123 "not a url" (some "mylink") none
      = some ⟨.ok ⟨"mylink", "not a url", 1000, none, 0⟩,
          [⟨"abc123", "https://old.example", 500, none, 4⟩,
           ⟨"mylink", "not a url", 1000, none, 0⟩], stepRand⟩ := rfl
  ⟨by decide, h,
   (((createMapping_no_url_validation 1 stepRand 1000 true storeWithAbc123 "not a url"
      (some "mylink") none).2.2 _ h).2.2 ⟨"mylink", "not a url", 1000, none, 0⟩ rfl).1⟩

/-! ## C9: `createMapping` and the validity of a custom shortcode -/

/-- C9, as stated, fails: `createMapping` accepts the custom shortcode `ab`, which
`isValidShortcode` rejects, and stores the record. -/
theorem createMapping_accepts_invalid_shortcode :
    isValidShortcode "ab" = false ∧
    (createMapping 1 stepRand 1000 true [] "https://a.example" (some "ab") none).map
        (fun out => (out.result, out.store))
      = some (.ok ⟨"ab", "https://a.example", 1000, none, 0⟩,
          [⟨"ab", "https://a.example", 1000, none, 0⟩]) := by
  constructor
  · decide
  · rfl

/-- C9 (amended): `createMapping` does not validate a custom shortcode.  For every non-empty
`customShortcode`, whether or not `isValidShortcode` accepts it, the call completes; it throws
exactly when that shortcode is already stored (shortcode-in-use), the expiry date is invalid or
the write fails, and then leaves the store unchanged; otherwise it appends and returns the
record whose shortcode is `customShortcode`. -/
theorem createMapping_no_shortcode_validation (fuel : Nat) (rand : Rand) (now : Int)
    (writeOk : Bool) (store : Store) (originalUrl s : String) (expiryDate : Option JsDate)
    (hs : s ≠ "") :
    ∃ out, createMapping fuel rand now writeOk store originalUrl (some s) expiryDate = some out ∧
      ((∃ e, out.result = .error e) ↔
        (s ∈ shortcodes store ∨ expiryDate = some .invalid ∨ writeOk = false)) ∧
      (s ∈ shortcodes store → out.result = .error (.shortcodeInUse s)) ∧
      (∀ e, out.result = .error e → out.store = store ∧
        (e = .shortcodeInUse s ∨ e = .invalidTimeValue ∨ e = .saveFailed)) ∧
      (∀ r, out.result = .ok r → r.shortcode = s ∧ out.store = store ++ [r]) := by
  obtain ⟨out, h⟩ :=
    createMapping_custom_returns fuel rand now writeOk store originalUrl s expiryDate hs
  refine ⟨out, h, ?_, ?_, fun e he => ⟨createMapping_error_store h he, ?_⟩, fun r hr => ?_⟩
  · rw [createMapping_ok_iff h]
    constructor
    · rintro (⟨s1, h1, _, h3⟩ | h2 | h2)
      · simp only [Option.some.injEq] at h1
        exact Or.inl (h1 ▸ h3)
      · exact Or.inr (Or.inl h2)
      · exact Or.inr (Or.inr h2)
    · rintro (h1 | h2 | h2)
      · exact Or.inl ⟨s, rfl, hs, h1⟩
      · exact Or.inr (Or.inl h2)
      · exact Or.inr (Or.inr h2)
  · intro hmem
    have := (createMapping_shortcode_taken_aux fuel rand now writeOk store originalUrl s
      expiryDate hs hmem)
    rw [this] at h
    simp only [Option.some.injEq] at h
    rw [← h]
  · rcases createMapping_error_inv h he with ⟨s1, h1, _, _, h4⟩ | ⟨_, h2⟩ | ⟨_, h2⟩
    · simp only [Option.some.injEq] at h1
      exact Or.inl (h1 ▸ h4)
    · exact Or.inr (Or.inl h2)
    · exact Or.inr (Or.inr h2)
  · rcases createMapping_inv h with ⟨e, he, _⟩ | ⟨sc, iso, hres, hst, _, _, _, hcustom⟩
    · rw [he] at hr; simp at hr
    · rw [hres] at hr
      simp only [Except.ok.injEq] at hr
      subst hr
      exact ⟨hcustom s rfl hs, hst⟩

/-- Witness for C9: the custom shortcode `a b!`, which is not alphanumeric. -/
theorem createMapping_no_shortcode_validation_witness :
    isValidShortcode "a b!" = false ∧
    ∃ out, createMapping 1 stepRand 1000 true storeWithAbc123 "https://a.example"
        (some "a b!") none = some out ∧
      ((∃ e, out.result = .error e) ↔
        ("a b!" ∈ shortcodes storeWithAbc123 ∨ (none : Option JsDate) = some .invalid ∨
          true = false)) ∧
      ("a b!" ∈ shortcodes storeWithAbc123 → out.result = .error (.shortcodeInUse "a b!")) ∧
      (∀ e, out.result = .error e → out.store = storeWithAbc123 ∧
        (e = .shortcodeInUse "a b!" ∨ e = .invalidTimeValue ∨ e = .saveFailed)) ∧
      (∀ r, out.result = .ok r → r.shortcode = "a b!" ∧ out.store = storeWithAbc123 ++ [r]) :=
  ⟨by decide,
   createMapping_no_shortcode_validation 1 stepRand 1000 true storeWithAbc123
     "https://a.example" "a b!" none (by decide)⟩

/-! ## C10: the stored URL -/

/-- C10, as stated, fails: `createMapping("example.com", "abc")` stores `example.com`, which
is not `normalizeURL("example.com")` and does not begin with `http`. -/
theorem createMapping_stores_url_verbatim :
    (createMapping 1 stepRand 1000 true [] "example.com" (some "abc") none).map
        (fun out => (out.result, out.store))
      = some (.ok ⟨"abc", "example.com", 1000, none, 0⟩,
          [⟨"abc", "example.com", 1000, none, 0⟩]) ∧
    normalizeURL "example.com" = "https://example.com" ∧
    startsWith "example.com" "http" = false := by
  refine ⟨rfl, ?_, ?_⟩ <;> decide

/-- C10 (amended): `createMapping` stores the url as it was passed, without calling
`normalizeURL`: for every successful `createMapping(url, ...)` the `originalUrl` of the
returned record, which is the record stored under its shortcode, equals `url`; it equals
`normalizeURL(url)` exactly when `url` is empty or already begins with `http`; and when the
caller passes `url = normalizeURL(v)` for a non-empty `v`, as the form does, the stored
`originalUrl` begins with `http`. -/
theorem createMapping_stores_given_url (fuel : Nat) (rand : Rand) (now : Int) (writeOk : Bool)
    (store : Store) (url : String) (customShortcode : Option String)
    (expiryDate : Option JsDate) (out : Outcome (Except JsError Mapping)) (r : Mapping)
    (h : createMapping fuel rand now writeOk store url customShortcode expiryDate = some out)
    (hr : out.result = .ok r) :
    r.originalUrl = url ∧
    getMapping out.store r.shortcode = some r ∧
    (r.originalUrl = normalizeURL url ↔ (url = "" ∨ startsWith url "http" = true)) ∧
    (∀ v, v ≠ "" → url = normalizeURL v → startsWith r.originalUrl "http" = true) := by
  have hrt := createMapping_round_trip_aux h hr
  refine ⟨hrt.2, hrt.1, ?_, ?_⟩
  · rw [hrt.2]
    constructor
    · intro heq; exact (normalizeURL_eq_self_iff url).1 heq.symm
    · intro hc; exact ((normalizeURL_eq_self_iff url).2 hc).symm
  · intro v hv hurl
    rw [hrt.2, hurl]
    unfold normalizeURL
    simp only [hv, if_false]
    split
    · assumption
    · exact startsWith_https_append v

/-- Witness for C10: the form's normalised url for the input `example.com`. -/
theorem createMapping_stores_given_url_witness :
    (⟨"abc", "https://example.com", 1000, none, 0⟩ : Mapping).originalUrl
      = normalizeURL "example.com" ∧
    startsWith (⟨"abc", "https://example.com", 1000, none, 0⟩ : Mapping).originalUrl "http"
      = true :=
  ⟨(createMapping_stores_given_url 1 stepRand 1000 true [] (normalizeURL "example.com")
      (some "abc") none
      ⟨.ok ⟨"abc", "https://example.com", 1000, none, 0⟩,
        [⟨"abc", "https://example.com", 1000, none, 0⟩], stepRand⟩
      ⟨"abc", "https://example.com", 1000, none, 0⟩ rfl rfl).1,
   (createMapping_stores_given_url 1 stepRand 1000 true [] (normalizeURL "example.com")
      (some "abc") none
      ⟨.ok ⟨"abc", "https://example.com", 1000, none, 0⟩,
        [⟨"abc", "https://example.com", 1000, none, 0⟩], stepRand⟩
      ⟨"abc", "https://example.com", 1000, none, 0⟩ rfl rfl).2.2.2 "example.com" (by decide) rfl⟩

/-! ## The derivative matcher computes the regular language -/

theorem matches_none_iff (w : List Char) : Regex.Matches .none w ↔ False := by
  constructor
  · intro h; cases h
  · intro h; exact h.elim

theorem matches_eps_iff (w : List Char) : Regex.Matches .eps w ↔ w = [] := by
  constructor
  · intro h; cases h; rfl
  · rintro rfl; exact .eps

theorem matches_cls_iff (p : Char → Bool) (w : List Char) :
    Regex.Matches (.cls p) w ↔ ∃ c, p c = true ∧ w = [c] := by
  constructor
  · intro h; cases h with
    | cls _ c hc => exact ⟨c, hc, rfl⟩
  · rintro ⟨c, hc, rfl⟩; exact .cls p c hc

theorem matches_seq_iff (r s : Regex) (w : List Char) :
    Regex.Matches (.seq r s) w ↔ ∃ u v, w = u ++ v ∧ Regex.Matches r u ∧ Regex.Matches s v := by
  constructor
  · intro h; cases h with
    | seq h1 h2 => exact ⟨_, _, rfl, h1, h2⟩
  · rintro ⟨u, v, rfl, h1, h2⟩; exact .seq h1 h2

theorem matches_alt_iff (r s : Regex) (w : List Char) :
    Regex.Matches (.alt r s) w ↔ Regex.Matches r w ∨ Regex.Matches s w := by
  constructor
  · intro h; cases h with
    | altLeft h1 => exact Or.inl h1
    | altRight h1 => exact Or.inr h1
  · rintro (h | h)
    · exact .altLeft h
    · exact .altRight h

theorem nullable_iff (r : Regex) : r.nullable = true ↔ Regex.Matches r [] := by
  induction r with
  | none => simp [Regex.nullable, matches_none_iff]
  | eps => simp [Regex.nullable, matches_eps_iff]
  | cls p => simp [Regex.nullable, matches_cls_iff]
  | seq r s ihr ihs =>
    simp only [Regex.nullable, Bool.and_eq_true, ihr, ihs, matches_seq_iff]
    constructor
    · rintro ⟨h1, h2⟩; exact ⟨[], [], rfl, h1, h2⟩
    · rintro ⟨u, v, huv, h1, h2⟩
      have hu : u = [] := (List.append_eq_nil.1 huv.symm).1
      have hv : v = [] := (List.append_eq_nil.1 huv.symm).2
      subst hu hv
      exact ⟨h1, h2⟩
  | alt r s ihr ihs => simp [Regex.nullable, ihr, ihs, matches_alt_iff]
  | star r _ => simp only [Regex.nullable, true_iff]; exact .starNil

theorem matches_mkSeq_iff (r s : Regex) (w : List Char) :
    Regex.Matches (Regex.mkSeq r s) w ↔ Regex.Matches (.seq r s) w := by
  cases r with
  | none =>
    simp only [Regex.mkSeq, matches_none_iff, matches_seq_iff, false_iff, not_exists]
    rintro u v ⟨_, h, _⟩
    exact h
  | eps =>
    simp only [Regex.mkSeq, matches_seq_iff, matches_eps_iff]
    constructor
    · intro h; exact ⟨[], w, rfl, rfl, h⟩
    · rintro ⟨u, v, rfl, rfl, h⟩; simpa using h
  | cls p => simp [Regex.mkSeq]
  | seq a b => simp [Regex.mkSeq]
  | alt a b => simp [Regex.mkSeq]
  | star a => simp [Regex.mkSeq]

theorem matches_mkAlt_iff (r s : Regex) (w : List Char) :
    Regex.Matches (Regex.mkAlt r s) w ↔ Regex.Matches r w ∨ Regex.Matches s w := by
  cases r <;> cases s <;>
    simp [Regex.mkAlt, matches_none_iff, matches_alt_iff]

/-- A non-empty string of `r*` starts with a non-empty string of `r`. -/
theorem matches_star_cons (r : Regex) (c : Char) (w : List Char)
    (h : Regex.Matches (.star r) (c :: w)) :
    ∃ u v, w = u ++ v ∧ Regex.Matches r (c :: u) ∧ Regex.Matches (.star r) v := by
  generalize hx : c :: w = x at h
  generalize hr : Regex.star r = q at h
  induction h generalizing w with
  | eps => cases hr
  | cls _ _ _ => cases hr
  | seq _ _ _ _ => cases hr
  | altLeft _ _ => cases hr
  | altRight _ _ => cases hr
  | starNil => cases hx
  | @starCons r1 u v h1 h2 _ ih2 =>
    cases hr
    cases u with
    | nil =>
      simp only [List.nil_append] at hx
      exact ih2 w hx rfl
    | cons d u1 =>
      simp only [List.cons_append, List.cons.injEq] at hx
      obtain ⟨rfl, rfl⟩ := hx
      exact ⟨u1, v, rfl, h1, h2⟩

theorem matches_deriv_iff (r : Regex) (c : Char) (w : List Char) :
    Regex.Matches (r.deriv c) w ↔ Regex.Matches r (c :: w) := by
  induction r generalizing w with
  | none => simp [Regex.deriv, matches_none_iff]
  | eps => simp [Regex.deriv, matches_none_iff, matches_eps_iff]
  | cls p =>
    by_cases hp : p c = true
    · simp only [Regex.deriv, hp, if_true, matches_eps_iff, matches_cls_iff]
      constructor
      · rintro rfl; exact ⟨c, hp, rfl⟩
      · rintro ⟨d, _, hd⟩
        simp only [List.cons.injEq] at hd
        exact hd.2
    · simp only [Regex.deriv, hp, Bool.false_eq_true, if_false, matches_none_iff,
        matches_cls_iff, false_iff, not_exists, not_and]
      rintro d hd hw
      simp only [List.cons.injEq] at hw
      exact hp (hw.1 ▸ hd)
  | seq r s ihr ihs =>
    have hcons : Regex.Matches (.seq r s) (c :: w) ↔
        (∃ u v, w = u ++ v ∧ Regex.Matches r (c :: u) ∧ Regex.Matches s v) ∨
        (Regex.Matches r [] ∧ Regex.Matches s (c :: w)) := by
      rw [matches_seq_iff]
      constructor
      · rintro ⟨u, v, huv, h1, h2⟩
        cases u with
        | nil =>
          simp only [List.nil_append] at huv
          exact Or.inr ⟨h1, huv ▸ h2⟩
        | cons d u1 =>
          simp only [List.cons_append, List.cons.injEq] at huv
          obtain ⟨rfl, rfl⟩ := huv
          exact Or.inl ⟨u1, v, rfl, h1, h2⟩
      · rintro (⟨u, v, rfl, h1, h2⟩ | ⟨h1, h2⟩)
        · exact ⟨c :: u, v, rfl, h1, h2⟩
        · exact ⟨[], c :: w, rfl, h1, h2⟩
    have hleft : Regex.Matches (Regex.mkSeq (r.deriv c) s) w ↔
        ∃ u v, w = u ++ v ∧ Regex.Matches r (c :: u) ∧ Regex.Matches s v := by
      rw [matches_mkSeq_iff, matches_seq_iff]
      constructor
      · rintro ⟨u, v, huv, h1, h2⟩; exact ⟨u, v, huv, (ihr u).1 h1, h2⟩
      · rintro ⟨u, v, huv, h1, h2⟩; exact ⟨u, v, huv, (ihr u).2 h1, h2⟩
    rw [hcons]
    by_cases hn : r.nullable = true
    · simp only [Regex.deriv, hn, if_true, matches_mkAlt_iff, hleft, ihs]
      constructor
      · rintro (h | h)
        · exact Or.inl h
        · exact Or.inr ⟨(nullable_iff r).1 hn, h⟩
      · rintro (h | ⟨_, h⟩)
        · exact Or.inl h
        · exact Or.inr h
    · simp only [Regex.deriv, hn, Bool.false_eq_true, if_false, hleft]
      constructor
      · intro h; exact Or.inl h
      · rintro (h | ⟨h, _⟩)
        · exact h
        · exact absurd ((nullable_iff r).2 h) hn
  | alt r s ihr ihs => simp [Regex.deriv, matches_mkAlt_iff, matches_alt_iff, ihr, ihs]
  | star r ih =>
    simp only [Regex.deriv, matches_mkSeq_iff, matches_seq_iff]
    constructor
    · rintro ⟨u, v, rfl, h1, h2⟩
      exact Regex.Matches.starCons (u := c :: u) ((ih u).1 h1) h2
    · intro h
      obtain ⟨u, v, huv, h1, h2⟩ := matches_star_cons r c w h
      exact ⟨u, v, huv, (ih u).2 h1, h2⟩

/-- The derivative matcher accepts exactly the strings of the regular language. -/
theorem matchesAll_iff (r : Regex) (w : List Char) :
    r.matchesAll w = true ↔ Regex.Matches r w := by
  induction w generalizing r with
  | nil => simpa [Regex.matchesAll] using nullable_iff r
  | cons c w ih =>
    have := ih (r.deriv c)
    simp only [Regex.matchesAll, List.foldl_cons] at this ⊢
    rw [this, matches_deriv_iff]

theorem matches_upTo_cls_iff (p : Char → Bool) (n : Nat) (w : List Char) :
    Regex.Matches (Regex.upTo (.cls p) n) w ↔ w.length ≤ n ∧ ∀ c ∈ w, p c = true := by
  induction n generalizing w with
  | zero =>
    simp only [Regex.upTo, matches_eps_iff, Nat.le_zero, List.length_eq_zero]
    constructor
    · rintro rfl; exact ⟨rfl, by simp⟩
    · rintro ⟨h, _⟩; exact h
  | succ n ih =>
    simp only [Regex.upTo, Regex.opt, matches_alt_iff, matches_seq_iff, matches_cls_iff,
      matches_eps_iff]
    constructor
    · rintro (⟨u, v, rfl, ⟨c, hc, rfl⟩, hv⟩ | rfl)
      · obtain ⟨hlen, hall⟩ := (ih v).1 hv
        refine ⟨by simp only [List.singleton_append, List.length_cons]; omega, ?_⟩
        intro d hd
        simp only [List.singleton_append, List.mem_cons] at hd
        rcases hd with rfl | hd
        · exact hc
        · exact hall d hd
      · exact ⟨by simp, by simp⟩
    · rintro ⟨hlen, hall⟩
      cases w with
      | nil => exact Or.inr rfl
      | cons c v =>
        refine Or.inl ⟨[c], v, rfl, ⟨c, hall c (List.mem_cons_self _ _), rfl⟩, (ih v).2 ⟨?_, ?_⟩⟩
        · simp only [List.length_cons] at hlen; omega
        · exact fun d hd => hall d (List.mem_cons_of_mem _ hd)

theorem matches_range_cls_iff (p : Char → Bool) (m n : Nat) (w : List Char) (hmn : m ≤ n) :
    Regex.Matches (Regex.range (.cls p) m n) w ↔
      m ≤ w.length ∧ w.length ≤ n ∧ ∀ c ∈ w, p c = true := by
  induction m generalizing n w with
  | zero => simp [Regex.range, matches_upTo_cls_iff]
  | succ m ih =>
    simp only [Regex.range, matches_seq_iff, matches_cls_iff]
    constructor
    · rintro ⟨u, v, rfl, ⟨c, hc, rfl⟩, hv⟩
      obtain ⟨h1, h2, hall⟩ := (ih (n - 1) v (by omega)).1 hv
      refine ⟨by simp only [List.singleton_append, List.length_cons]; omega,
        by simp only [List.singleton_append, List.length_cons]; omega, ?_⟩
      intro d hd
      simp only [List.singleton_append, List.mem_cons] at hd
      rcases hd with rfl | hd
      · exact hc
      · exact hall d hd
    · rintro ⟨h1, h2, hall⟩
      cases w with
      | nil => simp at h1
      | cons c v =>
        simp only [List.length_cons] at h1 h2
        exact ⟨[c], v, rfl, ⟨c, hall c (List.mem_cons_self _ _), rfl⟩,
          (ih (n - 1) v (by omega)).2 ⟨by omega, by omega,
            fun d hd => hall d (List.mem_cons_of_mem _ hd)⟩⟩

/-- What `isValidShortcode` accepts, in terms of the characters of the string. -/
theorem isValidShortcode_iff_aux (code : String) :
    isValidShortcode code = true ↔
      3 ≤ code.length ∧ code.length ≤ 20 ∧ ∀ c ∈ code.toList, isAlphanumeric c = true := by
  have hpat : shortcodePattern.test code = true ↔
      3 ≤ code.length ∧ code.length ≤ 20 ∧ ∀ c ∈ code.toList, isAlphanumeric c = true := by
    rw [Regex.test, matchesAll_iff, shortcodePattern]
    exact matches_range_cls_iff _ 3 20 code.toList (by decide)
  unfold isValidShortcode
  by_cases h0 : code = ""
  · subst h0
    simp
  · simp only [h0, if_false]
    exact hpat

theorem startsWith_trans (s a b : String) (hab : startsWith b a = true)
    (hb : startsWith s b = true) : startsWith s a = true := by
  simp only [startsWith, List.isPrefixOf_iff_prefix] at hab hb ⊢
  exact hab.trans hb

theorem normalizeURL_of_not_http (url : String) (h0 : url ≠ "")
    (h : startsWith url "http" = false) : normalizeURL url = "https://" ++ url := by
  simp [normalizeURL, h0, h]

theorem normalizeURL_of_http (url : String) (h : startsWith url "http" = true) :
    normalizeURL url = url := by
  unfold normalizeURL
  by_cases h0 : url = ""
  · simp [h0]
  · simp [h0, h]

theorem isValidURL_of_not_http (urlParses : String → Bool) (url : String) (h0 : url ≠ "")
    (h : startsWith url "http" = false) :
    isValidURL urlParses url = isValidURL urlParses ("https://" ++ url) := by
  have h1 : "https://" ++ url ≠ "" := by
    intro hc
    have := congrArg String.length hc
    rw [String.length_append] at this
    have h8 : "https://".length = 8 := by decide
    have h00 : "".length = 0 := rfl
    omega
  simp [isValidURL, h0, h, h1, startsWith_https_append]

theorem isValidURL_eq_false_of_pattern (urlParses : String → Bool) (url : String)
    (h : URL_PATTERN.test (if startsWith url "http" then url else "https://" ++ url) = false) :
    isValidURL urlParses url = false := by
  unfold isValidURL
  by_cases h0 : url = ""
  · simp [h0]
  · simp only [h0, if_false]
    rw [h]
    simp

/-! ## C11: `normalizeURL` and a missing protocol -/

/-- C11 fails on the code at `httpbin.org`: the string begins neither with `http://` nor with
`https://`, yet `normalizeURL` returns it unchanged instead of `https://httpbin.org`, because
line 62 tests `startsWith('http')`. -/
theorem normalizeURL_keeps_http_prefixed_host :
    startsWith "httpbin.org" "http://" = false ∧
    startsWith "httpbin.org" "https://" = false ∧
    normalizeURL "httpbin.org" = "httpbin.org" ∧
    normalizeURL "httpbin.org" ≠ "https://" ++ "httpbin.org" := by
  decide

/-! ## C12: `isValidURL` on input without a scheme -/

/-- C12 fails on the code at `httpbin.org`: for every URL parser that, like the platform,
rejects `httpbin.org` (no scheme) and accepts `https://httpbin.org`, `isValidURL` rejects
`httpbin.org` although it accepts `https://httpbin.org`: line 18 tests `startsWith('http')`, so
no scheme is prepended. -/
theorem isValidURL_http_prefixed_host (urlParses : String → Bool)
    (h1 : urlParses "httpbin.org" = false) (h2 : urlParses "https://httpbin.org" = true) :
    startsWith "httpbin.org" "http://" = false ∧
    startsWith "httpbin.org" "https://" = false ∧
    isValidURL urlParses "httpbin.org" = false ∧
    isValidURL urlParses ("https://" ++ "httpbin.org") = true := by
  refine ⟨by decide, by decide, ?_, ?_⟩
  · have hs : startsWith "httpbin.org" "http" = true := by decide
    simp only [isValidURL, hs, if_true, h1]
    decide
  · have hs : startsWith ("https://" ++ "httpbin.org") "http" = true := by decide
    have he : ("https://" ++ "httpbin.org" : String) = "https://httpbin.org" := by decide
    have ht : URL_PATTERN.test "https://httpbin.org" = true := by decide
    rw [he] at hs ⊢
    have h0 : ("https://httpbin.org" : String) ≠ "" := by decide
    simp only [isValidURL, h0, hs, if_true, if_false, h2, ht]

/-- Witness for C12 with the stand-in parser `hasHttpScheme`. -/
theorem isValidURL_http_prefixed_host_witness :
    isValidURL hasHttpScheme "httpbin.org" = false ∧
    isValidURL hasHttpScheme ("https://" ++ "httpbin.org") = true :=
  ⟨(isValidURL_http_prefixed_host hasHttpScheme (by decide) (by decide)).2.2.1,
   (isValidURL_http_prefixed_host hasHttpScheme (by decide) (by decide)).2.2.2⟩

/-! ## C13: which absolute URLs `isValidURL` accepts -/

/-- C13 fails on the code: whatever the URL parser answers, `isValidURL` rejects absolute
http(s) URLs with a query string, a port, a fragment, an uppercase host or a single-label
host, because `URL_PATTERN` does not match them. -/
theorem isValidURL_rejects_absolute_urls (urlParses : String → Bool) :
    isValidURL urlParses "https://example.com/search?q=1" = false ∧
    isValidURL urlParses "http://localhost:3000/" = false ∧
    isValidURL urlParses "https://example.com:8080/page" = false ∧
    isValidURL urlParses "https://example.com/page#top" = false ∧
    isValidURL urlParses "https://Example.com/" = false ∧
    isValidURL urlParses "http://localhost/" = false := by
  refine ⟨?_, ?_, ?_, ?_, ?_, ?_⟩ <;>
    exact isValidURL_eq_false_of_pattern urlParses _ (by decide)

/-! ## C14: `isValidShortcode` -/

/-- C14: for every string `code`, `isValidShortcode(code)` is `true` exactly when `code` has
between 3 and 20 characters and every character is in `[A-Za-z0-9]`; it is `false` for the
empty string and for every value that is not a string.  (A string of such characters has as
many UTF-16 code units as characters.) -/
theorem isValidShortcode_iff :
    (∀ code : String, isValidShortcode code = true ↔
      3 ≤ code.length ∧ code.length ≤ 20 ∧
      ∀ c ∈ code.toList, ('a' ≤ c ∧ c ≤ 'z') ∨ ('A' ≤ c ∧ c ≤ 'Z') ∨ ('0' ≤ c ∧ c ≤ '9')) ∧
    isValidShortcode "" = false ∧
    (∀ code : String, isValidShortcodeValue (.str code) = isValidShortcode code) ∧
    (∀ v : JsValue, (∀ code, v ≠ .str code) → isValidShortcodeValue v = false) := by
  refine ⟨fun code => ?_, by decide, fun code => rfl, fun v hv => ?_⟩
  · rw [isValidShortcode_iff_aux]
    simp only [isAlphanumeric, isLower, isUpper, isDigit, Bool.or_eq_true, Bool.and_eq_true,
      decide_eq_true_eq, or_assoc]
  · cases v with
    | str code => exact absurd rfl (hv code)
    | null => rfl
    | undefined => rfl
    | num n => rfl

/-! ## C15: `isValidPeriod` -/

/-- What `isValidPeriod` accepts: the falsy values, and the values whose `Number(...)` is a
finite number in `(0, 8760]`. -/
theorem isValidPeriod_iff_aux (stringToNumber : String → JsNumber) (period : JsValue) :
    isValidPeriod stringToNumber period = true ↔
      period.falsy = true ∨
      ∃ q, Number stringToNumber period = .finite q ∧ 0 < q ∧ q ≤ 8760 := by
  unfold isValidPeriod
  by_cases hf : period.falsy = true
  · simp [hf]
  · simp only [hf, Bool.false_eq_true, if_false, false_or]
    cases hn : Number stringToNumber period with
    | nan => simp [JsNumber.isNaN]
    | posInf => simp [JsNumber.isNaN, JsNumber.greaterThan, JsNumber.atMost]
    | negInf => simp [JsNumber.isNaN, JsNumber.greaterThan, JsNumber.atMost]
    | finite x => simp [JsNumber.isNaN, JsNumber.greaterThan, JsNumber.atMost]

/-- C15 fails on the code at the numbers `0` and `NaN`: they are falsy, so line 71 returns
`true` for them as it does for an absent value, although `0` is not in `(0, 8760]` and `NaN`
is not a number; whatever the string conversion, the string `"0"` is rejected when it
converts to `0`. -/
theorem isValidPeriod_accepts_zero (stringToNumber : String → JsNumber) :
    isValidPeriod stringToNumber (.num (.finite 0)) = true ∧
    isValidPeriod stringToNumber (.num .nan) = true ∧
    (stringToNumber "0" = .finite 0 → isValidPeriod stringToNumber (.str "0") = false) := by
  refine ⟨?_, ?_, fun h => ?_⟩
  · simp [isValidPeriod, JsValue.falsy]
  · simp [isValidPeriod, JsValue.falsy]
  · have hf : (JsValue.str "0").falsy = false := by decide
    simp [isValidPeriod, hf, Number, h, JsNumber.isNaN, JsNumber.greaterThan]

/-! ## C16: `isExpired` -/

/-- C16: `isExpired(e)` evaluated at clock value `now` is `true` exactly when `e` is non-null
and `now > e`; at `now = e` the record is not expired; and the result depends on `e` and the
clock value only. -/
theorem isExpired_iff (now : Int) (e : Option Int) :
    (isExpired now e = true ↔ ∃ t, e = some t ∧ now > t) ∧
    isExpired now none = false ∧
    isExpired now (some now) = false ∧
    (∀ now1, now1 = now → isExpired now1 e = isExpired now e) := by
  refine ⟨?_, rfl, by simp [isExpired], fun now1 h => by rw [h]⟩
  cases e with
  | none => simp [isExpired]
  | some t => simp [isExpired]

/-! ## C17: `deleteMapping` -/

/-- C17: when the write succeeds, `deleteMapping(s)` returns `true` exactly when a record
with shortcode `s` was stored; afterwards the store holds exactly the records with another
shortcode, unchanged and in their order, so none with shortcode `s`; and when it returns
`false` the store is unchanged. -/
theorem deleteMapping_correct (store : Store) (s : String) :
    ((deleteMapping true store s).1 = true ↔ ∃ m ∈ store, m.shortcode = s) ∧
    (deleteMapping true store s).2 = store.filter (fun m => m.shortcode != s) ∧
    (∀ m ∈ (deleteMapping true store s).2, m.shortcode ≠ s) ∧
    (∀ m, m.shortcode ≠ s → (m ∈ (deleteMapping true store s).2 ↔ m ∈ store)) ∧
    ((deleteMapping true store s).1 = false → (deleteMapping true store s).2 = store) := by
  have hlen : (store.filter (fun m => m.shortcode != s)).length = store.length ↔
      ∀ m ∈ store, m.shortcode ≠ s := by
    constructor
    · intro h m hm
      have := List.filter_eq_self.1 (List.Sublist.eq_of_length (List.filter_sublist store) h) m hm
      simpa using this
    · intro h
      rw [List.filter_eq_self.2 (fun m hm => by simpa using h m hm)]
  by_cases hfound : ∀ m ∈ store, m.shortcode ≠ s
  · have hfil : store.filter (fun m => m.shortcode != s) = store :=
      List.filter_eq_self.2 (fun m hm => by simpa using hfound m hm)
    have hdel : deleteMapping true store s = (false, store) := by
      simp [deleteMapping, getAllMappings, hfil]
    rw [hdel]
    refine ⟨?_, hfil.symm, hfound, fun m _ => Iff.rfl, fun _ => rfl⟩
    simp only [Bool.false_eq_true, false_iff, not_exists, not_and]
    exact hfound
  · have hne : (store.filter (fun m => m.shortcode != s)).length ≠ store.length :=
      fun h => hfound (hlen.1 h)
    have hdel : deleteMapping true store s
        = (true, store.filter (fun m => m.shortcode != s)) := by
      simp [deleteMapping, getAllMappings, hne, saveMappings]
    rw [hdel]
    refine ⟨?_, rfl, ?_, ?_, fun h => by simp at h⟩
    · simp only [true_iff]
      by_contra hc
      exact hfound (fun m hm hms => hc ⟨m, hm, hms⟩)
    · intro m hm
      simpa using (List.mem_filter.1 hm).2
    · intro m hms
      simp [List.mem_filter, hms]

/-! ## C18: `cleanupExpiredUrls` -/

/-- C18, as stated, fails when the write fails: with two expired records among five,
`cleanupExpiredUrls()` throws the storage error instead of returning 2, and all five records
remain stored. -/
theorem cleanupExpiredUrls_throws_on_failed_write :
    fiveRecords.countP (fun m => isExpired 1000 m.expiryDate) = 2 ∧
    cleanupExpiredUrls 1000 false fiveRecords = (.error .saveFailed, fiveRecords) := by
  constructor
  · decide
  · rfl

/-- C18 (amended): when the write succeeds, or no stored record is expired (then nothing is
written), `cleanupExpiredUrls()` returns the number of stored records that are expired at the
current time, and `getAllMappings()` afterwards returns exactly the records that were not
expired, unchanged and in their order. -/
theorem cleanupExpiredUrls_correct (now : Int) (writeOk : Bool) (store : Store)
    (h : writeOk = true ∨ ∀ m ∈ store, isExpired now m.expiryDate = false) :
    (cleanupExpiredUrls now writeOk store).1
      = .ok (store.countP (fun m => isExpired now m.expiryDate)) ∧
    getAllMappings (cleanupExpiredUrls now writeOk store).2
      = store.filter (fun m => !isExpired now m.expiryDate) ∧
    (∀ m, m ∈ (cleanupExpiredUrls now writeOk store).2 ↔
      m ∈ store ∧ isExpired now m.expiryDate = false) := by
  have hcount : store.length - (store.filter (fun m => !isExpired now m.expiryDate)).length
      = store.countP (fun m => isExpired now m.expiryDate) := by
    have h1 := List.length_eq_countP_add_countP (fun m => isExpired now m.expiryDate) store
    have h2 : List.countP (fun a => decide ¬isExpired now a.expiryDate = true) store
        = (store.filter (fun m => !isExpired now m.expiryDate)).length := by
      rw [List.countP_eq_length_filter]
      congr 2
      funext m
      cases isExpired now m.expiryDate <;> rfl
    omega
  have hstore : (cleanupExpiredUrls now writeOk store).1
      = .ok (store.countP (fun m => isExpired now m.expiryDate)) ∧
      (cleanupExpiredUrls now writeOk store).2
        = store.filter (fun m => !isExpired now m.expiryDate) := by
    unfold cleanupExpiredUrls
    simp only [getAllMappings, hcount]
    by_cases hpos : store.countP (fun m => isExpired now m.expiryDate) > 0
    · have hw : writeOk = true := by
        rcases h with h | h
        · exact h
        · exfalso
          obtain ⟨m, hm, hexp⟩ := List.countP_pos_iff.1 hpos
          rw [h m hm] at hexp
          exact absurd hexp (by simp)
      subst hw
      simp [hpos, saveMappings]
    · have hzero : ∀ m ∈ store, (!isExpired now m.expiryDate) = true := by
        intro m hm
        by_contra hc
        exact hpos (List.countP_pos_iff.2 ⟨m, hm, by simpa using hc⟩)
      simp only [hpos, if_false, true_and]
      exact (List.filter_eq_self.2 hzero).symm
  refine ⟨hstore.1, hstore.2, fun m => ?_⟩
  rw [hstore.2]
  simp [List.mem_filter]

/-- Witness for C18: of five records the two expired ones are removed. -/
theorem cleanupExpiredUrls_correct_witness :
    (cleanupExpiredUrls 1000 true fiveRecords).1 = .ok 2 ∧
    getAllMappings (cleanupExpiredUrls 1000 true fiveRecords).2
      = [⟨"b2", "https://b.example", 0, none, 2⟩, ⟨"c3", "https://c.example", 0, some 2000, 3⟩,
         ⟨"e5", "https://e.example", 0, some 1000, 5⟩] :=
  ⟨(cleanupExpiredUrls_correct 1000 true fiveRecords (Or.inl rfl)).1,
   (cleanupExpiredUrls_correct 1000 true fiveRecords (Or.inl rfl)).2.1⟩

/-! ## C19: `getStatistics` -/

theorem foldl_clickCount (store : Store) (init : Nat) :
    store.foldl (fun sum mapping => sum + mapping.clickCount) init
      = init + (store.map (fun m => m.clickCount)).sum := by
  induction store generalizing init with
  | nil => simp
  | cons m l ih => simp [ih, Nat.add_assoc]

/-- C19: at one clock value `getStatistics()` returns `totalUrls` = the number of stored
records, `expiredUrls` = the number of records for which `isExpired` is `true`,
`activeUrls = totalUrls - expiredUrls` and `totalClicks` = the sum of `clickCount` over all
records.  The function only reads the store (`getAllMappings`); it performs no write. -/
theorem getStatistics_correct (now : Int) (store : Store) :
    (getStatistics now store).totalUrls = store.length ∧
    (getStatistics now store).expiredUrls
      = store.countP (fun m => isExpired now m.expiryDate) ∧
    (getStatistics now store).activeUrls
      = (getStatistics now store).totalUrls - (getStatistics now store).expiredUrls ∧
    (getStatistics now store).activeUrls + (getStatistics now store).expiredUrls
      = (getStatistics now store).totalUrls ∧
    (getStatistics now store).totalClicks = (store.map (fun m => m.clickCount)).sum := by
  have h1 := List.length_eq_countP_add_countP (fun m => isExpired now m.expiryDate) store
  have h2 : List.countP (fun a => decide ¬isExpired now a.expiryDate = true) store
      = (store.filter (fun m => !isExpired now m.expiryDate)).length := by
    rw [List.countP_eq_length_filter]
    congr 2
    funext m
    cases isExpired now m.expiryDate <;> rfl
  have h3 := List.countP_eq_length_filter (fun m => isExpired now m.expiryDate) store
  refine ⟨rfl, h3.symm, ?_, ?_, ?_⟩
  · show (store.filter (fun m => !isExpired now m.expiryDate)).length
      = store.length - (store.filter (fun m => isExpired now m.expiryDate)).length
    omega
  · show (store.filter (fun m => !isExpired now m.expiryDate)).length
      + (store.filter (fun m => isExpired now m.expiryDate)).length = store.length
    omega
  · show store.foldl (fun sum mapping => sum + mapping.clickCount) 0 = _
    rw [foldl_clickCount, Nat.zero_add]

/-! ## C20: `generateShortcode` -/

theorem randomIndex_lt (d : Draw) (len : Nat) (hlen : 0 < len) : randomIndex d len < len := by
  have hden : 0 < d.den := Nat.lt_of_le_of_lt (Nat.zero_le _) d.lt
  unfold randomIndex
  rw [Nat.div_lt_iff_lt_mul hden, Nat.mul_comm len d.den]
  exact Nat.mul_lt_mul_of_pos_right d.lt hlen

theorem chars_alphanumeric : ∀ c ∈ chars.toList, isAlphanumeric c = true := by decide

theorem chars_length : chars.length = 62 := by decide

theorem charAt_chars (rand : Rand) (i : Nat) :
    charAt chars (randomIndex (rand i) chars.length) = String.singleton (drawnChar rand i) ∧
    drawnChar rand i ∈ chars.toList := by
  have hlt : randomIndex (rand i) chars.length < chars.toList.length :=
    randomIndex_lt (rand i) chars.length (by decide)
  have hget : chars.toList.get? (randomIndex (rand i) chars.length)
      = some (chars.toList.get ⟨_, hlt⟩) := List.get?_eq_get hlt
  constructor
  · simp only [charAt, drawnChar, hget, Option.getD_some]
  · simp only [drawnChar, hget, Option.getD_some]
    exact List.get_mem _ _ _

theorem generateShortcode_eq (rand : Rand) (n : Nat) :
    generateShortcode rand n = String.mk ((List.range n).map (drawnChar rand)) := by
  unfold generateShortcode
  induction n with
  | zero => rfl
  | succ n ih =>
    rw [List.range_succ, List.foldl_append, ih, List.map_append]
    simp only [List.foldl_cons, List.foldl_nil, List.map_cons, List.map_nil]
    rw [(charAt_chars rand n).1]
    rfl

theorem generateShortcode_valid (rand : Rand) :
    isValidShortcode (generateShortcode rand defaultLength) = true := by
  rw [isValidShortcode_iff_aux, generateShortcode_eq]
  refine ⟨by simp [String.length, defaultLength], by simp [String.length, defaultLength], ?_⟩
  intro c hc
  simp only [String.toList, List.mem_map] at hc
  obtain ⟨i, _, rfl⟩ := hc
  exact chars_alphanumeric _ (charAt_chars rand i).2

theorem generateUnique_valid (fuel : Nat) (rand : Rand) (mappings : List Mapping)
    (p : String × Rand) (h : generateUnique fuel rand mappings = some p) :
    isValidShortcode p.1 = true := by
  induction fuel generalizing rand with
  | zero => simp [generateUnique] at h
  | succ n ih =>
    simp only [generateUnique] at h
    split at h
    · exact ih _ h
    · simp only [Option.some.injEq] at h
      subst h
      exact generateShortcode_valid rand

theorem createMapping_generated_valid {fuel : Nat} {rand : Rand} {now : Int} {writeOk : Bool}
    {store : Store} {originalUrl : String} {customShortcode : Option String}
    {expiryDate : Option JsDate} {out : Outcome (Except JsError Mapping)} {r : Mapping}
    (h : createMapping fuel rand now writeOk store originalUrl customShortcode expiryDate
      = some out)
    (hr : out.result = .ok r) (hc : customShortcode = none ∨ customShortcode = some "") :
    isValidShortcode r.shortcode = true := by
  have hres : ∀ sc rand1, resolveShortcode fuel rand (getAllMappings store) customShortcode
      = some (.ok sc, rand1) → isValidShortcode sc = true := by
    intro sc rand1 hsc
    have hgen : (generateUnique fuel rand (getAllMappings store)).map
        (fun p => ((Except.ok p.1 : Except JsError String), p.2)) = some (.ok sc, rand1) := by
      rcases hc with hc | hc <;> simpa [resolveShortcode, hc] using hsc
    cases hg : generateUnique fuel rand (getAllMappings store) with
    | none => simp [hg] at hgen
    | some p =>
      simp only [hg, Option.map_some', Option.some.injEq, Prod.mk.injEq,
        Except.ok.injEq] at hgen
      rw [← hgen.1]
      exact generateUnique_valid _ _ _ _ hg
  unfold createMapping at h
  simp only at h
  split at h
  · simp at h
  · simp only [Option.some.injEq] at h
    subst h
    simp at hr
  · rename_i sc rand1 hsc
    have hv := hres sc rand1 hsc
    split at h
    · simp only [Option.some.injEq] at h
      subst h
      simp at hr
    · cases writeOk with
      | false =>
        simp only [saveMappings, Bool.false_eq_true, if_false, Option.some.injEq] at h
        subst h
        simp at hr
      | true =>
        simp only [saveMappings, if_true, Option.some.injEq] at h
        subst h
        simp only [Except.ok.injEq] at hr
        subst hr
        exact hv

/-- C20: for every length `n` and every stream of draws in `[0, 1)`, `generateShortcode(n)`
returns a string of exactly `n` characters, each one of the 62 characters of the alphabet and
so in `[A-Za-z0-9]`; with the default length 6 the result satisfies `isValidShortcode`; and
the shortcode of every record that `createMapping` creates without a custom shortcode is
valid and stored. -/
theorem generateShortcode_correct :
    (∀ (rand : Rand) (n : Nat),
      (generateShortcode rand n).length = n ∧
      ∀ c ∈ (generateShortcode rand n).toList, c ∈ chars.toList ∧
        (('a' ≤ c ∧ c ≤ 'z') ∨ ('A' ≤ c ∧ c ≤ 'Z') ∨ ('0' ≤ c ∧ c ≤ '9'))) ∧
    chars.length = 62 ∧
    (∀ rand : Rand, isValidShortcode (generateShortcode rand defaultLength) = true) ∧
    (∀ (fuel : Nat) (rand : Rand) (now : Int) (writeOk : Bool) (store : Store)
        (originalUrl : String) (customShortcode : Option String) (expiryDate : Option JsDate)
        (out : Outcome (Except JsError Mapping)) (r : Mapping),
      createMapping fuel rand now writeOk store originalUrl customShortcode expiryDate
        = some out →
      out.result = .ok r → (customShortcode = none ∨ customShortcode = some "") →
      isValidShortcode r.shortcode = true ∧ getMapping out.store r.shortcode = some r) := by
  refine ⟨fun rand n => ?_, chars_length, generateShortcode_valid, ?_⟩
  · rw [generateShortcode_eq]
    refine ⟨by simp [String.length], fun c hc => ?_⟩
    simp only [String.toList, List.mem_map] at hc
    obtain ⟨i, _, rfl⟩ := hc
    have hmem := (charAt_chars rand i).2
    have hal := chars_alphanumeric _ hmem
    simp only [isAlphanumeric, isLower, isUpper, isDigit, Bool.or_eq_true, Bool.and_eq_true,
      decide_eq_true_eq, or_assoc] at hal
    exact ⟨hmem, hal⟩
  · intro fuel rand now writeOk store originalUrl customShortcode expiryDate out r h hr hc
    exact ⟨createMapping_generated_valid h hr hc, (createMapping_round_trip_aux h hr).1⟩

/-- Witness for C20: the shortcode `aaaaaa` generated from `stepRand` and stored by
`createMapping`. -/
theorem generateShortcode_correct_witness :
    generateShortcode stepRand defaultLength = "aaaaaa" ∧
    isValidShortcode (generateShortcode stepRand defaultLength) = true ∧
    isValidShortcode (⟨"aaaaaa", "https://a.example", 1000, none, 0⟩ : Mapping).shortcode
      = true :=
  ⟨by decide, generateShortcode_correct.2.2.1 stepRand,
   (generateShortcode_correct.2.2.2 1 stepRand 1000 true [] "https://a.example" none none
      ⟨.ok ⟨"aaaaaa", "https://a.example", 1000, none, 0⟩,
        [⟨"aaaaaa", "https://a.example", 1000, none, 0⟩], stepRand.drop defaultLength⟩
      ⟨"aaaaaa", "https://a.example", 1000, none, 0⟩ rfl rfl (Or.inl rfl)).1⟩

/-! ## C24: `getMapping` -/

/-- C24: `getMapping(code)` is an exact-key lookup.  What it returns is a stored record whose
shortcode equals `code`; it returns one whenever a stored record has that shortcode, whatever
the clock value and the record's `expiryDate` (neither is an input of the lookup); it returns
`null` exactly when no stored record has that shortcode; and the comparison is
case-sensitive. -/
theorem getMapping_lookup (store : Store) (code : String) :
    (∀ m, getMapping store code = some m → m ∈ store ∧ m.shortcode = code) ∧
    ((∃ m ∈ store, m.shortcode = code) → ∃ m, getMapping store code = some m) ∧
    (∀ now m, m ∈ store → m.shortcode = code → isExpired now m.expiryDate = true →
      ∃ m1, getMapping store code = some m1 ∧ m1.shortcode = code) ∧
    (getMapping store code = none ↔ ∀ m ∈ store, m.shortcode ≠ code) ∧
    getMapping [⟨"Abc123", "https://a.example", 0, some 10, 0⟩] "abc123" = none ∧
    getMapping [⟨"Abc123", "https://a.example", 0, some 10, 0⟩] "Abc123"
      = some ⟨"Abc123", "https://a.example", 0, some 10, 0⟩ := by
  have hsome : (∃ m ∈ store, m.shortcode = code) → ∃ m, getMapping store code = some m := by
    rintro ⟨m, hm, hms⟩
    cases hg : getMapping store code with
    | some m1 => exact ⟨m1, rfl⟩
    | none =>
      exact absurd (List.mem_map.2 ⟨m, hm, hms⟩) ((getMapping_eq_none_iff store code).1 hg)
  refine ⟨fun m h => getMapping_shortcode store code m h, hsome, ?_, ?_, by decide, by decide⟩
  · intro now m hm hms _
    obtain ⟨m1, h1⟩ := hsome ⟨m, hm, hms⟩
    exact ⟨m1, h1, (getMapping_shortcode store code m1 h1).2⟩
  · rw [getMapping_eq_none_iff]
    simp [shortcodes]

/-! ## C23: a failed write -/

/-- C23: when the write fails, every mutating operation leaves `getAllMappings()` as it was and
does not report success: a completed `createMapping` throws (the storage error whenever the
same call would have returned with a successful write), `cleanupExpiredUrls` throws the
storage error whenever a record is expired (otherwise nothing is written and it returns 0),
and `incrementClickCount` and `deleteMapping` return `false`. -/
theorem failed_write_keeps_store :
    (∀ (fuel : Nat) (rand : Rand) (now : Int) (store : Store) (originalUrl : String)
        (customShortcode : Option String) (expiryDate : Option JsDate)
        (out : Outcome (Except JsError Mapping)),
      createMapping fuel rand now false store originalUrl customShortcode expiryDate
        = some out →
      getAllMappings out.store = getAllMappings store ∧ (∃ e, out.result = .error e) ∧
      ((∃ out1 r, createMapping fuel rand now true store originalUrl customShortcode
          expiryDate = some out1 ∧ out1.result = .ok r) → out.result = .error .saveFailed)) ∧
    (∀ (now : Int) (store : Store) (s : String),
      incrementClickCount now false store s = (false, store)) ∧
    (∀ (store : Store) (s : String), deleteMapping false store s = (false, store)) ∧
    (∀ (now : Int) (store : Store),
      getAllMappings (cleanupExpiredUrls now false store).2 = getAllMappings store ∧
      ((∃ m ∈ store, isExpired now m.expiryDate = true) →
        (cleanupExpiredUrls now false store).1 = .error .saveFailed) ∧
      ((∀ m ∈ store, isExpired now m.expiryDate = false) →
        (cleanupExpiredUrls now false store).1 = .ok 0)) := by
  refine ⟨?_, ?_, ?_, ?_⟩
  · intro fuel rand now store originalUrl customShortcode expiryDate out h
    obtain ⟨e, he⟩ := (createMapping_ok_iff h).2 (Or.inr (Or.inr rfl))
    refine ⟨createMapping_error_store h he, ⟨e, he⟩, ?_⟩
    rintro ⟨out1, r, h1, hr1⟩
    have hno : ¬ ((∃ s, customShortcode = some s ∧ s ≠ "" ∧ s ∈ shortcodes store) ∨
        expiryDate = some .invalid ∨ true = false) := by
      intro hreason
      obtain ⟨e1, he1⟩ := (createMapping_ok_iff h1).2 hreason
      rw [hr1] at he1
      simp at he1
    rcases createMapping_error_inv h he with ⟨s, h1, h2, h3, _⟩ | ⟨h1, _⟩ | ⟨_, h2⟩
    · exact absurd (Or.inl ⟨s, h1, h2, h3⟩) hno
    · exact absurd (Or.inr (Or.inl h1)) hno
    · rw [he, h2]
  · intro now store s
    rcases incrementClickCount_inv now false store s with h | ⟨_, _, _, _, _, _, _, hw, _⟩
    · exact h
    · simp at hw
  · intro store s
    unfold deleteMapping
    simp only [getAllMappings, saveMappings]
    split <;> rfl
  · intro now store
    have hlen : store.length - (store.filter (fun m => !isExpired now m.expiryDate)).length > 0
        ↔ ∃ m ∈ store, isExpired now m.expiryDate = true := by
      have h1 := List.length_eq_countP_add_countP (fun m => isExpired now m.expiryDate) store
      have h2 : List.countP (fun a => decide ¬isExpired now a.expiryDate = true) store
          = (store.filter (fun m => !isExpired now m.expiryDate)).length := by
        rw [List.countP_eq_length_filter]
        congr 2
        funext m
        cases isExpired now m.expiryDate <;> rfl
      have h3 := List.countP_pos_iff (p := fun (m : Mapping) => isExpired now m.expiryDate)
        (l := store)
      rw [← h3]
      omega
    by_cases hex : ∃ m ∈ store, isExpired now m.expiryDate = true
    · have hpos := hlen.2 hex
      have hval : cleanupExpiredUrls now false store = (.error .saveFailed, store) := by
        unfold cleanupExpiredUrls
        simp only [getAllMappings, saveMappings, Bool.false_eq_true, if_false, hpos, if_true]
      rw [hval]
      refine ⟨rfl, fun _ => rfl, fun hall => ?_⟩
      obtain ⟨m, hm, hexp⟩ := hex
      rw [hall m hm] at hexp
      simp at hexp
    · have hpos : ¬ (store.length
          - (store.filter (fun m => !isExpired now m.expiryDate)).length > 0) :=
        fun hc => hex (hlen.1 hc)
      have hval : cleanupExpiredUrls now false store = (.ok 0, store) := by
        unfold cleanupExpiredUrls
        simp only [getAllMappings, hpos, if_false]
        congr 2
        omega
      rw [hval]
      exact ⟨rfl, fun h => absurd h hex, fun _ => rfl⟩

/-! ## C21: the generation loop has no bound -/

theorem drop_drop (rand : Rand) (a b : Nat) : (rand.drop a).drop b = rand.drop (b + a) := by
  funext i
  simp only [Rand.drop, Nat.add_assoc]

theorem candidate_drop (rand : Rand) (k : Nat) :
    candidate (rand.drop defaultLength) k = candidate rand (k + 1) := by
  simp only [candidate, drop_drop, Nat.mul_succ]

theorem candidate_zero (rand : Rand) :
    candidate rand 0 = generateShortcode rand defaultLength := by
  simp only [candidate, Nat.mul_zero]
  rfl

/-- The generation loop returns at the first drawn shortcode that is not stored, after `k + 1`
iterations, when the fuel allows them. -/
theorem generateUnique_eq_some_iff (fuel : Nat) (rand : Rand) (mappings : List Mapping)
    (p : String × Rand) :
    generateUnique fuel rand mappings = some p ↔
      ∃ k, k < fuel ∧ (∀ j, j < k → candidate rand j ∈ shortcodes mappings) ∧
        candidate rand k ∉ shortcodes mappings ∧
        p = (candidate rand k, rand.drop (defaultLength * (k + 1))) := by
  induction fuel generalizing rand with
  | zero => simp [generateUnique]
  | succ n ih =>
    simp only [generateUnique]
    by_cases hany : mappings.any
        (fun mapping => mapping.shortcode == generateShortcode rand defaultLength) = true
    · have hmem : candidate rand 0 ∈ shortcodes mappings := by
        rw [candidate_zero]; exact (any_shortcode_eq_true_iff _ _).1 hany
      rw [if_pos hany, ih]
      constructor
      · rintro ⟨k, hk, hall, hfresh, hp⟩
        refine ⟨k + 1, by omega, ?_, ?_, ?_⟩
        · intro j hj
          cases j with
          | zero => exact hmem
          | succ j => rw [← candidate_drop]; exact hall j (by omega)
        · rw [← candidate_drop]; exact hfresh
        · rw [hp, candidate_drop, drop_drop]
          rfl
      · rintro ⟨k, hk, hall, hfresh, hp⟩
        cases k with
        | zero => exact absurd hmem hfresh
        | succ k =>
          refine ⟨k, by omega, fun j hj => ?_, ?_, ?_⟩
          · rw [candidate_drop]; exact hall (j + 1) (by omega)
          · rw [candidate_drop]; exact hfresh
          · rw [hp, candidate_drop, drop_drop]
            rfl
    · have hnot : candidate rand 0 ∉ shortcodes mappings := by
        rw [candidate_zero]
        rw [Bool.not_eq_true] at hany
        exact (any_shortcode_eq_false_iff _ _).1 hany
      rw [if_neg hany]
      constructor
      · intro hp
        simp only [Option.some.injEq] at hp
        refine ⟨0, by omega, fun j hj => absurd hj (by omega), hnot, ?_⟩
        rw [← hp, candidate_zero]
        simp
      · rintro ⟨k, _, hall, _, hp⟩
        cases k with
        | zero =>
          rw [hp, candidate_zero]
          simp
        | succ k => exact absurd (hall 0 (by omega)) hnot

/-- Without a custom shortcode `createMapping` completes exactly when the generation loop
does, and then uses the shortcode and the stream that the loop returns. -/
theorem createMapping_generated_inv (fuel : Nat) (rand : Rand) (now : Int) (writeOk : Bool)
    (store : Store) (originalUrl : String) (customShortcode : Option String)
    (expiryDate : Option JsDate)
    (hc : customShortcode = none ∨ customShortcode = some "") :
    (∀ out, createMapping fuel rand now writeOk store originalUrl customShortcode expiryDate
        = some out →
      ∃ p, generateUnique fuel rand store = some p ∧ out.rand = p.2 ∧
        ∀ r, out.result = .ok r → r.shortcode = p.1) ∧
    (∀ p, generateUnique fuel rand store = some p →
      ∃ out, createMapping fuel rand now writeOk store originalUrl customShortcode expiryDate
        = some out) ∧
    (generateUnique fuel rand store = none →
      createMapping fuel rand now writeOk store originalUrl customShortcode expiryDate
        = none) := by
  have hres : resolveShortcode fuel rand (getAllMappings store) customShortcode
      = (generateUnique fuel rand store).map
          (fun p => ((Except.ok p.1 : Except JsError String), p.2)) := by
    rcases hc with hc | hc <;> simp [resolveShortcode, hc, getAllMappings]
  unfold createMapping
  simp only [hres]
  cases hg : generateUnique fuel rand store with
  | none => simp
  | some p =>
    simp only [Option.map_some', Option.some.injEq, forall_eq', reduceCtorEq, false_implies,
      and_true]
    cases expiryToISO expiryDate with
    | error e => simp
    | ok iso =>
      cases writeOk with
      | false => simp [saveMappings]
      | true =>
        simp only [saveMappings, if_true, Option.some.injEq, forall_eq', Except.ok.injEq,
          exists_eq', and_true, true_and]
        exact ⟨p, rfl, rfl, rfl⟩

/-- C21, as stated, fails: the loop has no retry cap.  With a random stream that draws
`aaaaaa` every time and a store that holds `aaaaaa`, `createMapping` has neither returned nor
thrown after 1000 iterations, and no number of iterations makes it return. -/
theorem createMapping_generation_never_ends :
    createMapping 1000 zeroRand 0 true [⟨"aaaaaa", "https://a.example", 0, none, 0⟩]
      "https://b.example" none none = none ∧
    ¬ ∃ fuel, (createMapping fuel zeroRand 0 true [⟨"aaaaaa", "https://a.example", 0, none, 0⟩]
      "https://b.example" none none).isSome = true := by
  have hcand : ∀ k, candidate zeroRand k
      ∈ shortcodes [⟨"aaaaaa", "https://a.example", 0, none, 0⟩] := by
    intro k
    have : candidate zeroRand k = "aaaaaa" := by
      show generateShortcode zeroRand defaultLength = "aaaaaa"
      decide
    rw [this]
    decide
  have hnone : ∀ fuel, generateUnique fuel zeroRand
      [⟨"aaaaaa", "https://a.example", 0, none, 0⟩] = none := by
    intro fuel
    cases hg : generateUnique fuel zeroRand [⟨"aaaaaa", "https://a.example", 0, none, 0⟩] with
    | none => rfl
    | some p =>
      obtain ⟨k, _, _, hfresh, _⟩ := (generateUnique_eq_some_iff _ _ _ _).1 hg
      exact absurd (hcand k) hfresh
  have hcm : ∀ fuel, createMapping fuel zeroRand 0 true
      [⟨"aaaaaa", "https://a.example", 0, none, 0⟩] "https://b.example" none none = none :=
    fun fuel => (createMapping_generated_inv fuel zeroRand 0 true _ _ none none
      (Or.inl rfl)).2.2 (hnone fuel)
  refine ⟨hcm 1000, ?_⟩
  rintro ⟨fuel, h⟩
  rw [hcm fuel] at h
  simp at h

/-- C21 (amended): `createMapping` without a custom shortcode draws shortcodes until one is not
stored; there is no retry cap and no exhaustion error.  It completes within `fuel` iterations
exactly when one of the first `fuel` drawn shortcodes is not stored; it then has made `k + 1`
iterations, where the `k`-th drawn shortcode is the first one not stored, uses that shortcode,
and can only fail with the invalid-time-value or the storage error; and when every drawn
shortcode is stored it never completes. -/
theorem createMapping_generation_unbounded (rand : Rand) (now : Int) (writeOk : Bool)
    (store : Store) (originalUrl : String) (customShortcode : Option String)
    (expiryDate : Option JsDate)
    (hc : customShortcode = none ∨ customShortcode = some "") :
    (∀ fuel, (∃ out, createMapping fuel rand now writeOk store originalUrl customShortcode
        expiryDate = some out) ↔ ∃ k, k < fuel ∧ candidate rand k ∉ shortcodes store) ∧
    (∀ fuel out, createMapping fuel rand now writeOk store originalUrl customShortcode
        expiryDate = some out →
      ∃ k, k < fuel ∧ (∀ j, j < k → candidate rand j ∈ shortcodes store) ∧
        candidate rand k ∉ shortcodes store ∧
        out.rand = rand.drop (defaultLength * (k + 1)) ∧
        (∀ r, out.result = .ok r → r.shortcode = candidate rand k) ∧
        (∀ e, out.result = .error e → e = .invalidTimeValue ∨ e = .saveFailed)) ∧
    ((∀ k, candidate rand k ∈ shortcodes store) →
      ∀ fuel, createMapping fuel rand now writeOk store originalUrl customShortcode expiryDate
        = none) := by
  have hinv := fun fuel => createMapping_generated_inv fuel rand now writeOk store originalUrl
    customShortcode expiryDate hc
  have hdetail : ∀ fuel out, createMapping fuel rand now writeOk store originalUrl
      customShortcode expiryDate = some out →
      ∃ k, k < fuel ∧ (∀ j, j < k → candidate rand j ∈ shortcodes store) ∧
        candidate rand k ∉ shortcodes store ∧
        out.rand = rand.drop (defaultLength * (k + 1)) ∧
        (∀ r, out.result = .ok r → r.shortcode = candidate rand k) ∧
        (∀ e, out.result = .error e → e = .invalidTimeValue ∨ e = .saveFailed) := by
    intro fuel out h
    obtain ⟨p, hg, hrand, hsc⟩ := (hinv fuel).1 out h
    obtain ⟨k, hk, hall, hfresh, hp⟩ := (generateUnique_eq_some_iff _ _ _ _).1 hg
    refine ⟨k, hk, hall, hfresh, by rw [hrand, hp], fun r hr => by rw [hsc r hr, hp],
      fun e he => ?_⟩
    rcases createMapping_error_inv h he with ⟨s, h1, h2, _, _⟩ | ⟨_, h2⟩ | ⟨_, h2⟩
    · rcases hc with hc | hc
      · rw [hc] at h1; simp at h1
      · rw [hc] at h1
        simp only [Option.some.injEq] at h1
        exact absurd h1.symm h2
    · exact Or.inl h2
    · exact Or.inr h2
  have hfirst : ∀ fuel, (∃ k, k < fuel ∧ candidate rand k ∉ shortcodes store) →
      ∃ p, generateUnique fuel rand store = some p := by
    intro fuel
    rintro ⟨k, hk, hfresh⟩
    have hex : ∃ k, k < fuel ∧ candidate rand k ∉ shortcodes store := ⟨k, hk, hfresh⟩
    classical
    let k0 := Nat.find hex
    have hk0 := Nat.find_spec hex
    refine ⟨_, (generateUnique_eq_some_iff fuel rand store _).2
      ⟨k0, hk0.1, fun j hj => ?_, hk0.2, rfl⟩⟩
    by_contra hnot
    exact Nat.find_min hex hj ⟨by omega, hnot⟩
  refine ⟨fun fuel => ⟨?_, ?_⟩, hdetail, fun hall fuel => ?_⟩
  · rintro ⟨out, h⟩
    obtain ⟨k, hk, _, hfresh, _⟩ := hdetail fuel out h
    exact ⟨k, hk, hfresh⟩
  · intro hex
    obtain ⟨p, hp⟩ := hfirst fuel hex
    exact (hinv fuel).2.1 p hp
  · apply (hinv fuel).2.2
    cases hg : generateUnique fuel rand store with
    | none => rfl
    | some p =>
      obtain ⟨k, _, _, hfresh, _⟩ := (generateUnique_eq_some_iff _ _ _ _).1 hg
      exact absurd (hall k) hfresh

/-- Witness for C21: the first drawn shortcode `aaaaaa` is stored, the second, `bbbbbb`, is
not, so the call completes with fuel 2 and not with fuel 1. -/
theorem createMapping_generation_unbounded_witness :
    (∃ out, createMapping 2 stepRand 1000 true [⟨"aaaaaa", "https://a.example", 0, none, 0⟩]
      "https://b.example" none none = some out) ∧
    createMapping 1 stepRand 1000 true [⟨"aaaaaa", "https://a.example", 0, none, 0⟩]
      "https://b.example" none none = none :=
  ⟨((createMapping_generation_unbounded stepRand 1000 true
      [⟨"aaaaaa", "https://a.example", 0, none, 0⟩] "https://b.example" none none
      (Or.inl rfl)).1 2).2 ⟨1, by decide, by decide⟩,
   rfl⟩

/-! ## C27: an expired record keeps its shortcode taken -/

theorem deleteMapping_true_store (store : Store) (s : String) :
    (deleteMapping true store s).2 = store.filter (fun m => m.shortcode != s) := by
  unfold deleteMapping
  simp only [getAllMappings, saveMappings, if_true]
  split
  · rename_i hlen
    exact (List.Sublist.eq_of_length (List.filter_sublist store) hlen).symm
  · rfl

theorem cleanupExpiredUrls_true_store (now : Int) (store : Store) :
    (cleanupExpiredUrls now true store).2
      = store.filter (fun m => !isExpired now m.expiryDate) := by
  unfold cleanupExpiredUrls
  simp only [getAllMappings, saveMappings, if_true]
  split
  · rfl
  · rename_i hpos
    have hle := List.length_filter_le (fun m : Mapping => !isExpired now m.expiryDate) store
    exact (List.Sublist.eq_of_length (List.filter_sublist store) (by omega)).symm

theorem result_ok_iff_not_error (result : Except JsError Mapping) :
    (∃ r, result = .ok r) ↔ ¬ ∃ e, result = .error e := by
  cases result with
  | ok r => simp
  | error e => simp

/-- With a non-empty custom shortcode, a valid or absent expiry and a write that succeeds,
`createMapping` returns a record exactly when the shortcode is not stored. -/
theorem createMapping_custom_ok_iff_aux (fuel : Nat) (rand : Rand) (now : Int) (store : Store)
    (originalUrl s : String) (expiryDate : Option JsDate) (hs : s ≠ "")
    (hexp : expiryDate ≠ some .invalid) (out : Outcome (Except JsError Mapping))
    (h : createMapping fuel rand now true store originalUrl (some s) expiryDate = some out) :
    (∃ r, out.result = .ok r) ↔ s ∉ shortcodes store := by
  rw [result_ok_iff_not_error, createMapping_ok_iff h]
  constructor
  · intro hno hmem
    exact hno (Or.inl ⟨s, rfl, hs, hmem⟩)
  · rintro hfree (⟨s1, h1, _, h3⟩ | h2 | h2)
    · simp only [Option.some.injEq] at h1
      exact hfree (h1 ▸ h3)
    · exact hexp h2
    · simp at h2

/-- C27, as stated, fails for an expiry that is an `Invalid Date`: no stored record has the
shortcode `free`, the write succeeds, and yet `createMapping` throws (the `RangeError` of
`toISOString`). -/
theorem createMapping_free_shortcode_invalid_expiry :
    (createMapping 1 stepRand 1000 true [] "https://a.example" (some "free")
        (some .invalid)).map (fun out => (out.result, out.store))
      = some (.error .invalidTimeValue, []) := by
  rfl

/-- C27 (amended): for every store, every non-empty custom shortcode `s` and every expiry that
is `null` or a valid `Date`, when the write succeeds `createMapping(url, s, expiry)` completes
and succeeds exactly when no stored record has shortcode `s`; the stored records' expiry plays
no role: a record that is expired at the time of the call blocks its shortcode
(shortcode-in-use), and the shortcode is free again once `deleteMapping(s)`, or
`cleanupExpiredUrls()` when all records with `s` are expired, has removed it. -/
theorem createMapping_availability (fuel : Nat) (rand : Rand) (now : Int) (store : Store)
    (originalUrl s : String) (expiryDate : Option JsDate) (hs : s ≠ "")
    (hexp : expiryDate ≠ some .invalid) :
    (∃ out, createMapping fuel rand now true store originalUrl (some s) expiryDate = some out ∧
      ((∃ r, out.result = .ok r) ↔ ∀ m ∈ store, m.shortcode ≠ s) ∧
      ((∃ m ∈ store, m.shortcode = s ∧ isExpired now m.expiryDate = true) →
        out.result = .error (.shortcodeInUse s))) ∧
    (∃ out, createMapping fuel rand now true (deleteMapping true store s).2 originalUrl
        (some s) expiryDate = some out ∧ ∃ r, out.result = .ok r) ∧
    ((∀ m ∈ store, m.shortcode = s → isExpired now m.expiryDate = true) →
      ∃ out, createMapping fuel rand now true (cleanupExpiredUrls now true store).2
        originalUrl (some s) expiryDate = some out ∧ ∃ r, out.result = .ok r) := by
  have hmem_iff : ∀ st : Store, s ∉ shortcodes st ↔ ∀ m ∈ st, m.shortcode ≠ s := by
    intro st
    simp [shortcodes]
  refine ⟨?_, ?_, ?_⟩
  · obtain ⟨out, h⟩ :=
      createMapping_custom_returns fuel rand now true store originalUrl s expiryDate hs
    refine ⟨out, h, ?_, ?_⟩
    · rw [createMapping_custom_ok_iff_aux fuel rand now store originalUrl s expiryDate hs hexp
        out h, hmem_iff]
    · rintro ⟨m, hm, hms, _⟩
      have := createMapping_shortcode_taken_aux fuel rand now true store originalUrl s
        expiryDate hs (List.mem_map.2 ⟨m, hm, hms⟩)
      rw [this] at h
      simp only [Option.some.injEq] at h
      rw [← h]
  · obtain ⟨out, h⟩ := createMapping_custom_returns fuel rand now true
      (deleteMapping true store s).2 originalUrl s expiryDate hs
    refine ⟨out, h, ?_⟩
    rw [createMapping_custom_ok_iff_aux fuel rand now _ originalUrl s expiryDate hs hexp out h,
      hmem_iff, deleteMapping_true_store]
    intro m hm
    simpa using (List.mem_filter.1 hm).2
  · intro hall
    obtain ⟨out, h⟩ := createMapping_custom_returns fuel rand now true
      (cleanupExpiredUrls now true store).2 originalUrl s expiryDate hs
    refine ⟨out, h, ?_⟩
    rw [createMapping_custom_ok_iff_aux fuel rand now _ originalUrl s expiryDate hs hexp out h,
      hmem_iff, cleanupExpiredUrls_true_store]
    intro m hm hms
    have hm1 := List.mem_filter.1 hm
    rw [hall m hm1.1 hms] at hm1
    simp at hm1

/-- Witness for C27: the shortcode `a1` of `fiveRecords` belongs to a record that expired at
10; at clock value 1000 it is still taken. -/
theorem createMapping_availability_witness :
    ∃ out, createMapping 1 stepRand 1000 true fiveRecords "https://n.example" (some "a1")
        (some (.valid 5000)) = some out ∧
      ((∃ r, out.result = .ok r) ↔ ∀ m ∈ fiveRecords, m.shortcode ≠ "a1") ∧
      ((∃ m ∈ fiveRecords, m.shortcode = "a1" ∧ isExpired 1000 m.expiryDate = true) →
        out.result = .error (.shortcodeInUse "a1")) :=
  (createMapping_availability 1 stepRand 1000 fiveRecords "https://n.example" "a1"
    (some (.valid 5000)) (by decide) (by decide)).1

/-! ## C25: frame -/

theorem find?_set_of_not {α : Type} (p : α → Bool) (l : List α) (i : Nat) (a b : α)
    (h : l.get? i = some a) (ha : p a = false) (hb : p b = false) :
    (l.set i b).find? p = l.find? p := by
  induction l generalizing i with
  | nil => simp
  | cons c l ih =>
    cases i with
    | zero =>
      simp only [List.get?_cons_zero, Option.some.injEq] at h
      subst h
      simp [List.find?, ha, hb]
    | succ j =>
      simp only [List.get?_cons_succ] at h
      simp only [List.set_cons_succ, List.find?]
      rw [ih j h]

theorem getMapping_filter_nodup (store : Store) (q : Mapping → Bool) (s : String)
    (m m1 : Mapping) (hnd : (shortcodes store).Nodup) (h : getMapping store s = some m)
    (h1 : getMapping (store.filter q) s = some m1) : m1 = m := by
  obtain ⟨hm1, hs1⟩ := getMapping_shortcode _ s m1 h1
  have hmem : m1 ∈ store := (List.mem_filter.1 hm1).1
  have := getMapping_of_mem_nodup store m1 hmem hnd
  rw [hs1, h] at this
  exact (Option.some.inj this).symm

theorem getMapping_append_of_some (store extra : Store) (s : String) (m : Mapping)
    (h : getMapping store s = some m) : getMapping (store ++ extra) s = some m := by
  simp only [getMapping, getAllMappings] at h ⊢
  rw [List.find?_append, h]
  rfl

/-- C25: in a store with pairwise distinct shortcodes, a completed call of `createMapping`,
`incrementClickCount`, `deleteMapping` or `cleanupExpiredUrls` leaves every record that is
stored under its shortcode before and after the call unchanged in all five fields, except
that `incrementClickCount(s)` may have raised the `clickCount` of the record with shortcode
`s` by one; `createMapping` and `incrementClickCount` remove no record; so no call changes a
`createdAt` or lowers a `clickCount`. -/
theorem call_frame (call : Call) (store store1 : Store) (created : Option Mapping)
    (hnd : (shortcodes store).Nodup) (h : call.run store = some (store1, created)) :
    (∀ s m m1, getMapping store s = some m → getMapping store1 s = some m1 →
      m1 = m ∨ ((∃ env, call = .click env s) ∧ m1 = m.clicked)) ∧
    (call.removes = false →
      ∀ s m, getMapping store s = some m → ∃ m1, getMapping store1 s = some m1) ∧
    (∀ s m m1, getMapping store s = some m → getMapping store1 s = some m1 →
      m1.shortcode = m.shortcode ∧ m1.originalUrl = m.originalUrl ∧
      m1.createdAt = m.createdAt ∧ m1.expiryDate = m.expiryDate ∧
      m.clickCount ≤ m1.clickCount) := by
  have hmain : (∀ s m m1, getMapping store s = some m → getMapping store1 s = some m1 →
      m1 = m ∨ ((∃ env, call = .click env s) ∧ m1 = m.clicked)) ∧
      (call.removes = false →
        ∀ s m, getMapping store s = some m → ∃ m1, getMapping store1 s = some m1) := by
    cases call with
    | create fuel rand env url custom expiry =>
      simp only [Call.run] at h
      cases hc : createMapping fuel rand env.now env.writeOk store url custom expiry with
      | none => simp [hc] at h
      | some out =>
        simp only [hc] at h
        have hst : store1 = out.store := by
          cases hr : out.result with
          | ok r => simp only [hr, Option.some.injEq, Prod.mk.injEq] at h; exact h.1.symm
          | error e => simp only [hr, Option.some.injEq, Prod.mk.injEq] at h; exact h.1.symm
        have happ : ∃ extra, out.store = store ++ extra := by
          rcases createMapping_inv hc with ⟨e, _, hs⟩ | ⟨sc, iso, _, hs, _⟩
          · exact ⟨[], by rw [hs]; simp⟩
          · exact ⟨_, hs⟩
        obtain ⟨extra, hextra⟩ := happ
        rw [hst, hextra]
        refine ⟨fun s m m1 hm hm1 => Or.inl ?_, fun _ s m hm =>
          ⟨m, getMapping_append_of_some store extra s m hm⟩⟩
        rw [getMapping_append_of_some store extra s m hm] at hm1
        exact (Option.some.inj hm1).symm
    | click env s0 =>
      simp only [Call.run, Option.some.injEq, Prod.mk.injEq] at h
      obtain ⟨hst, _⟩ := h
      rcases incrementClickCount_inv env.now env.writeOk store s0 with
        hinc | ⟨i, m0, hfi, hget, hm0s, hg0, _, _, hinc⟩
      · rw [hinc] at hst
        subst hst
        refine ⟨fun s m m1 hm hm1 => Or.inl ?_, fun _ s m hm => ⟨m, hm⟩⟩
        rw [hm] at hm1
        exact (Option.some.inj hm1).symm
      · rw [hinc] at hst
        simp only at hst
        subst hst
        have hkey : ∀ s, (s = s0 → getMapping (store.set i m0.clicked) s = some m0.clicked) ∧
            (s ≠ s0 → getMapping (store.set i m0.clicked) s = getMapping store s) := by
          intro s
          constructor
          · rintro rfl
            simp only [getMapping, getAllMappings]
            exact find?_set_findIndex _ _ _ _ hfi (by simpa [Mapping.clicked] using hm0s)
          · intro hne
            simp only [getMapping, getAllMappings]
            exact find?_set_of_not _ _ _ m0 _ hget
              (by simpa [hm0s] using fun h => hne h.symm)
              (by simpa [Mapping.clicked, hm0s] using fun h => hne h.symm)
        refine ⟨fun s m m1 hm hm1 => ?_, fun _ s m hm => ?_⟩
        · by_cases hs : s = s0
          · subst hs
            rw [(hkey s).1 rfl] at hm1
            rw [hg0] at hm
            right
            refine ⟨⟨env, rfl⟩, ?_⟩
            rw [← Option.some.inj hm, ← Option.some.inj hm1]
          · rw [(hkey s).2 hs, hm] at hm1
            exact Or.inl (Option.some.inj hm1).symm
        · by_cases hs : s = s0
          · exact ⟨_, (hkey s).1 hs⟩
          · exact ⟨m, by rw [(hkey s).2 hs]; exact hm⟩
    | delete env s0 =>
      simp only [Call.run, Option.some.injEq, Prod.mk.injEq] at h
      obtain ⟨hst, _⟩ := h
      refine ⟨fun s m m1 hm hm1 => Or.inl ?_, fun hrem => by simp [Call.removes] at hrem⟩
      rcases deleteMapping_store env.writeOk store s0 with hd | hd
      · rw [hd] at hst
        subst hst
        rw [hm] at hm1
        exact (Option.some.inj hm1).symm
      · rw [hd] at hst
        subst hst
        exact getMapping_filter_nodup store _ s m m1 hnd hm hm1
    | cleanup env =>
      simp only [Call.run, Option.some.injEq, Prod.mk.injEq] at h
      obtain ⟨hst, _⟩ := h
      refine ⟨fun s m m1 hm hm1 => Or.inl ?_, fun hrem => by simp [Call.removes] at hrem⟩
      rcases cleanupExpiredUrls_store env.now env.writeOk store with hd | hd
      · rw [hd] at hst
        subst hst
        rw [hm] at hm1
        exact (Option.some.inj hm1).symm
      · rw [hd] at hst
        subst hst
        exact getMapping_filter_nodup store _ s m m1 hnd hm hm1
  refine ⟨hmain.1, hmain.2, fun s m m1 hm hm1 => ?_⟩
  rcases hmain.1 s m m1 hm hm1 with rfl | ⟨_, rfl⟩
  · exact ⟨rfl, rfl, rfl, rfl, Nat.le_refl _⟩
  · exact ⟨rfl, rfl, rfl, rfl, Nat.le_succ _⟩

/-- Witness for C25: a click on `b2` in `fiveRecords` changes the `clickCount` of that record
only. -/
theorem call_frame_witness :
    ∃ m m1, getMapping fiveRecords "b2" = some m ∧
      getMapping (incrementClickCount 1000 true fiveRecords "b2").2 "b2" = some m1 ∧
      m1.shortcode = m.shortcode ∧ m1.originalUrl = m.originalUrl ∧
      m1.createdAt = m.createdAt ∧ m1.expiryDate = m.expiryDate ∧
      m.clickCount ≤ m1.clickCount :=
  ⟨⟨"b2", "https://b.example", 0, none, 2⟩, ⟨"b2", "https://b.example", 0, none, 3⟩, rfl, rfl,
    (call_frame (.click (envAt 1000) "b2") fiveRecords
      (incrementClickCount 1000 true fiveRecords "b2").2 none (by decide) rfl).2.2 "b2"
      ⟨"b2", "https://b.example", 0, none, 2⟩ ⟨"b2", "https://b.example", 0, none, 3⟩ rfl rfl⟩

/-! ## C29: validation and normalisation agree -/

theorem isValidURL_normalizeURL_aux (urlParses : String → Bool) (url : String) :
    isValidURL urlParses (normalizeURL url) = isValidURL urlParses url := by
  by_cases h0 : url = ""
  · subst h0
    rfl
  · cases h : startsWith url "http" with
    | true => rw [normalizeURL_of_http url h]
    | false =>
      rw [normalizeURL_of_not_http url h0 h]
      exact (isValidURL_of_not_http urlParses url h0 h).symm

theorem normalizeURL_idempotent_aux (url : String) :
    normalizeURL (normalizeURL url) = normalizeURL url := by
  by_cases h0 : url = ""
  · subst h0
    rfl
  · cases h : startsWith url "http" with
    | true => rw [normalizeURL_of_http url h, normalizeURL_of_http url h]
    | false =>
      rw [normalizeURL_of_not_http url h0 h]
      exact normalizeURL_of_http _ (startsWith_https_append url)

/-! ## C26: the limit of the in-memory log -/

theorem truncate_intCast (n : Int) : truncate (n : ℚ) = n := by
  unfold truncate
  split <;> simp

theorem createLogEntry_fields (logger : Logger) (env : LogEnv)
    (level category message data : String) :
    (logger.createLogEntry env level category message data).2.logs = logger.logs ∧
    (logger.createLogEntry env level category message data).2.maxLogs = logger.maxLogs := by
  unfold Logger.createLogEntry Logger.getSessionId
  cases logger.sessionId <;> exact ⟨rfl, rfl⟩

/-- One call of `log` under the limit `0`: the entry is appended and nothing is removed,
because `slice(-0)` is `slice(0)`. -/
theorem log_zero_aux (logger : Logger) (env : LogEnv) (level category message data : String)
    (h : logger.maxLogs = .finite 0) :
    (logger.log env level category message data).maxLogs = .finite 0 ∧
    (logger.log env level category message data).logs =
      logger.logs ++ [(logger.createLogEntry env level category message data).1] := by
  obtain ⟨hl, hm⟩ := createLogEntry_fields logger env level category message data
  unfold Logger.log
  simp only []
  rw [hm, hl, h]
  have hgt : (JsNumber.finite ((logger.logs ++
      [(logger.createLogEntry env level category message data).1]).length : ℚ)).greaterThanNumber
      (.finite 0) = true := by
    simp [JsNumber.greaterThanNumber]
    positivity
  rw [if_pos hgt]
  refine ⟨rfl, ?_⟩
  simp only [JsNumber.neg, neg_zero, slice]
  have h0 : truncate 0 = 0 := by simpa using truncate_intCast 0
  rw [h0]
  simp

/-- One call of `log` under a limit `n` that is a whole number and at least one: the entry is
appended and the oldest entries beyond the last `n` are removed. -/
theorem log_bounded_aux (logger : Logger) (env : LogEnv) (level category message data : String)
    (n : Nat) (hn : 1 ≤ n) (h : logger.maxLogs = .finite n) :
    (logger.log env level category message data).maxLogs = .finite n ∧
    (logger.log env level category message data).logs =
      (logger.logs ++ [(logger.createLogEntry env level category message data).1]).drop
        (logger.logs.length + 1 - n) ∧
    (logger.log env level category message data).logs.length ≤ n := by
  obtain ⟨hl, hm⟩ := createLogEntry_fields logger env level category message data
  have key : (logger.log env level category message data).maxLogs = .finite n ∧
      (logger.log env level category message data).logs =
        (logger.logs ++ [(logger.createLogEntry env level category message data).1]).drop
          (logger.logs.length + 1 - n) := by
    unfold Logger.log
    simp only []
    rw [hm, hl, h]
    by_cases hgt : n < logger.logs.length + 1
    · have hgt1 : (JsNumber.finite ((logger.logs ++
          [(logger.createLogEntry env level category message data).1]).length : ℚ)).greaterThanNumber
          (.finite n) = true := by
        simp only [JsNumber.greaterThanNumber, List.length_append, List.length_singleton,
          decide_eq_true_eq]
        exact_mod_cast hgt
      rw [if_pos hgt1]
      refine ⟨rfl, ?_⟩
      simp only [JsNumber.neg, slice]
      have hneg : (-(n : ℚ)) = ((-(n : Int) : Int) : ℚ) := by push_cast; rfl
      rw [hneg, truncate_intCast]
      have hlt : (-(n : Int)) < 0 := by omega
      rw [if_pos hlt]
      congr 1
      simp only [List.length_append, List.length_singleton]
      omega
    · have hgt1 : (JsNumber.finite ((logger.logs ++
          [(logger.createLogEntry env level category message data).1]).length : ℚ)).greaterThanNumber
          (.finite n) = false := by
        simp only [JsNumber.greaterThanNumber, List.length_append, List.length_singleton,
          decide_eq_false_iff_not, not_lt]
        exact_mod_cast (Nat.le_of_not_lt hgt)
      rw [if_neg (by rw [hgt1]; exact Bool.false_ne_true)]
      refine ⟨rfl, ?_⟩
      have h0 : logger.logs.length + 1 - n = 0 := by omega
      rw [h0]
      rfl
  refine ⟨key.1, key.2, ?_⟩
  rw [key.2, List.length_drop, List.length_append, List.length_singleton]
  omega

/-- C26 fails on the code at the limit `0`: after `configure(\x7bmaxLogs: 0\x7d)` every call of
`log` appends its entry and removes none, because `slice(-0)` returns the whole array; so
after the first call `getLogs()` holds one entry, more than the limit, and after `k` calls it
holds `k` more entries than before. -/
theorem log_unbounded_at_zero (logger : Logger) (consoleOutput storage : Option Bool)
    (calls : List LogCall) :
    (logAll (logger.configure ⟨consoleOutput, storage, some (.finite 0)⟩) calls).getLogs.length
      = logger.getLogs.length + calls.length ∧
    (logAll (Logger.new.configure ⟨none, none, some (.finite 0)⟩)
      [⟨⟨1000, "session_1", "agent", "http://localhost:3000/"⟩, "INFO", "SYSTEM", "started",
        ""⟩]).getLogs
      = [⟨1000, "INFO", "SYSTEM", "started", "", "session_1", "agent",
          "http://localhost:3000/"⟩] := by
  have hcfg : ∀ lg : Logger, ∀ a b : Option Bool,
      (lg.configure ⟨a, b, some (.finite 0)⟩).maxLogs = .finite 0 ∧
      (lg.configure ⟨a, b, some (.finite 0)⟩).logs = lg.logs := by
    intro lg a b
    cases a <;> cases b <;> exact ⟨rfl, rfl⟩
  have hall : ∀ (calls : List LogCall) (lg : Logger), lg.maxLogs = .finite 0 →
      (logAll lg calls).logs.length = lg.logs.length + calls.length := by
    intro calls
    induction calls with
    | nil => intro lg _; rfl
    | cons call rest ih =>
      intro lg hlg
      obtain ⟨hm, hlogs⟩ :=
        log_zero_aux lg call.env call.level call.category call.message call.data hlg
      have hstep : logAll lg (call :: rest) =
          logAll (lg.log call.env call.level call.category call.message call.data) rest := rfl
      rw [hstep, ih _ hm, hlogs, List.length_append, List.length_singleton, List.length_cons]
      omega
  refine ⟨?_, ?_⟩
  · have := hall calls _ (hcfg logger consoleOutput storage).1
    rw [(hcfg logger consoleOutput storage).2] at this
    exact this
  · have h := log_zero_aux (Logger.new.configure ⟨none, none, some (.finite 0)⟩)
      ⟨1000, "session_1", "agent", "http://localhost:3000/"⟩ "INFO" "SYSTEM" "started" "" rfl
    exact h.2

/-! ## C29: the stored form of a valid url -/

theorem matches_rejects {r : Regex} {w : List Char} (h : Regex.Matches r w) (c : Char)
    (hr : r.rejects c = true) : c ∉ w := by
  induction h with
  | eps => simp
  | cls p d hd =>
    simp only [Regex.rejects, Bool.not_eq_true'] at hr
    intro hmem
    simp only [List.mem_singleton] at hmem
    subst hmem
    rw [hr] at hd
    cases hd
  | seq _ _ ih1 ih2 =>
    simp only [Regex.rejects, Bool.and_eq_true] at hr
    simp only [List.mem_append, not_or]
    exact ⟨ih1 hr.1, ih2 hr.2⟩
  | altLeft _ ih =>
    simp only [Regex.rejects, Bool.and_eq_true] at hr
    exact ih hr.1
  | altRight _ ih =>
    simp only [Regex.rejects, Bool.and_eq_true] at hr
    exact ih hr.2
  | starNil => simp
  | starCons _ _ ih1 ih2 =>
    simp only [List.mem_append, not_or]
    exact ⟨ih1 (by simpa [Regex.rejects] using hr), ih2 hr⟩

theorem isJsWhitespace_codes (c : Char) (h : isJsWhitespace c = true) :
    c.toNat ∈ whitespaceCodes := by
  simp only [isJsWhitespace, Bool.or_eq_true, Bool.and_eq_true, decide_eq_true_eq,
    beq_iff_eq] at h
  simp only [whitespaceCodes, List.mem_cons, List.mem_singleton, List.not_mem_nil, or_false]
  omega

theorem whitespace_rejected (c : Char) (h : isJsWhitespace c = true) (hc : c ≠ ' ') :
    URL_PATTERN.rejects c = true := by
  have hcodes := isJsWhitespace_codes c h
  have hall : ∀ n ∈ whitespaceCodes, n ≠ 32 → URL_PATTERN.rejects (Char.ofNat n) = true := by
    decide
  have hne : c.toNat ≠ 32 := by
    intro h32
    apply hc
    rw [← Char.ofNat_toNat c, h32]
  have := hall c.toNat hcodes hne
  rwa [Char.ofNat_toNat] at this

theorem matchesAll_none (w : List Char) : Regex.matchesAll .none w = false := by
  unfold Regex.matchesAll
  induction w with
  | nil => rfl
  | cons c w ih => exact ih

theorem matchesAll_append (r : Regex) (u v : List Char) :
    r.matchesAll (u ++ v) = (u.foldl (fun r c => r.deriv c) r).matchesAll v := by
  unfold Regex.matchesAll
  rw [List.foldl_append]

theorem append_eq_concat {α : Type} (u t v : List α) (c : α) (h : u ++ t = v ++ [c]) :
    (t = [] ∧ u = v ++ [c]) ∨ ∃ t1, t = t1 ++ [c] ∧ v = u ++ t1 := by
  rcases List.eq_nil_or_concat t with rfl | ⟨t1, d, rfl⟩
  · left
    exact ⟨rfl, by simpa using h⟩
  · right
    rw [List.concat_eq_append] at h ⊢
    rw [← List.append_assoc] at h
    have h1 := List.append_inj' h rfl
    have h2 : d = c := by simpa using h1.2
    exact ⟨t1, by rw [h2], h1.1.symm⟩

/-- Removing a final space keeps a match of `r s` when `r` matches no string that contains a
space and `s` allows the removal. -/
theorem matches_seq_drop_space (r s : Regex) (hr : r.rejects ' ' = true)
    (hs : ∀ t, Regex.Matches s (t ++ [' ']) → Regex.Matches s t) (v : List Char)
    (h : Regex.Matches (.seq r s) (v ++ [' '])) : Regex.Matches (.seq r s) v := by
  obtain ⟨u, t, huv, hu, ht⟩ := (matches_seq_iff r s _).1 h
  rcases append_eq_concat u t v ' ' huv.symm with ⟨_, hu1⟩ | ⟨t1, rfl, rfl⟩
  · exact absurd (by rw [hu1]; simp) (matches_rejects hu ' ' hr)
  · exact Regex.Matches.seq hu (hs t1 ht)

theorem matches_star_cls_of_all (p : Char → Bool) (w : List Char)
    (h : ∀ c ∈ w, p c = true) : Regex.Matches (.star (.cls p)) w := by
  induction w with
  | nil => exact Regex.Matches.starNil
  | cons c w ih =>
    have h1 := Regex.Matches.starCons (Regex.Matches.cls p c (h c (List.mem_cons_self _ _)))
      (ih (fun d hd => h d (List.mem_cons_of_mem _ hd)))
    simpa using h1

theorem matches_star_star_cls_all (p : Char → Bool) (r : Regex) (w : List Char)
    (h : Regex.Matches r w)
    (hr : r = .cls p ∨ r = .star (.cls p) ∨ r = .star (.star (.cls p))) :
    ∀ c ∈ w, p c = true := by
  induction h with
  | eps => simp
  | cls q d hd =>
    rcases hr with hr | hr | hr
    · cases hr
      simpa using hd
    · cases hr
    · cases hr
  | seq _ _ _ _ => rcases hr with hr | hr | hr <;> cases hr
  | altLeft _ _ => rcases hr with hr | hr | hr <;> cases hr
  | altRight _ _ => rcases hr with hr | hr | hr <;> cases hr
  | starNil => simp
  | starCons _ _ ih1 ih2 =>
    rcases hr with hr | hr | hr
    · cases hr
    · cases hr
      intro c hc
      rcases List.mem_append.1 hc with hc | hc
      · exact ih1 (Or.inl rfl) c hc
      · exact ih2 (Or.inr (Or.inl rfl)) c hc
    · cases hr
      intro c hc
      rcases List.mem_append.1 hc with hc | hc
      · exact ih1 (Or.inr (Or.inl rfl)) c hc
      · exact ih2 (Or.inr (Or.inr rfl)) c hc

/-- Removing a final space keeps a match of `URL_PATTERN`: the space belongs to the path. -/
theorem matches_URL_PATTERN_drop_space (v : List Char)
    (h : Regex.Matches URL_PATTERN (v ++ [' '])) : Regex.Matches URL_PATTERN v := by
  unfold URL_PATTERN at h ⊢
  refine matches_seq_drop_space _ _ (by decide) (fun t1 h1 => ?_) v h
  refine matches_seq_drop_space _ _ (by decide) (fun t2 h2 => ?_) t1 h1
  refine matches_seq_drop_space _ _ (by decide) (fun t3 h3 => ?_) t2 h2
  refine matches_seq_drop_space _ _ (by decide) (fun t4 h4 => ?_) t3 h3
  obtain ⟨e, f, hef, he, hf⟩ := (matches_seq_iff _ _ _).1 h4
  rcases append_eq_concat e f t4 ' ' hef.symm with ⟨rfl, he1⟩ | ⟨f1, rfl, rfl⟩
  · have hall := matches_star_star_cls_all _ _ _ he (Or.inr (Or.inr rfl))
    rw [he1] at hall
    have hstar := matches_star_cls_of_all _ t4
      (fun c hc => hall c (List.mem_append_left _ hc))
    have hE := Regex.Matches.starCons hstar Regex.Matches.starNil
    rw [List.append_nil] at hE
    have hres := Regex.Matches.seq hE
      (Regex.Matches.altRight (r := Regex.lit "/".toList) Regex.Matches.eps)
    rw [List.append_nil] at hres
    exact hres
  · exfalso
    have hrej : (Regex.opt (Regex.lit "/".toList)).rejects ' ' = true := by decide
    exact matches_rejects hf ' ' hrej (by simp)

theorem isPrefixOf_http_append_space (w : List Char) :
    "http".toList.isPrefixOf (w ++ [' ']) = "http".toList.isPrefixOf w := by
  have hlit : "http".toList = ['h', 't', 't', 'p'] := rfl
  rw [hlit]
  rcases w with _ | ⟨a, _ | ⟨b, _ | ⟨c, _ | ⟨d, r⟩⟩⟩⟩ <;> simp [List.isPrefixOf]

theorem startsWith_append_space (s : String) :
    startsWith (s ++ " ") "http" = startsWith s "http" := by
  unfold startsWith
  have h : (s ++ " ").toList = s.toList ++ [' '] := by simp [String.toList]
  rw [h, isPrefixOf_http_append_space]

theorem isValidURL_unfold (urlParses : String → Bool) (url : String) :
    isValidURL urlParses url = true ↔
      url ≠ "" ∧
      urlParses (if startsWith url "http" then url else "https://" ++ url) = true ∧
      Regex.Matches URL_PATTERN
        (if startsWith url "http" then url else "https://" ++ url).toList := by
  unfold isValidURL
  by_cases h0 : url = ""
  · simp [h0]
  · simp only [h0, if_false, ne_eq, not_false_eq_true, true_and]
    rw [← matchesAll_iff]
    cases hp : urlParses (if startsWith url "http" then url else "https://" ++ url) with
    | true => simp [Regex.test]
    | false => simp

/-- Removing a final space keeps a string valid, when the platform parser ignores it. -/
theorem isValidURL_drop_space (urlParses : String → Bool)
    (hp : ∀ s, urlParses (s ++ " ") = urlParses s) (s : String)
    (h : isValidURL urlParses (s ++ " ") = true) : isValidURL urlParses s = true := by
  rw [isValidURL_unfold] at h ⊢
  obtain ⟨_, h1, h2⟩ := h
  have hT : (if startsWith (s ++ " ") "http" then s ++ " " else "https://" ++ (s ++ " "))
      = (if startsWith s "http" then s else "https://" ++ s) ++ " " := by
    rw [startsWith_append_space]
    split
    · rfl
    · rw [String.append_assoc]
  rw [hT] at h1 h2
  rw [hp] at h1
  have hlist : ((if startsWith s "http" then s else "https://" ++ s) ++ " ").toList
      = (if startsWith s "http" then s else "https://" ++ s).toList ++ [' '] := by
    simp [String.toList]
  rw [hlist] at h2
  have h3 := matches_URL_PATTERN_drop_space _ h2
  refine ⟨?_, h1, h3⟩
  rintro rfl
  have hno : URL_PATTERN.matchesAll
      (if startsWith "" "http" then "" else "https://" ++ "").toList = false := by decide
  rw [(matchesAll_iff _ _).2 h3] at hno
  cases hno

theorem isValidURL_drop_spaces (urlParses : String → Bool)
    (hp : ∀ s, urlParses (s ++ " ") = urlParses s) (s : String) (k : Nat)
    (h : isValidURL urlParses (s ++ String.mk (List.replicate k ' ')) = true) :
    isValidURL urlParses s = true := by
  induction k with
  | zero =>
    have h0 : s ++ String.mk (List.replicate 0 ' ') = s := by
      apply String.ext
      simp
    rwa [h0] at h
  | succ k ih =>
    have h1 : s ++ String.mk (List.replicate (k + 1) ' ')
        = (s ++ String.mk (List.replicate k ' ')) ++ " " := by
      apply String.ext
      simp [List.replicate_succ']
    rw [h1] at h
    exact ih (isValidURL_drop_space urlParses hp _ h)

/-- A valid string contains no white space other than spaces and does not begin with white
space. -/
theorem isValidURL_whitespace (urlParses : String → Bool) (url : String)
    (h : isValidURL urlParses url = true) :
    (∀ c ∈ url.toList, isJsWhitespace c = true → c = ' ') ∧
    ∃ c rest, url.toList = c :: rest ∧ isJsWhitespace c = false := by
  rw [isValidURL_unfold] at h
  obtain ⟨h0, _, h2⟩ := h
  have hsub : ∀ c ∈ url.toList,
      c ∈ (if startsWith url "http" then url else "https://" ++ url).toList := by
    intro c hc
    split
    · exact hc
    · simp only [String.toList, String.data_append, List.mem_append]
      exact Or.inr hc
  have hall : ∀ c ∈ url.toList, isJsWhitespace c = true → c = ' ' := by
    intro c hc hws
    by_contra hne
    exact matches_rejects h2 c (whitespace_rejected c hws hne) (hsub c hc)
  refine ⟨hall, ?_⟩
  cases hl : url.toList with
  | nil =>
    exfalso
    apply h0
    apply String.ext
    simpa [String.toList] using hl
  | cons c rest =>
    refine ⟨c, rest, rfl, ?_⟩
    cases hws : isJsWhitespace c with
    | false => rfl
    | true =>
      exfalso
      have hc : c = ' ' := hall c (by rw [hl]; exact List.mem_cons_self _ _) hws
      subst hc
      have hsw : startsWith url "http" = false := by
        unfold startsWith
        rw [hl]
        rfl
      rw [hsw] at h2
      simp only [Bool.false_eq_true, if_false] at h2
      have hlist : ("https://" ++ url).toList = "https:// ".toList ++ rest := by
        simp only [String.toList, String.data_append] at hl ⊢
        rw [hl]
        rfl
      rw [hlist, ← matchesAll_iff, matchesAll_append] at h2
      have hnone : List.foldl (fun r c => r.deriv c) URL_PATTERN "https:// ".toList
          = Regex.none := rfl
      rw [hnone, matchesAll_none] at h2
      cases h2

/-- What `trim` removes from a valid string: spaces at its end. -/
theorem trim_of_valid (urlParses : String → Bool) (url : String)
    (h : isValidURL urlParses url = true) :
    ∃ k, url = trim url ++ String.mk (List.replicate k ' ') := by
  obtain ⟨hall, c, rest, hl, hc⟩ := isValidURL_whitespace urlParses url h
  have hdrop : url.toList.dropWhile isJsWhitespace = url.toList := by
    rw [hl, List.dropWhile_cons, hc]
    rfl
  have hsplit := List.takeWhile_append_dropWhile isJsWhitespace url.toList.reverse
  have htail : url.toList.reverse.takeWhile isJsWhitespace
      = List.replicate (url.toList.reverse.takeWhile isJsWhitespace).length ' ' := by
    rw [List.eq_replicate_iff]
    refine ⟨rfl, fun b hb => ?_⟩
    have hb1 := List.mem_takeWhile_imp hb
    have hb2 : b ∈ url.toList := by
      have := (List.takeWhile_sublist isJsWhitespace).subset hb
      simpa using this
    exact hall b hb2 hb1
  refine ⟨(url.toList.reverse.takeWhile isJsWhitespace).length, ?_⟩
  apply String.ext
  simp only [trim, String.data_append, hdrop]
  have h1 := congrArg List.reverse hsplit
  simp only [List.reverse_append, List.reverse_reverse] at h1
  rw [htail, List.reverse_replicate] at h1
  exact h1.symm

theorem isValidURL_trim_aux (urlParses : String → Bool)
    (hp : ∀ s, urlParses (s ++ " ") = urlParses s) (url : String)
    (h : isValidURL urlParses url = true) : isValidURL urlParses (trim url) = true := by
  obtain ⟨k, hk⟩ := trim_of_valid urlParses url h
  rw [hk] at h
  exact isValidURL_drop_spaces urlParses hp _ k h

/-- C29: for every string `url`, `isValidURL(url) = isValidURL(normalizeURL(url))`, and
`normalizeURL` is idempotent; so a url that `isValidURL` accepts is still accepted after
`normalizeURL`, and also in the form that `handleSubmit` stores, `normalizeURL(url.trim())`,
given that the platform parser ignores a space at the end of its input (as `new URL` does). -/
theorem isValidURL_normalizeURL (urlParses : String → Bool) (url : String) :
    isValidURL urlParses (normalizeURL url) = isValidURL urlParses url ∧
    normalizeURL (normalizeURL url) = normalizeURL url ∧
    (isValidURL urlParses url = true → isValidURL urlParses (normalizeURL url) = true) ∧
    ((∀ s, urlParses (s ++ " ") = urlParses s) → isValidURL urlParses url = true →
      ∀ now shortcode validityPeriod,
        isValidURL urlParses (prepareUrlData now ⟨url, shortcode, validityPeriod⟩).url
          = true) := by
  refine ⟨isValidURL_normalizeURL_aux urlParses url, normalizeURL_idempotent_aux url,
    fun h => ?_, fun hp h now shortcode validityPeriod => ?_⟩
  · rw [isValidURL_normalizeURL_aux]
    exact h
  · show isValidURL urlParses (normalizeURL (trim url)) = true
    rw [isValidURL_normalizeURL_aux]
    exact isValidURL_trim_aux urlParses hp url h

/-- Witness for C29: the input `a.example/x` followed by two spaces is valid, and so is the
url stored for it. -/
theorem isValidURL_normalizeURL_witness :
    isValidURL (fun _ => true) "a.example/x  " = true ∧
    isValidURL (fun _ => true) (prepareUrlData 0 ⟨"a.example/x  ", "", ""⟩).url = true ∧
    isValidURL (fun _ => true) (normalizeURL "a.example/x  ") = true :=
  ⟨by decide,
   (isValidURL_normalizeURL (fun _ => true) "a.example/x  ").2.2.2 (fun _ => rfl) (by decide)
     0 "" "",
   (isValidURL_normalizeURL (fun _ => true) "a.example/x  ").2.2.1 (by decide)⟩

/-! ## Rounding to the nearest double -/

theorem roundHalfEven_cases (x : ℚ) :
    (roundHalfEven x = ⌊x⌋ ∧ x - ⌊x⌋ ≤ 1 / 2) ∨
    (roundHalfEven x = ⌊x⌋ + 1 ∧ 1 / 2 ≤ x - ⌊x⌋) := by
  unfold roundHalfEven
  split
  · left
    exact ⟨rfl, by linarith⟩
  · rename_i h1
    split
    · right
      exact ⟨rfl, by linarith⟩
    · rename_i h2
      have heq : x - ⌊x⌋ = 1 / 2 := le_antisymm (not_lt.1 h2) (not_lt.1 h1)
      split
      · left
        exact ⟨rfl, by linarith⟩
      · right
        exact ⟨rfl, by linarith⟩

theorem roundHalfEven_sub_le (x : ℚ) : |(roundHalfEven x : ℚ) - x| ≤ 1 / 2 := by
  have hfl := Int.floor_le x
  have hlt := Int.lt_floor_add_one x
  rw [abs_le]
  rcases roundHalfEven_cases x with ⟨h, h1⟩ | ⟨h, h1⟩
  · rw [h]
    constructor <;> linarith
  · rw [h]
    push_cast
    constructor <;> linarith

theorem roundHalfEven_eq_of (x : ℚ) (m : Int) (h1 : (m : ℚ) - 1 / 2 < x)
    (h2 : x < (m : ℚ) + 1 / 2) : roundHalfEven x = m := by
  have h := abs_le.1 (roundHalfEven_sub_le x)
  have hlt : ((roundHalfEven x : Int) : ℚ) < ((m + 1 : Int) : ℚ) := by
    push_cast
    linarith [h.2]
  have hgt : ((m - 1 : Int) : ℚ) < ((roundHalfEven x : Int) : ℚ) := by
    push_cast
    linarith [h.1]
  have hlt1 : roundHalfEven x < m + 1 := by exact_mod_cast hlt
  have hgt1 : m - 1 < roundHalfEven x := by exact_mod_cast hgt
  omega

theorem roundHalfEven_intCast (n : Int) : roundHalfEven (n : ℚ) = n :=
  roundHalfEven_eq_of _ n (by linarith) (by linarith)

theorem roundHalfEven_le (x : ℚ) (n : Int) (h : x ≤ n) : roundHalfEven x ≤ n := by
  have hfl : ⌊x⌋ ≤ n := by
    have := Int.floor_le_floor h
    rwa [Int.floor_intCast] at this
  rcases roundHalfEven_cases x with ⟨hr, _⟩ | ⟨hr, h1⟩
  · rw [hr]
    exact hfl
  · rw [hr]
    have hlt : ((⌊x⌋ : Int) : ℚ) < (n : ℚ) := by linarith
    have : ⌊x⌋ < n := by exact_mod_cast hlt
    omega

theorem le_roundHalfEven (x : ℚ) (n : Int) (h : (n : ℚ) ≤ x) : n ≤ roundHalfEven x := by
  have hfl : n ≤ ⌊x⌋ := Int.le_floor.2 h
  rcases roundHalfEven_cases x with ⟨hr, _⟩ | ⟨hr, _⟩
  · rw [hr]
    exact hfl
  · rw [hr]
    omega

theorem ulpExponent_le (x : ℚ) (k : Int) (hk : 1 ≤ k) (hx : |x| < (2 : ℚ) ^ k) :
    ulpExponent x ≤ k - 53 := by
  unfold ulpExponent
  have hlog : Int.log 2 |x| < k := by
    by_cases h0 : x = 0
    · subst h0
      simp
      omega
    · have hpos : 0 < |x| := abs_pos.2 h0
      exact (Int.lt_zpow_iff_log_lt (by norm_num) hpos).1 (by exact_mod_cast hx)
  omega

theorem two_zpow_pos (e : Int) : (0 : ℚ) < (2 : ℚ) ^ e := zpow_pos (by norm_num) e

/-- The error of one rounding: a number below `2 ^ k` in absolute value is rounded to a finite
double at most `2 ^ (k - 54)` away. -/
theorem roundDouble_of_lt (x : ℚ) (k : Int) (hk : 1 ≤ k) (hk1 : k ≤ 1023)
    (hx : |x| < (2 : ℚ) ^ k) :
    ∃ r, roundDouble x = .finite r ∧ |r - x| ≤ (2 : ℚ) ^ (k - 54) := by
  have hu := ulpExponent_le x k hk hx
  have hupos := two_zpow_pos (ulpExponent x)
  have herr : |(roundHalfEven (x / 2 ^ ulpExponent x) : ℚ) * 2 ^ ulpExponent x - x|
      ≤ (2 : ℚ) ^ (k - 54) := by
    have h1 := roundHalfEven_sub_le (x / 2 ^ ulpExponent x)
    have h2 : (roundHalfEven (x / 2 ^ ulpExponent x) : ℚ) * 2 ^ ulpExponent x - x
        = ((roundHalfEven (x / 2 ^ ulpExponent x) : ℚ) - x / 2 ^ ulpExponent x)
          * 2 ^ ulpExponent x := by
      field_simp
    rw [h2, abs_mul, abs_of_pos hupos]
    have h3 : (2 : ℚ) ^ ulpExponent x ≤ (2 : ℚ) ^ (k - 53) :=
      zpow_le_zpow_right₀ (by norm_num) hu
    have h4 : (2 : ℚ) ^ (k - 53) = 2 * (2 : ℚ) ^ (k - 54) := by
      rw [show k - 53 = 1 + (k - 54) by ring, zpow_add₀ (by norm_num)]
      norm_num
    calc |(roundHalfEven (x / 2 ^ ulpExponent x) : ℚ) - x / 2 ^ ulpExponent x|
          * 2 ^ ulpExponent x
        ≤ 1 / 2 * (2 : ℚ) ^ (k - 53) := by
          apply mul_le_mul h1 h3 (le_of_lt hupos) (by norm_num)
      _ = (2 : ℚ) ^ (k - 54) := by rw [h4]; ring
  refine ⟨(roundHalfEven (x / 2 ^ ulpExponent x) : ℚ) * 2 ^ ulpExponent x, ?_, herr⟩
  unfold roundDouble
  simp only []
  rw [if_neg]
  rw [not_le]
  have h5 : (2 : ℚ) ^ (k - 54) ≤ (2 : ℚ) ^ k := zpow_le_zpow_right₀ (by norm_num) (by omega)
  have h6 : (2 : ℚ) ^ k + (2 : ℚ) ^ k ≤ (2 : ℚ) ^ (1024 : Int) := by
    have : (2 : ℚ) ^ (k + 1) ≤ (2 : ℚ) ^ (1024 : Int) := zpow_le_zpow_right₀ (by norm_num) (by omega)
    rw [zpow_add₀ (by norm_num)] at this
    linarith
  have h7 := abs_sub_abs_le_abs_sub
    ((roundHalfEven (x / 2 ^ ulpExponent x) : ℚ) * 2 ^ ulpExponent x) x
  linarith

theorem div_two_zpow_int (n u : Int) (hu : u ≤ 0) :
    ∃ N : Int, (n : ℚ) / (2 : ℚ) ^ u = N := by
  obtain ⟨a, ha⟩ := Int.exists_eq_neg_ofNat hu
  refine ⟨n * 2 ^ a, ?_⟩
  rw [ha, zpow_neg, zpow_natCast, div_inv_eq_mul]
  push_cast
  rfl

/-- A whole number below `2 ^ 53` in absolute value is a double. -/
theorem roundDouble_intCast (n : Int) (hn : |(n : ℚ)| < (2 : ℚ) ^ (53 : Int)) :
    roundDouble (n : ℚ) = .finite n := by
  have hu := ulpExponent_le (n : ℚ) 53 (by norm_num) hn
  have hupos := two_zpow_pos (ulpExponent (n : ℚ))
  obtain ⟨N, hN⟩ := div_two_zpow_int n (ulpExponent (n : ℚ)) (by omega)
  have hr : (roundHalfEven ((n : ℚ) / 2 ^ ulpExponent (n : ℚ)) : ℚ) * 2 ^ ulpExponent (n : ℚ)
      = n := by
    rw [hN, roundHalfEven_intCast, ← hN]
    field_simp
  unfold roundDouble
  simp only []
  rw [hr, if_neg]
  rw [not_le]
  have : (2 : ℚ) ^ (53 : Int) ≤ (2 : ℚ) ^ (1024 : Int) :=
    zpow_le_zpow_right₀ (by norm_num) (by norm_num)
  linarith

/-- Rounding a number below `2 ^ 53` in absolute value does not cross a whole number. -/
theorem roundDouble_int_bounds (x r : ℚ) (n : Int) (hx : |x| < (2 : ℚ) ^ (53 : Int))
    (h : roundDouble x = .finite r) :
    ((n : ℚ) ≤ x → (n : ℚ) ≤ r) ∧ (x ≤ (n : ℚ) → r ≤ (n : ℚ)) := by
  have hu := ulpExponent_le x 53 (by norm_num) hx
  have hupos := two_zpow_pos (ulpExponent x)
  obtain ⟨N, hN⟩ := div_two_zpow_int n (ulpExponent x) (by omega)
  have hn : (n : ℚ) = N * 2 ^ ulpExponent x := by
    rw [← hN]
    field_simp
  have hr : r = (roundHalfEven (x / 2 ^ ulpExponent x) : ℚ) * 2 ^ ulpExponent x := by
    unfold roundDouble at h
    simp only [] at h
    split at h
    · split at h <;> cases h
    · exact (JsNumber.finite.inj h).symm
  constructor
  · intro hle
    have h1 : (N : ℚ) ≤ x / 2 ^ ulpExponent x := by
      rw [le_div_iff₀ hupos, ← hn]
      exact hle
    have h2 := le_roundHalfEven _ N h1
    rw [hn, hr]
    exact mul_le_mul_of_nonneg_right (by exact_mod_cast h2) (le_of_lt hupos)
  · intro hle
    have h1 : x / 2 ^ ulpExponent x ≤ (N : ℚ) := by
      rw [div_le_iff₀ hupos, ← hn]
      exact hle
    have h2 := roundHalfEven_le _ N h1
    rw [hn, hr]
    exact mul_le_mul_of_nonneg_right (by exact_mod_cast h2) (le_of_lt hupos)

/-- Evaluation of one rounding in the normal range: `m * 2 ^ e` with `m` the integer nearest
to `x / 2 ^ e`, where `2 ^ (e + 52) ≤ |x| < 2 ^ (e + 53)`. -/
theorem roundDouble_eq (x : ℚ) (e m : Int) (hlo : (2 : ℚ) ^ (e + 52) ≤ |x|)
    (hhi : |x| < (2 : ℚ) ^ (e + 53)) (he : -1074 ≤ e) (he1 : e ≤ 970)
    (h1 : (m : ℚ) - 1 / 2 < x / (2 : ℚ) ^ e) (h2 : x / (2 : ℚ) ^ e < (m : ℚ) + 1 / 2) :
    roundDouble x = .finite (m * (2 : ℚ) ^ e) := by
  have hpos : 0 < |x| := lt_of_lt_of_le (two_zpow_pos _) hlo
  have hlog1 : e + 52 ≤ Int.log 2 |x| :=
    (Int.zpow_le_iff_le_log (by norm_num) hpos).1 (by exact_mod_cast hlo)
  have hlog2 : Int.log 2 |x| < e + 53 :=
    (Int.lt_zpow_iff_log_lt (by norm_num) hpos).1 (by exact_mod_cast hhi)
  have hu : ulpExponent x = e := by
    unfold ulpExponent
    omega
  have hupos := two_zpow_pos e
  unfold roundDouble
  simp only []
  rw [hu, roundHalfEven_eq_of _ m h1 h2, if_neg]
  rw [not_le]
  -- the rounded value is below `2 ^ (e + 54)`
  have hm : |(m : ℚ) * (2 : ℚ) ^ e - x| ≤ (2 : ℚ) ^ e := by
    have hx : x = x / (2 : ℚ) ^ e * (2 : ℚ) ^ e := by field_simp
    have h3 : (m : ℚ) * (2 : ℚ) ^ e - x = ((m : ℚ) - x / (2 : ℚ) ^ e) * (2 : ℚ) ^ e := by
      field_simp
    rw [h3, abs_mul, abs_of_pos hupos]
    have h4 : |(m : ℚ) - x / (2 : ℚ) ^ e| ≤ 1 := by
      rw [abs_le]
      constructor <;> linarith
    calc |(m : ℚ) - x / (2 : ℚ) ^ e| * (2 : ℚ) ^ e ≤ 1 * (2 : ℚ) ^ e :=
          mul_le_mul_of_nonneg_right h4 (le_of_lt hupos)
      _ = (2 : ℚ) ^ e := one_mul _
  have h5 : (2 : ℚ) ^ e ≤ (2 : ℚ) ^ (e + 53) := zpow_le_zpow_right₀ (by norm_num) (by omega)
  have h6 : (2 : ℚ) ^ (e + 53) + (2 : ℚ) ^ (e + 53) ≤ (2 : ℚ) ^ (1024 : Int) := by
    have : (2 : ℚ) ^ (e + 53 + 1) ≤ (2 : ℚ) ^ (1024 : Int) :=
      zpow_le_zpow_right₀ (by norm_num) (by omega)
    rw [zpow_add₀ (by norm_num)] at this
    linarith
  have h7 := abs_sub_abs_le_abs_sub ((m : ℚ) * (2 : ℚ) ^ e) x
  linarith

/-! ## C30: a link is not born expired -/

theorem truncate_le_ceil (q : ℚ) : truncate q ≤ ⌈q⌉ := by
  unfold truncate
  split
  · exact Int.floor_le_ceil q
  · exact le_refl _

theorem floor_le_truncate (q : ℚ) : ⌊q⌋ ≤ truncate q := by
  unfold truncate
  split
  · exact le_refl _
  · exact Int.floor_le_ceil q

theorem newDate_whole (n : Int) (h : |n| ≤ maxTime) :
    newDate (.finite (n : ℚ)) = .valid n := by
  unfold newDate
  simp only []
  have hle : ¬ |(n : ℚ)| > (maxTime : ℚ) := by
    rw [not_lt]
    exact_mod_cast h
  rw [if_neg hle, truncate_intCast]

/-- The milliseconds of `hours * 60 * 60 * 1000` as the code computes them: three rounded
products, less than `2 ^ (-16)` away from the exact product. -/
theorem hours_to_milliseconds_aux (h : ℚ) (h0 : 0 < h) (h1 : h ≤ 8760) :
    ∃ a : ℚ, (((JsNumber.finite h).mul (.finite 60)).mul (.finite 60)).mul (.finite 1000)
        = .finite a ∧ |a - h * 3600000| ≤ (2 : ℚ) ^ (-16 : Int) ∧ 0 ≤ a := by
  -- first product
  have hx1 : |h * 60| < (2 : ℚ) ^ (20 : Int) := by
    rw [abs_of_pos (by positivity)]
    norm_num
    linarith
  obtain ⟨a1, ha1, he1⟩ := roundDouble_of_lt (h * 60) 20 (by norm_num) (by norm_num) hx1
  have hx1b : |h * 60| < (2 : ℚ) ^ (53 : Int) :=
    lt_of_lt_of_le hx1 (zpow_le_zpow_right₀ (by norm_num) (by norm_num))
  have hp1 : (0 : ℚ) ≤ a1 := by
    have := (roundDouble_int_bounds (h * 60) a1 0 hx1b ha1).1 (by push_cast; positivity)
    simpa using this
  have he1a := abs_le.1 he1
  norm_num at he1a
  -- second product
  have hx2 : |a1 * 60| < (2 : ℚ) ^ (25 : Int) := by
    rw [abs_of_nonneg (by positivity)]
    norm_num
    linarith [he1a.2]
  obtain ⟨a2, ha2, he2⟩ := roundDouble_of_lt (a1 * 60) 25 (by norm_num) (by norm_num) hx2
  have hx2b : |a1 * 60| < (2 : ℚ) ^ (53 : Int) :=
    lt_of_lt_of_le hx2 (zpow_le_zpow_right₀ (by norm_num) (by norm_num))
  have hp2 : (0 : ℚ) ≤ a2 := by
    have := (roundDouble_int_bounds (a1 * 60) a2 0 hx2b ha2).1 (by push_cast; positivity)
    simpa using this
  have he2a := abs_le.1 he2
  norm_num at he2a
  -- third product
  have hx3 : |a2 * 1000| < (2 : ℚ) ^ (35 : Int) := by
    rw [abs_of_nonneg (by positivity)]
    norm_num
    linarith [he1a.2, he2a.2]
  obtain ⟨a3, ha3, he3⟩ := roundDouble_of_lt (a2 * 1000) 35 (by norm_num) (by norm_num) hx3
  have hx3b : |a2 * 1000| < (2 : ℚ) ^ (53 : Int) :=
    lt_of_lt_of_le hx3 (zpow_le_zpow_right₀ (by norm_num) (by norm_num))
  have hp3 : (0 : ℚ) ≤ a3 := by
    have := (roundDouble_int_bounds (a2 * 1000) a3 0 hx3b ha3).1 (by push_cast; positivity)
    simpa using this
  have he3a := abs_le.1 he3
  norm_num at he3a
  refine ⟨a3, ?_, ?_, hp3⟩
  · simp only [JsNumber.mul, ha1, ha2, ha3]
  · rw [abs_le]
    norm_num
    constructor <;> linarith [he1a.1, he1a.2, he2a.1, he2a.2, he3a.1, he3a.2]

/-- The time value that `calculateExpiryDate` passes to the `Date` constructor is at most
`1 / 2 + 2 ^ (-16)` away from the clock plus the hours. -/
theorem calculateExpiryDate_rounded_aux (h : ℚ) (now : Int) (h0 : 0 < h) (h1 : h ≤ 8760)
    (hnow : |now| ≤ maxTime) :
    ∃ v : ℚ, calculateExpiryDate now (.finite h) = some (newDate (.finite v)) ∧
      |v - ((now : ℚ) + h * 3600000)| ≤ 1 / 2 + (2 : ℚ) ^ (-16 : Int) ∧
      -(maxTime : ℚ) ≤ v := by
  obtain ⟨a, ha, hea, hpa⟩ := hours_to_milliseconds_aux h h0 h1
  have hnowq : |(now : ℚ)| ≤ (maxTime : ℚ) := by exact_mod_cast hnow
  have hnow2 := abs_le.1 hnowq
  have hea2 := abs_le.1 hea
  norm_num [maxTime] at hnow2 hea2
  have hx : |(now : ℚ) + a| < (2 : ℚ) ^ (53 : Int) := by
    rw [abs_lt]
    norm_num
    constructor <;> linarith [hnow2.1, hnow2.2, hea2.1, hea2.2]
  obtain ⟨v, hv, hev⟩ := roundDouble_of_lt ((now : ℚ) + a) 53 (by norm_num) (by norm_num) hx
  have hev2 := abs_le.1 hev
  norm_num at hev2
  refine ⟨v, ?_, ?_, ?_⟩
  · have hf : (JsValue.num (.finite h)).falsy = false := by simp [JsValue.falsy, ne_of_gt h0]
    unfold calculateExpiryDate
    rw [hf, ha]
    simp only [Bool.false_eq_true, if_false, JsNumber.add, hv]
  · rw [abs_le]
    norm_num
    constructor <;> linarith [hev2.1, hev2.2, hea2.1, hea2.2]
  · have := (roundDouble_int_bounds ((now : ℚ) + a) v (-maxTime) hx hv).1 (by
      push_cast
      norm_num [maxTime]
      linarith [hnow2.1])
    simpa using this

/-- For a whole number of hours the arithmetic is exact. -/
theorem calculateExpiryDate_whole_aux (now n : Int) (hn : n ≠ 0) (hn1 : |n| ≤ 8760)
    (hnow : |now| ≤ maxTime) :
    calculateExpiryDate now (.finite (n : ℚ))
      = some (newDate (.finite ((now + n * 3600000 : Int) : ℚ))) := by
  have hf : (JsValue.num (.finite (n : ℚ))).falsy = false := by
    simp [JsValue.falsy, hn]
  have hn2 := abs_le.1 hn1
  have hnow2 := abs_le.1 hnow
  simp only [maxTime] at hnow2
  have hsmall : ∀ m : Int, |m| < 9007199254740992 →
      |(m : ℚ)| < (2 : ℚ) ^ (53 : Int) := by
    intro m hm
    have : |(m : ℚ)| < ((9007199254740992 : Int) : ℚ) := by exact_mod_cast hm
    norm_num at this ⊢
    exact this
  have e1 : roundDouble ((n : ℚ) * 60) = .finite ((n * 60 : Int) : ℚ) := by
    have := roundDouble_intCast (n * 60) (hsmall _ (by rw [abs_lt]; omega))
    rw [← this]
    push_cast
    rfl
  have e2 : roundDouble (((n * 60 : Int) : ℚ) * 60) = .finite ((n * 60 * 60 : Int) : ℚ) := by
    have := roundDouble_intCast (n * 60 * 60) (hsmall _ (by rw [abs_lt]; omega))
    rw [← this]
    push_cast
    rfl
  have e3 : roundDouble (((n * 60 * 60 : Int) : ℚ) * 1000)
      = .finite ((n * 60 * 60 * 1000 : Int) : ℚ) := by
    have := roundDouble_intCast (n * 60 * 60 * 1000) (hsmall _ (by rw [abs_lt]; omega))
    rw [← this]
    push_cast
    rfl
  have e4 : roundDouble ((now : ℚ) + ((n * 60 * 60 * 1000 : Int) : ℚ))
      = .finite ((now + n * 3600000 : Int) : ℚ) := by
    have := roundDouble_intCast (now + n * 3600000) (hsmall _ (by rw [abs_lt]; omega))
    rw [← this]
    push_cast
    ring_nf
  unfold calculateExpiryDate
  rw [hf]
  simp only [Bool.false_eq_true, if_false, JsNumber.mul, JsNumber.add, e1, e2, e3, e4]

/-- The four roundings of `calculateExpiryDate`. -/
theorem calculateExpiryDate_steps (now : Int) (h a1 a2 a3 v : ℚ) (h0 : h ≠ 0)
    (s1 : roundDouble (h * 60) = .finite a1) (s2 : roundDouble (a1 * 60) = .finite a2)
    (s3 : roundDouble (a2 * 1000) = .finite a3)
    (s4 : roundDouble ((now : ℚ) + a3) = .finite v) :
    calculateExpiryDate now (.finite h) = some (newDate (.finite v)) := by
  have hf : (JsValue.num (.finite h)).falsy = false := by simp [JsValue.falsy, h0]
  unfold calculateExpiryDate
  rw [hf]
  simp only [Bool.false_eq_true, if_false, JsNumber.mul, JsNumber.add, s1, s2, s3, s4]

theorem newDate_of_floor (v : ℚ) (n : Int) (h0 : 0 ≤ v) (hmax : v ≤ (maxTime : ℚ))
    (h1 : (n : ℚ) ≤ v) (h2 : v < (n : ℚ) + 1) : newDate (.finite v) = .valid n := by
  unfold newDate
  simp only []
  have hle : ¬ |v| > (maxTime : ℚ) := by
    rw [not_lt, abs_of_nonneg h0]
    exact hmax
  have hfl : ⌊v⌋ = n := Int.floor_eq_iff.2 ⟨h1, h2⟩
  rw [if_neg hle]
  simp only [truncate, if_pos h0, hfl]

theorem newDate_of_ceil (v : ℚ) (n : Int) (h0 : v < 0) (hmin : -(maxTime : ℚ) ≤ v)
    (h1 : (n : ℚ) - 1 < v) (h2 : v ≤ (n : ℚ)) : newDate (.finite v) = .valid n := by
  unfold newDate
  simp only []
  have hle : ¬ |v| > (maxTime : ℚ) := by
    rw [not_lt, abs_of_neg h0]
    linarith
  have hc : ⌈v⌉ = n := Int.ceil_eq_iff.2 ⟨h1, h2⟩
  rw [if_neg hle]
  simp only [truncate, if_neg (not_le.2 h0), hc]

/-- C30, as stated, fails by one millisecond in both directions, because the products and the
sum of line 84 are rounded to doubles and the `Date` constructor drops the fraction.  At clock
value `0`, for the double `0.003` the expiry is `10799` although `0.003` hours are more than
`10800` ms, so at `t = 10800`, within the hours, the link is expired; for the double `0.3` the
expiry is `1080000` although `0.3` hours are less than `1080000` ms, so at `t = 1080000`,
after the hours, the link is not expired.  Before the epoch the constructor rounds upwards:
at clock value `-658801`, for the double `0.183` the expiry is the date `0`, and at `t = 0`,
more than one millisecond after the hours, the link is not expired. -/
theorem calculateExpiryDate_off_by_rounding :
    (0 : ℚ) < 3458764513820541 / 2 ^ 60 ∧ (3458764513820541 / 2 ^ 60 : ℚ) ≤ 8760 ∧
    ((10800 : Int) : ℚ) ≤ ((0 : Int) : ℚ) + 3458764513820541 / 2 ^ 60 * 3600000 ∧
    calculateExpiryDate 0 (.finite (3458764513820541 / 2 ^ 60)) = some (.valid 10799) ∧
    isExpiredDate 10800 (calculateExpiryDate 0 (.finite (3458764513820541 / 2 ^ 60)))
      = true ∧
    (0 : ℚ) < 5404319552844595 / 2 ^ 54 ∧ (5404319552844595 / 2 ^ 54 : ℚ) ≤ 8760 ∧
    ((1080000 : Int) : ℚ) > ((0 : Int) : ℚ) + 5404319552844595 / 2 ^ 54 * 3600000 ∧
    calculateExpiryDate 0 (.finite (5404319552844595 / 2 ^ 54)) = some (.valid 1080000) ∧
    isExpiredDate 1080000 (calculateExpiryDate 0 (.finite (5404319552844595 / 2 ^ 54)))
      = false ∧
    (0 : ℚ) < 3296634927235203 / 2 ^ 54 ∧ (3296634927235203 / 2 ^ 54 : ℚ) ≤ 8760 ∧
    ((0 : Int) : ℚ) ≥ ((-658801 : Int) : ℚ) + 3296634927235203 / 2 ^ 54 * 3600000 + 1 ∧
    calculateExpiryDate (-658801) (.finite (3296634927235203 / 2 ^ 54)) = some (.valid 0) ∧
    isExpiredDate 0 (calculateExpiryDate (-658801) (.finite (3296634927235203 / 2 ^ 54)))
      = false := by
  -- the double `0.183`
  have d1 : roundDouble ((3296634927235203 / 2 ^ 54 : ℚ) * 60)
      = .finite ((6181190488566006 : Int) * (2 : ℚ) ^ (-49 : Int)) :=
    roundDouble_eq _ (-49) 6181190488566006 (by norm_num [abs_of_pos])
      (by norm_num [abs_of_pos]) (by norm_num) (by norm_num) (by norm_num) (by norm_num)
  have d2 : roundDouble (((6181190488566006 : Int) * (2 : ℚ) ^ (-49 : Int)) * 60)
      = .finite ((5794866083030631 : Int) * (2 : ℚ) ^ (-43 : Int)) :=
    roundDouble_eq _ (-43) 5794866083030631 (by norm_num [abs_of_pos])
      (by norm_num [abs_of_pos]) (by norm_num) (by norm_num) (by norm_num) (by norm_num)
  have d3 : roundDouble (((5794866083030631 : Int) * (2 : ℚ) ^ (-43 : Int)) * 1000)
      = .finite ((5659048909209601 : Int) * (2 : ℚ) ^ (-33 : Int)) :=
    roundDouble_eq _ (-33) 5659048909209601 (by norm_num [abs_of_pos])
      (by norm_num [abs_of_pos]) (by norm_num) (by norm_num) (by norm_num) (by norm_num)
  have d4 : roundDouble (((-658801 : Int) : ℚ)
        + (5659048909209601 : Int) * (2 : ℚ) ^ (-33 : Int))
      = .finite ((-9007199253692416 : Int) * (2 : ℚ) ^ (-53 : Int)) :=
    roundDouble_eq _ (-53) (-9007199253692416) (by norm_num [abs_of_neg])
      (by norm_num [abs_of_neg]) (by norm_num) (by norm_num) (by norm_num) (by norm_num)
  have c3 : calculateExpiryDate (-658801) (.finite (3296634927235203 / 2 ^ 54))
      = some (.valid 0) := by
    rw [calculateExpiryDate_steps (-658801) _ _ _ _ _ (by norm_num) d1 d2 d3 d4,
      newDate_of_ceil _ 0 (by norm_num) (by norm_num [maxTime]) (by norm_num) (by norm_num)]
  -- the double `0.003`
  have a1 : roundDouble ((3458764513820541 / 2 ^ 60 : ℚ) * 60)
      = .finite ((6485183463413514 : Int) * (2 : ℚ) ^ (-55 : Int)) :=
    roundDouble_eq _ (-55) 6485183463413514 (by norm_num [abs_of_pos])
      (by norm_num [abs_of_pos]) (by norm_num) (by norm_num) (by norm_num) (by norm_num)
  have a2 : roundDouble (((6485183463413514 : Int) * (2 : ℚ) ^ (-55 : Int)) * 60)
      = .finite ((6079859496950169 : Int) * (2 : ℚ) ^ (-49 : Int)) :=
    roundDouble_eq _ (-49) 6079859496950169 (by norm_num [abs_of_pos])
      (by norm_num [abs_of_pos]) (by norm_num) (by norm_num) (by norm_num) (by norm_num)
  have a3 : roundDouble (((6079859496950169 : Int) * (2 : ℚ) ^ (-49 : Int)) * 1000)
      = .finite ((5937362789990399 : Int) * (2 : ℚ) ^ (-39 : Int)) :=
    roundDouble_eq _ (-39) 5937362789990399 (by norm_num [abs_of_pos])
      (by norm_num [abs_of_pos]) (by norm_num) (by norm_num) (by norm_num) (by norm_num)
  have a4 : roundDouble (((0 : Int) : ℚ) + (5937362789990399 : Int) * (2 : ℚ) ^ (-39 : Int))
      = .finite ((5937362789990399 : Int) * (2 : ℚ) ^ (-39 : Int)) :=
    roundDouble_eq _ (-39) 5937362789990399 (by norm_num [abs_of_pos])
      (by norm_num [abs_of_pos]) (by norm_num) (by norm_num) (by norm_num) (by norm_num)
  have c1 : calculateExpiryDate 0 (.finite (3458764513820541 / 2 ^ 60))
      = some (.valid 10799) := by
    rw [calculateExpiryDate_steps 0 _ _ _ _ _ (by norm_num) a1 a2 a3 a4,
      newDate_of_floor _ 10799 (by norm_num) (by norm_num [maxTime]) (by norm_num)
        (by norm_num)]
  -- the double `0.3`
  have b1 : roundDouble ((5404319552844595 / 2 ^ 54 : ℚ) * 60)
      = .finite ((5066549580791808 : Int) * (2 : ℚ) ^ (-48 : Int)) :=
    roundDouble_eq _ (-48) 5066549580791808 (by norm_num [abs_of_pos])
      (by norm_num [abs_of_pos]) (by norm_num) (by norm_num) (by norm_num) (by norm_num)
  have b2 : roundDouble (((5066549580791808 : Int) * (2 : ℚ) ^ (-48 : Int)) * 60)
      = .finite ((1080 : Int) : ℚ) := by
    have := roundDouble_intCast 1080 (by norm_num [abs_of_pos])
    rw [← this]
    norm_num
  have b3 : roundDouble (((1080 : Int) : ℚ) * 1000) = .finite ((1080000 : Int) : ℚ) := by
    have := roundDouble_intCast 1080000 (by norm_num [abs_of_pos])
    rw [← this]
    norm_num
  have b4 : roundDouble (((0 : Int) : ℚ) + ((1080000 : Int) : ℚ))
      = .finite ((1080000 : Int) : ℚ) := by
    have := roundDouble_intCast 1080000 (by norm_num [abs_of_pos])
    rw [← this]
    norm_num
  have c2 : calculateExpiryDate 0 (.finite (5404319552844595 / 2 ^ 54))
      = some (.valid 1080000) := by
    rw [calculateExpiryDate_steps 0 _ _ _ _ _ (by norm_num) b1 b2 b3 b4,
      newDate_whole 1080000 (by decide)]
  refine ⟨by norm_num, by norm_num, by norm_num, c1, ?_, by norm_num, by norm_num,
    by norm_num, c2, ?_, by norm_num, by norm_num, by norm_num, c3, ?_⟩
  · rw [c1]
    decide
  · rw [c2]
    decide
  · rw [c3]
    decide

/-- C30 (amended): for every number of hours `h` with `0 < h ≤ 8760` and every clock value
`now` (in whole milliseconds), the expiry `e = calculateExpiryDate(h)` computed at `now`
satisfies `isExpired(e) = false` at any time `t` with `now ≤ t ≤ now + h` hours `- 1` ms, and
`isExpired(e) = true` at any time `t ≥ now + h` hours `+ 1` ms when the clock is at or after
the epoch (`t ≥ now + h` hours `+ 2` ms for any clock); when `h` is a whole number of hours
the bounds are exact: `isExpired(e) = false` for `now ≤ t ≤ now + h` hours and
`isExpired(e) = true` for `t > now + h` hours.  Clock values are time values of a `Date`, at
most `8.64e15` in absolute value. -/
theorem calculateExpiryDate_not_born_expired (h : ℚ) (now : Int) (h0 : 0 < h)
    (h1 : h ≤ 8760) (hnow : |now| ≤ maxTime) :
    (∀ t : Int, now ≤ t → (t : ℚ) ≤ now + h * 3600000 - 1 →
      isExpiredDate t (calculateExpiryDate now (.finite h)) = false) ∧
    (0 ≤ now → ∀ t : Int, t ≤ maxTime → (t : ℚ) ≥ now + h * 3600000 + 1 →
      isExpiredDate t (calculateExpiryDate now (.finite h)) = true) ∧
    (∀ t : Int, t ≤ maxTime → (t : ℚ) ≥ now + h * 3600000 + 2 →
      isExpiredDate t (calculateExpiryDate now (.finite h)) = true) ∧
    (∀ n : Int, h = n → ∀ t : Int,
      (now ≤ t → t ≤ now + n * 3600000 →
        isExpiredDate t (calculateExpiryDate now (.finite h)) = false) ∧
      (t ≤ maxTime → t > now + n * 3600000 →
        isExpiredDate t (calculateExpiryDate now (.finite h)) = true)) := by
  obtain ⟨v, hcalc, hv, hvmin⟩ := calculateExpiryDate_rounded_aux h now h0 h1 hnow
  have hv2 := abs_le.1 hv
  norm_num at hv2
  have hpos : (0 : ℚ) < h * 3600000 := by positivity
  -- the date is valid, and its time value is below `t`, whenever `v < t ≤ maxTime`
  have hvalid : ∀ t : Int, t ≤ maxTime → v < (t : ℚ) →
      newDate (.finite v) = .valid (truncate v) := by
    intro t ht hlt
    unfold newDate
    simp only []
    have htq : (t : ℚ) ≤ (maxTime : ℚ) := by exact_mod_cast ht
    have hle : ¬ |v| > (maxTime : ℚ) := by
      rw [not_lt, abs_le]
      constructor <;> linarith
    rw [if_neg hle]
  refine ⟨fun t _ hle => ?_, fun hnow0 t ht hge => ?_, fun t ht hge => ?_, fun n hn t => ?_⟩
  · rw [hcalc]
    unfold newDate
    simp only []
    split
    · rfl
    · have hfl : t ≤ ⌊v⌋ := Int.le_floor.2 (by linarith [hv2.1])
      have := floor_le_truncate v
      simp only [isExpiredDate, decide_eq_false_iff_not, not_lt, ge_iff_le, gt_iff_lt]
      omega
  · have hnowq : (0 : ℚ) ≤ (now : ℚ) := by exact_mod_cast hnow0
    have hlt : v < (t : ℚ) := by linarith [hv2.2]
    rw [hcalc, hvalid t ht hlt]
    simp only [isExpiredDate, decide_eq_true_eq, gt_iff_lt]
    by_cases hv0 : 0 ≤ v
    · have hfl : ⌊v⌋ < t := Int.floor_lt.2 hlt
      simp only [truncate, if_pos hv0]
      exact hfl
    · have hc : ⌈v⌉ ≤ 0 := Int.ceil_le.2 (by push_cast; linarith)
      have ht0 : (0 : ℚ) < (t : ℚ) := by linarith
      have ht1 : (0 : Int) < t := by exact_mod_cast ht0
      simp only [truncate, if_neg hv0]
      omega
  · have hlt : v < (t : ℚ) := by linarith [hv2.2]
    rw [hcalc, hvalid t ht hlt]
    simp only [isExpiredDate, decide_eq_true_eq, gt_iff_lt]
    have hc : ⌈v⌉ < t := by
      have h2 := Int.ceil_lt_add_one v
      have h3 : ((⌈v⌉ : Int) : ℚ) < (t : ℚ) := by linarith [hv2.2]
      exact_mod_cast h3
    have := truncate_le_ceil v
    omega
  · subst hn
    have hn0 : (0 : Int) < n := by exact_mod_cast h0
    have hn1 : n ≤ 8760 := by exact_mod_cast h1
    have hnow2 := abs_le.1 hnow
    rw [calculateExpiryDate_whole_aux now n (by omega) (by rw [abs_le]; omega) hnow]
    by_cases hr : |now + n * 3600000| ≤ maxTime
    · rw [newDate_whole _ hr]
      simp only [isExpiredDate, decide_eq_false_iff_not, not_lt, decide_eq_true_eq, gt_iff_lt]
      exact ⟨fun _ hle => hle, fun _ hgt => hgt⟩
    · have hinv : newDate (.finite ((now + n * 3600000 : Int) : ℚ)) = .invalid := by
        unfold newDate
        simp only []
        rw [if_pos]
        rw [gt_iff_lt]
        exact_mod_cast not_le.1 hr
      rw [hinv]
      refine ⟨fun _ _ => rfl, fun ht hgt => ?_⟩
      exfalso
      apply hr
      rw [abs_le]
      constructor <;> omega

/-- Witness for C30: at clock value 1000, half an hour gives a link that is live at 1,800,999
and expired at 1,801,001; one hour gives a link that is live at 3,601,000 and expired at
3,601,001. -/
theorem calculateExpiryDate_not_born_expired_witness :
    isExpiredDate 1800999 (calculateExpiryDate 1000 (.finite (1 / 2))) = false ∧
    isExpiredDate 1801001 (calculateExpiryDate 1000 (.finite (1 / 2))) = true ∧
    isExpiredDate 3601000 (calculateExpiryDate 1000 (.finite ((1 : Int) : ℚ))) = false ∧
    isExpiredDate 3601001 (calculateExpiryDate 1000 (.finite ((1 : Int) : ℚ))) = true :=
  ⟨(calculateExpiryDate_not_born_expired (1 / 2) 1000 (by norm_num) (by norm_num)
      (by decide)).1 1800999 (by decide) (by norm_num),
   (calculateExpiryDate_not_born_expired (1 / 2) 1000 (by norm_num) (by norm_num)
      (by decide)).2.1 (by decide) 1801001 (by decide) (by norm_num),
   ((calculateExpiryDate_not_born_expired ((1 : Int) : ℚ) 1000 (by norm_num) (by norm_num)
      (by decide)).2.2.2 1 rfl 3601000).1 (by decide) (by decide),
   ((calculateExpiryDate_not_born_expired ((1 : Int) : ℚ) 1000 (by norm_num) (by norm_num)
      (by decide)).2.2.2 1 rfl 3601001).2 (by decide) (by decide)⟩

/-! ## C22: the expiry that the form computes -/

/-- The double nearest to a whole number is a whole number. -/
theorem roundDouble_whole (n : Int) (q : ℚ) (h : roundDouble (n : ℚ) = .finite q) :
    ∃ m : Int, q = m := by
  have hr : q = (roundHalfEven ((n : ℚ) / 2 ^ ulpExponent (n : ℚ)) : ℚ)
      * 2 ^ ulpExponent (n : ℚ) := by
    unfold roundDouble at h
    simp only [] at h
    split at h
    · split at h <;> cases h
    · exact (JsNumber.finite.inj h).symm
  by_cases hu : ulpExponent (n : ℚ) ≤ 0
  · obtain ⟨N, hN⟩ := div_two_zpow_int n _ hu
    refine ⟨n, ?_⟩
    rw [hr, hN, roundHalfEven_intCast, ← hN]
    have := two_zpow_pos (ulpExponent (n : ℚ))
    field_simp
  · obtain ⟨a, ha⟩ := Int.eq_ofNat_of_zero_le (le_of_lt (not_le.1 hu))
    refine ⟨roundHalfEven ((n : ℚ) / 2 ^ ulpExponent (n : ℚ)) * 2 ^ a, ?_⟩
    rw [hr, ha, zpow_natCast]
    push_cast
    rfl

theorem parseInt_whole (p : String) (q : ℚ) (h : parseInt p = .finite q) :
    ∃ n : Int, q = n := by
  unfold parseInt at h
  split at h
  · cases h
  · exact roundDouble_whole _ q h

theorem parseInt_of_value (p : String) (n : Int) (h : parseIntValue p = some n)
    (hn : |(n : ℚ)| < (2 : ℚ) ^ (53 : Int)) : parseInt p = .finite n := by
  unfold parseInt
  rw [h]
  exact roundDouble_intCast n hn

/-- Where C22 holds: for every present input `p` that `isValidPeriod` accepts and that `parseInt`
reads as the number it denotes (`parseInt(p) = Number(p)`, a whole number of hours written in
digits), the expiry that the form computes is the `Date` of the clock plus `p` hours; and
without a period the expiry and the stored `expiryDate` are `null`. -/
theorem form_expiry_whole_hours_aux (stringToNumber : String → JsNumber) (now : Int)
    (urlInput : UrlInput) (hp : urlInput.validityPeriod ≠ "")
    (hvalid : isValidPeriod stringToNumber (.str urlInput.validityPeriod) = true)
    (hwhole : parseInt urlInput.validityPeriod = stringToNumber urlInput.validityPeriod)
    (hnow : |now| ≤ maxTime) :
    (∃ n : Int, stringToNumber urlInput.validityPeriod = .finite n ∧ 1 ≤ n ∧ n ≤ 8760 ∧
      (prepareUrlData now urlInput).expiryDate
        = some (newDate (.finite ((now + n * 3600000 : Int) : ℚ))) ∧
      (|now + n * 3600000| ≤ maxTime →
        (prepareUrlData now urlInput).expiryDate = some (.valid (now + n * 3600000)))) ∧
    (∀ url shortcode, (prepareUrlData now ⟨url, shortcode, ""⟩).expiryDate = none) ∧
    (∀ fuel rand clock writeOk store url shortcode out r,
      createMapping fuel rand clock writeOk store (prepareUrlData now ⟨url, shortcode, ""⟩).url
        (prepareUrlData now ⟨url, shortcode, ""⟩).shortcode
        (prepareUrlData now ⟨url, shortcode, ""⟩).expiryDate = some out →
      out.result = .ok r → r.expiryDate = none) := by
  refine ⟨?_, fun url shortcode => rfl, ?_⟩
  · rcases (isValidPeriod_iff_aux _ _).1 hvalid with hf | ⟨q, hq, h0, h1⟩
    · simp [JsValue.falsy, hp] at hf
    · simp only [Number] at hq
      obtain ⟨n, hn⟩ := parseInt_whole _ q (hwhole.trans hq)
      subst hn
      have hn0 : (0 : Int) < n := by exact_mod_cast h0
      have hn1 : n ≤ 8760 := by exact_mod_cast h1
      have hexp : (prepareUrlData now urlInput).expiryDate
          = some (newDate (.finite ((now + n * 3600000 : Int) : ℚ))) := by
        simp only [prepareUrlData, if_neg hp]
        rw [hwhole, hq, calculateExpiryDate_whole_aux now n (by omega) (by rw [abs_le]; omega)
          hnow]
      refine ⟨n, hq, by omega, hn1, hexp, fun hr => ?_⟩
      rw [hexp, newDate_whole _ hr]
  · intro fuel rand clock writeOk store url shortcode out r h hr
    rcases createMapping_inv h with ⟨e, he, _⟩ | ⟨sc, iso, hok, _, _, _, hiso, _⟩
    · rw [hr] at he
      cases he
    · rw [hr] at hok
      simp only [Except.ok.injEq] at hok
      rw [hok]
      have hnone : (prepareUrlData now ⟨url, shortcode, ""⟩).expiryDate = none := rfl
      rw [hnone] at hiso
      simp only [expiryToISO, Except.ok.injEq] at hiso
      exact hiso.symm

/-- C22 fails on the code for periods that are not written as a whole number in digits: the
form validates with `Number` (`isValidPeriod`) and computes with `parseInt`.  At clock value
1000 the row with period `0.5` raises no error and its expiry is `null`, a link that never
expires; the row with period `1.5` raises no error and expires after one hour
(`1000 + 3,600,000`, not `1000 + 5,400,000`); and the row with period `1e3`, which any
conversion that reads it as 1000 accepts, expires after one hour as well. -/
theorem form_expiry_drops_fraction :
    validateInput hasHttpScheme decimalNumber ⟨"https://a.example", "", "0.5"⟩ = true ∧
    (prepareUrlData 1000 ⟨"https://a.example", "", "0.5"⟩).expiryDate = none ∧
    validateInput hasHttpScheme decimalNumber ⟨"https://a.example", "", "1.5"⟩ = true ∧
    (prepareUrlData 1000 ⟨"https://a.example", "", "1.5"⟩).expiryDate
      = some (.valid 3601000) ∧
    (∀ stringToNumber : String → JsNumber, stringToNumber "1e3" = .finite 1000 →
      validateInput hasHttpScheme stringToNumber ⟨"https://a.example", "", "1e3"⟩ = true) ∧
    (prepareUrlData 1000 ⟨"https://a.example", "", "1e3"⟩).expiryDate
      = some (.valid 3601000) := by
  have hurl : isValidURL hasHttpScheme "https://a.example" = true := by decide
  have htrim : trim "https://a.example" = "https://a.example" := by decide
  have h15 : decimalNumber "1.5" = .finite (3 / 2) := by
    have h : decimalNumber "1.5" = .finite ((1 : Nat) + (5 : Nat) / 10 ^ 1) := rfl
    rw [h]
    norm_num
  have h05 : decimalNumber "0.5" = .finite (1 / 2) := by
    have h : decimalNumber "0.5" = .finite ((0 : Nat) + (5 : Nat) / 10 ^ 1) := rfl
    rw [h]
    norm_num
  have hv15 : isValidPeriod decimalNumber (.str "1.5") = true :=
    (isValidPeriod_iff_aux _ _).2 (Or.inr ⟨3 / 2, h15, by norm_num, by norm_num⟩)
  have hv05 : isValidPeriod decimalNumber (.str "0.5") = true :=
    (isValidPeriod_iff_aux _ _).2 (Or.inr ⟨1 / 2, h05, by norm_num, by norm_num⟩)
  have hp15 : parseInt "1.5" = .finite ((1 : Int) : ℚ) :=
    parseInt_of_value "1.5" 1 (by decide) (by norm_num)
  have hp05 : parseInt "0.5" = .finite ((0 : Int) : ℚ) :=
    parseInt_of_value "0.5" 0 (by decide) (by norm_num)
  have hp1e3 : parseInt "1e3" = .finite ((1 : Int) : ℚ) :=
    parseInt_of_value "1e3" 1 (by decide) (by norm_num)
  have hone : calculateExpiryDate 1000 (.finite ((1 : Int) : ℚ)) = some (.valid 3601000) := by
    rw [calculateExpiryDate_whole_aux 1000 1 (by decide) (by decide) (by decide)]
    exact congrArg some (newDate_whole 3601000 (by decide))
  refine ⟨?_, ?_, ?_, ?_, ?_, ?_⟩
  · simp only [validateInput, htrim, hurl, hv05]
    decide
  · have hne : ("0.5" : String) ≠ "" := by decide
    simp only [prepareUrlData, if_neg hne, hp05]
    simp [calculateExpiryDate, JsValue.falsy]
  · simp only [validateInput, htrim, hurl, hv15]
    decide
  · have hne : ("1.5" : String) ≠ "" := by decide
    simp only [prepareUrlData, if_neg hne, hp15]
    exact hone
  · intro stringToNumber h1000
    have hv : isValidPeriod stringToNumber (.str "1e3") = true :=
      (isValidPeriod_iff_aux _ _).2 (Or.inr ⟨1000, h1000, by norm_num, by norm_num⟩)
    simp only [validateInput, htrim, hurl, hv]
    decide
  · have hne : ("1e3" : String) ≠ "" := by decide
    simp only [prepareUrlData, if_neg hne, hp1e3]
    exact hone

/-! ## C2: collision of a custom shortcode -/

/-- A record that `createMapping` returns never has the empty shortcode: a custom shortcode is
used only when it is not empty, and a generated one has six characters. -/
theorem createMapping_shortcode_ne_empty {fuel : Nat} {rand : Rand} {now : Int}
    {writeOk : Bool} {store : Store} {originalUrl : String} {customShortcode : Option String}
    {expiryDate : Option JsDate} {out : Outcome (Except JsError Mapping)} {r : Mapping}
    (h : createMapping fuel rand now writeOk store originalUrl customShortcode expiryDate
      = some out)
    (hr : out.result = .ok r) : r.shortcode ≠ "" := by
  by_cases hc : customShortcode = none ∨ customShortcode = some ""
  · have hv := createMapping_generated_valid h hr hc
    intro h0
    rw [h0] at hv
    exact absurd hv (by decide)
  · rcases createMapping_inv h with ⟨e, he, _⟩ | ⟨sc, iso, hok, _, _, _, _, hcustom⟩
    · rw [hr] at he
      cases he
    · rw [hr] at hok
      simp only [Except.ok.injEq] at hok
      cases hcs : customShortcode with
      | none => exact absurd (Or.inl hcs) hc
      | some s =>
        have hs : s ≠ "" := fun h0 => hc (Or.inr (by rw [hcs, h0]))
        rw [hok]
        show sc ≠ ""
        rw [hcustom s hcs hs]
        exact hs

theorem Call.run_no_empty_shortcode (call : Call) (store store1 : Store)
    (created : Option Mapping) (h : call.run store = some (store1, created))
    (hstore : ∀ m ∈ store, m.shortcode ≠ "") : ∀ m ∈ store1, m.shortcode ≠ "" := by
  cases call with
  | create fuel rand env url custom expiry =>
    simp only [Call.run] at h
    cases hc : createMapping fuel rand env.now env.writeOk store url custom expiry with
    | none => simp [hc] at h
    | some out =>
      simp only [hc] at h
      cases hres : out.result with
      | error e =>
        simp only [hres, Option.some.injEq, Prod.mk.injEq] at h
        rw [← h.1, createMapping_error_store hc hres]
        exact hstore
      | ok r =>
        simp only [hres, Option.some.injEq, Prod.mk.injEq] at h
        rw [← h.1]
        rcases createMapping_inv hc with ⟨e, he, _⟩ | ⟨sc, iso, hok, hst, _, _, _, _⟩
        · rw [hres] at he
          cases he
        · rw [hst]
          intro m hm
          rcases List.mem_append.1 hm with hm | hm
          · exact hstore m hm
          · rw [hres] at hok
            simp only [Except.ok.injEq] at hok
            rw [List.mem_singleton] at hm
            rw [hm, ← hok]
            exact createMapping_shortcode_ne_empty hc hres
  | click env s0 =>
    simp only [Call.run, Option.some.injEq, Prod.mk.injEq] at h
    rcases incrementClickCount_inv env.now env.writeOk store s0 with
      hinc | ⟨i, m0, _, hget, _, _, _, _, hinc⟩
    · rw [hinc] at h
      rw [← h.1]
      exact hstore
    · rw [hinc] at h
      rw [← h.1]
      intro m hm
      rcases List.mem_or_eq_of_mem_set hm with hm | hm
      · exact hstore m hm
      · rw [hm]
        exact hstore m0 (List.get?_mem hget)
  | delete env s0 =>
    simp only [Call.run, Option.some.injEq, Prod.mk.injEq] at h
    rw [← h.1]
    rcases deleteMapping_store env.writeOk store s0 with hd | hd
    · rw [hd]
      exact hstore
    · rw [hd]
      exact fun m hm => hstore m (List.mem_filter.1 hm).1
  | cleanup env =>
    simp only [Call.run, Option.some.injEq, Prod.mk.injEq] at h
    rw [← h.1]
    rcases cleanupExpiredUrls_store env.now env.writeOk store with hd | hd
    · rw [hd]
      exact hstore
    · rw [hd]
      exact fun m hm => hstore m (List.mem_filter.1 hm).1

/-- No sequence of calls stores a record with the empty shortcode. -/
theorem runCalls_no_empty_shortcode (calls : List Call) :
    ∀ (store store1 : Store) (created : List Mapping),
      runCalls calls store = some (store1, created) →
      (∀ m ∈ store, m.shortcode ≠ "") → ∀ m ∈ store1, m.shortcode ≠ "" := by
  induction calls with
  | nil =>
    intro store store1 created h hstore
    simp only [runCalls, Option.some.injEq, Prod.mk.injEq] at h
    rw [← h.1]
    exact hstore
  | cons call rest ih =>
    intro store store1 created h hstore
    simp only [runCalls] at h
    cases hc : call.run store with
    | none => simp [hc] at h
    | some p =>
      obtain ⟨st, cr⟩ := p
      simp only [hc] at h
      cases hr : runCalls rest st with
      | none => simp [hr] at h
      | some q =>
        obtain ⟨st2, cr2⟩ := q
        simp only [hr, Option.some.injEq, Prod.mk.injEq] at h
        rw [← h.1]
        exact ih st st2 cr2 hr (Call.run_no_empty_shortcode call store st cr hc hstore)

/-- C2: for every store that contains a record with shortcode `s`, and every url and expiry,
`createMapping(url, s, expiry)` throws the shortcode-in-use error and `getAllMappings()` is
the same afterwards as before.  This holds for every store that the operations of storage.js
leave, starting from the empty store (such a store holds no record with the empty
shortcode), and for any store whatsoever when `s` is not the empty string. -/
theorem createMapping_shortcode_taken (fuel : Nat) (rand : Rand) (now : Int) (writeOk : Bool)
    (store : Store) (originalUrl s : String) (expiryDate : Option JsDate)
    (hstore : s ≠ "" ∨ ∃ calls created, runCalls calls [] = some (store, created))
    (hmem : ∃ m ∈ store, m.shortcode = s) :
    createMapping fuel rand now writeOk store originalUrl (some s) expiryDate
      = some ⟨.error (.shortcodeInUse s), store, rand⟩ ∧
    ∀ out, createMapping fuel rand now writeOk store originalUrl (some s) expiryDate = some out →
      out.result = .error (.shortcodeInUse s) ∧
      getAllMappings out.store = getAllMappings store := by
  obtain ⟨m, hm, hms⟩ := hmem
  have hs : s ≠ "" := by
    rcases hstore with hs | ⟨calls, created, hrun⟩
    · exact hs
    · rw [← hms]
      exact runCalls_no_empty_shortcode calls [] store created hrun (by simp) m hm
  have heq := createMapping_shortcode_taken_aux fuel rand now writeOk store originalUrl s
    expiryDate hs (List.mem_map.2 ⟨m, hm, hms⟩)
  refine ⟨heq, fun out hout => ?_⟩
  rw [heq] at hout
  simp only [Option.some.injEq] at hout
  subst hout
  exact ⟨rfl, rfl⟩

/-- Witness for C2: the store that `sampleCalls` leaves holds `aaaaaa`. -/
theorem createMapping_shortcode_taken_witness :
    createMapping 1 stepRand 5000 true sampleStore "https://b.example" (some "aaaaaa")
        (some (.valid 9000))
      = some ⟨.error (.shortcodeInUse "aaaaaa"), sampleStore, stepRand⟩ :=
  (createMapping_shortcode_taken 1 stepRand 5000 true sampleStore "https://b.example" "aaaaaa"
    (some (.valid 9000)) (Or.inr ⟨sampleCalls, sampleCreated, by decide⟩)
    ⟨⟨"aaaaaa", "https://a.example", 1000, none, 0⟩, by decide, rfl⟩).1

/-! ## When a batch completes -/

theorem generateUnique_isSome_iff (fuel : Nat) (rand : Rand) (store : Store) :
    (∃ p, generateUnique fuel rand store = some p) ↔
      ∃ k, k < fuel ∧ candidate rand k ∉ shortcodes store := by
  constructor
  · rintro ⟨p, hp⟩
    obtain ⟨k, hk, _, hfresh, _⟩ := (generateUnique_eq_some_iff _ _ _ _).1 hp
    exact ⟨k, hk, hfresh⟩
  · intro hex
    classical
    have hk0 := Nat.find_spec hex
    refine ⟨_, (generateUnique_eq_some_iff fuel rand store _).2
      ⟨Nat.find hex, hk0.1, fun j hj => ?_, hk0.2, rfl⟩⟩
    by_contra hnot
    exact Nat.find_min hex hj ⟨by omega, hnot⟩

/-- When `createMapping` returns: always with a non-empty custom shortcode, and otherwise
exactly when one of the first `fuel` drawn shortcodes is not stored. -/
theorem createMapping_returns_iff_aux (fuel : Nat) (rand : Rand) (now : Int) (writeOk : Bool)
    (store : Store) (originalUrl : String) (customShortcode : Option String)
    (expiryDate : Option JsDate) :
    (∃ out, createMapping fuel rand now writeOk store originalUrl customShortcode expiryDate
        = some out) ↔
      ((∃ s, customShortcode = some s ∧ s ≠ "") ∨
        ∃ k, k < fuel ∧ candidate rand k ∉ shortcodes store) := by
  by_cases hc : customShortcode = none ∨ customShortcode = some ""
  · have hinv := createMapping_generated_inv fuel rand now writeOk store originalUrl
      customShortcode expiryDate hc
    have hno : ¬ ∃ s, customShortcode = some s ∧ s ≠ "" := by
      rintro ⟨s, hs, hne⟩
      rcases hc with hc | hc
      · rw [hc] at hs
        cases hs
      · rw [hc] at hs
        exact hne (Option.some.inj hs).symm
    constructor
    · rintro ⟨out, hout⟩
      obtain ⟨p, hp, _⟩ := hinv.1 out hout
      exact Or.inr ((generateUnique_isSome_iff fuel rand store).1 ⟨p, hp⟩)
    · rintro (h | h)
      · exact absurd h hno
      · obtain ⟨p, hp⟩ := (generateUnique_isSome_iff fuel rand store).2 h
        exact hinv.2.1 p hp
  · have hcustom : ∃ s, customShortcode = some s ∧ s ≠ "" := by
      cases hcs : customShortcode with
      | none => exact absurd (Or.inl hcs) hc
      | some s => exact ⟨s, rfl, fun h0 => hc (Or.inr (by rw [hcs, h0]))⟩
    constructor
    · intro _
      exact Or.inl hcustom
    · intro _
      obtain ⟨s, hs, hne⟩ := hcustom
      rw [hs]
      exact createMapping_custom_returns fuel rand now writeOk store originalUrl s expiryDate
        hne

theorem runRequests_snoc (fuel : Nat) (env : Nat → Env) (d : UrlData) (xs : List UrlData) :
    ∀ (index : Nat) (rand : Rand) (store : Store),
    runRequests fuel env index (xs ++ [d]) rand store =
      (runRequests fuel env index xs rand store).bind (fun outs =>
        (createMapping fuel (lastRand rand outs) (env (index + xs.length)).now
          (env (index + xs.length)).writeOk (lastStore store outs) d.url d.shortcode
          d.expiryDate).map (fun o => outs ++ [o])) := by
  induction xs with
  | nil =>
    intro index rand store
    simp only [List.nil_append, runRequests, Option.some_bind, lastRand, lastStore,
      List.length_nil, Nat.add_zero]
    cases createMapping fuel rand (env index).now (env index).writeOk store d.url d.shortcode
      d.expiryDate <;> rfl
  | cons x xs ih =>
    intro index rand store
    simp only [List.cons_append, runRequests, List.length_cons]
    cases hc : createMapping fuel rand (env index).now (env index).writeOk store x.url
        x.shortcode x.expiryDate with
    | none => rfl
    | some out =>
      simp only []
      change Option.map (fun x => out :: x)
        (runRequests fuel env (index + 1) (xs ++ [d]) out.rand out.store) = _
      rw [ih (index + 1) out.rand out.store]
      have hidx : index + 1 + xs.length = index + (xs.length + 1) := by omega
      rw [hidx]
      cases runRequests fuel env (index + 1) xs out.rand out.store with
      | none => rfl
      | some outs =>
        simp only [Option.map_some', Option.some_bind, lastRand, lastStore]
        cases createMapping fuel (lastRand out.rand outs) (env (index + (xs.length + 1))).now
          (env (index + (xs.length + 1))).writeOk (lastStore out.store outs) d.url d.shortcode
          d.expiryDate <;> rfl

/-- The outcomes of a run do not depend on the fuel that completes it. -/
theorem runRequests_unique (fuel fuel1 : Nat) (env : Nat → Env) (index : Nat)
    (urlData : List UrlData) (rand : Rand) (store : Store)
    (outs outs1 : List (Outcome (Except JsError Mapping)))
    (h : runRequests fuel env index urlData rand store = some outs)
    (h1 : runRequests fuel1 env index urlData rand store = some outs1) : outs = outs1 := by
  have a := runRequests_mono fuel (max fuel fuel1) env index urlData rand store outs h
    (le_max_left _ _)
  have b := runRequests_mono fuel1 (max fuel fuel1) env index urlData rand store outs1 h1
    (le_max_right _ _)
  rw [a] at b
  exact Option.some.inj b

/-- A batch completes with enough fuel exactly when every generation loop ends. -/
theorem runRequests_completes_iff_aux (env : Nat → Env) (rand : Rand) (store : Store)
    (urlData : List UrlData) :
    (∃ fuel outs, runRequests fuel env 0 urlData rand store = some outs) ↔
      GenerationEnds env rand store urlData := by
  constructor
  · rintro ⟨fuel, outs, h⟩ j d hd hgen fuel1 outs1 h1
    have htake := runRequests_take fuel env 0 urlData rand store outs h j
    have heq := runRequests_unique fuel1 fuel env 0 (urlData.take j) rand store outs1
      (outs.take j) h1 htake
    have hlen := runRequests_length fuel env 0 urlData rand store outs h
    have hjlt : j < outs.length := by
      rw [hlen]
      exact (List.get?_eq_some.1 hd).1
    have hstep := runRequests_step fuel env 0 urlData rand store outs h j d _ hd
      (List.get?_eq_get hjlt)
    obtain ⟨k, _, hk⟩ : ∃ k, k < fuel ∧
        candidate (lastRand rand (outs.take j)) k ∉ shortcodes (lastStore store (outs.take j)) := by
      rcases (createMapping_returns_iff_aux _ _ _ _ _ _ _ _).1 ⟨_, hstep⟩ with
        ⟨s, hs, hne⟩ | hk
      · rcases hgen with hg | hg
        · rw [hg] at hs
          cases hs
        · rw [hg] at hs
          exact absurd (Option.some.inj hs).symm hne
      · exact hk
    rw [heq]
    exact ⟨k, hk⟩
  · intro hends
    have hprefix : ∀ j, j ≤ urlData.length →
        ∃ fuel outs, runRequests fuel env 0 (urlData.take j) rand store = some outs := by
      intro j
      induction j with
      | zero => exact fun _ => ⟨0, [], rfl⟩
      | succ j ih =>
        intro hj
        obtain ⟨fuel, outs, h⟩ := ih (by omega)
        have hjlt : j < urlData.length := by omega
        have hd : urlData.get? j = some (urlData.get ⟨j, hjlt⟩) := List.get?_eq_get hjlt
        generalize urlData.get ⟨j, hjlt⟩ = d at hd
        have htake : urlData.take (j + 1) = urlData.take j ++ [d] := by
          rw [List.take_succ]
          have : urlData[j]? = some d := by simpa using hd
          rw [this]
          rfl
        have hlenj : (urlData.take j).length = j := by
          rw [List.length_take]
          omega
        -- enough fuel for the request at position `j`
        have hfuel : ∃ fuel1, fuel ≤ fuel1 ∧ ∃ o, createMapping fuel1 (lastRand rand outs)
            (env (0 + j)).now (env (0 + j)).writeOk (lastStore store outs) d.url d.shortcode
            d.expiryDate = some o := by
          by_cases hgen : d.shortcode = none ∨ d.shortcode = some ""
          · obtain ⟨k, hk⟩ := hends j d hd hgen fuel outs h
            exact ⟨max fuel (k + 1), le_max_left _ _,
              (createMapping_returns_iff_aux _ _ _ _ _ _ _ _).2
                (Or.inr ⟨k, by omega, hk⟩)⟩
          · refine ⟨fuel, le_refl _, (createMapping_returns_iff_aux _ _ _ _ _ _ _ _).2
              (Or.inl ?_)⟩
            cases hcs : d.shortcode with
            | none => exact absurd (Or.inl hcs) hgen
            | some s => exact ⟨s, rfl, fun h0 => hgen (Or.inr (by rw [hcs, h0]))⟩
        obtain ⟨fuel1, hle, o, ho⟩ := hfuel
        refine ⟨fuel1, outs ++ [o], ?_⟩
        rw [htake, runRequests_snoc,
          runRequests_mono fuel fuel1 env 0 (urlData.take j) rand store outs h hle]
        simp only [Option.some_bind, hlenj, ho, Option.map_some']
    have := hprefix urlData.length (le_refl _)
    rwa [List.take_length] at this

theorem createMultipleMappings_completes_iff_aux (env : Nat → Env) (rand : Rand)
    (store : Store) (urlData : List UrlData) :
    (∃ fuel out, createMultipleMappings fuel rand env store urlData = some out) ↔
      GenerationEnds env rand store urlData := by
  rw [← runRequests_completes_iff_aux]
  constructor
  · rintro ⟨fuel, out, h⟩
    rw [createMultipleMappings_eq] at h
    cases hr : runRequests fuel env 0 urlData rand store with
    | none => simp [hr] at h
    | some outs => exact ⟨fuel, outs, hr⟩
  · rintro ⟨fuel, outs, h⟩
    refine ⟨fuel, ?_⟩
    rw [createMultipleMappings_eq, h]
    exact ⟨_, rfl⟩

/-- With a random stream that always draws `aaaaaa`, a request without a custom shortcode never
completes on a store that holds `aaaaaa`. -/
theorem createMapping_zeroRand_none_aux (fuel : Nat) (now : Int) (writeOk : Bool)
    (store : Store) (originalUrl : String) (expiryDate : Option JsDate)
    (hmem : "aaaaaa" ∈ shortcodes store) :
    createMapping fuel zeroRand now writeOk store originalUrl none expiryDate = none := by
  have hcand : ∀ k, candidate zeroRand k = "aaaaaa" := by
    intro k
    show generateShortcode zeroRand defaultLength = "aaaaaa"
    decide
  cases hc : createMapping fuel zeroRand now writeOk store originalUrl none expiryDate with
  | none => rfl
  | some out =>
    exfalso
    rcases (createMapping_returns_iff_aux _ _ _ _ _ _ _ _).1 ⟨out, hc⟩ with
      ⟨s, hs, _⟩ | ⟨k, _, hk⟩
    · cases hs
    · rw [hcand k] at hk
      exact hk hmem

/-! ## C7: partial success of a batch -/

/-- C7, as stated, fails: not every request list makes `createMultipleMappings` return.  With
a random stream that always draws `aaaaaa` and a store that holds `aaaaaa`, the batch of one
request without a custom shortcode returns for no number of iterations of the generation
loop. -/
theorem createMultipleMappings_never_returns :
    ¬ ∃ fuel, (createMultipleMappings fuel zeroRand (fun _ => envAt 1000) storeWithAaaaaa
      [⟨"https://b.example", none, none⟩]).isSome = true := by
  rintro ⟨fuel, h⟩
  have hnone : createMultipleMappings fuel zeroRand (fun _ => envAt 1000) storeWithAaaaaa
      [⟨"https://b.example", none, none⟩] = none := by
    rw [createMultipleMappings_eq]
    simp only [runRequests]
    rw [createMapping_zeroRand_none_aux fuel _ _ storeWithAaaaaa _ _ (by decide)]
    rfl
  rw [hnone] at h
  cases h

/-- C7 (amended): `createMultipleMappings` returns, with enough iterations of the generation
loops, exactly when every generation loop of the batch ends: for every request without a
custom shortcode, one of the shortcodes drawn at its turn is not stored; it always returns
when every request carries a non-empty custom shortcode, and more iterations do not change
what it returns.  When it returns, it has run `createMapping` for the requests in input
order, each against the store left by the requests before it, whether or not these failed;
`results` holds the records of the calls that returned, in input order; `errors` holds one
entry per call that threw, with the index and url of the request, in strictly increasing
index order; every position of the batch is accounted for in exactly one of the two lists,
so `results.length + errors.length = n`. -/
theorem createMultipleMappings_partial_success (fuel : Nat) (rand : Rand) (env : Nat → Env)
    (store : Store) (urlData : List UrlData) :
    ((∃ fuel1 out, createMultipleMappings fuel1 rand env store urlData = some out) ↔
      GenerationEnds env rand store urlData) ∧
    ((∀ d ∈ urlData, ∃ s, d.shortcode = some s ∧ s ≠ "") →
      ∃ out, createMultipleMappings fuel rand env store urlData = some out) ∧
    ∀ out, createMultipleMappings fuel rand env store urlData = some out →
      (∀ fuel1, fuel ≤ fuel1 →
        createMultipleMappings fuel1 rand env store urlData = some out) ∧
      ∃ outs : List (Outcome (Except JsError Mapping)),
        runRequests fuel env 0 urlData rand store = some outs ∧
        outs.length = urlData.length ∧
        out.result.results = createdOf outs ∧
        out.result.results.length + out.result.errors.length = urlData.length ∧
        (out.result.errors.map (fun e => e.index)).Pairwise (· < ·) ∧
        (∀ e ∈ out.result.errors, ∃ d, urlData.get? e.index = some d ∧ e.url = d.url) ∧
        ∀ j d o, urlData.get? j = some d → outs.get? j = some o →
          createMapping fuel (lastRand rand (outs.take j)) (env j).now (env j).writeOk
            (store ++ createdOf (outs.take j)) d.url d.shortcode d.expiryDate = some o ∧
          (∀ r, o.result = .ok r →
            r ∈ out.result.results ∧ ∀ e ∈ out.result.errors, e.index ≠ j) ∧
          (∀ err, o.result = .error err →
            ⟨j, d.url, err.message⟩ ∈ out.result.errors ∧
            ∀ e ∈ out.result.errors, e.index = j → e = ⟨j, d.url, err.message⟩) := by
  refine ⟨createMultipleMappings_completes_iff_aux env rand store urlData,
    fun hcustom => ?_, fun out h => ⟨fun fuel1 hle =>
    createMultipleMappings_mono fuel fuel1 rand env store urlData out h hle, ?_⟩⟩
  · obtain ⟨outs, houts⟩ := runRequests_custom_returns fuel env 0 urlData rand store hcustom
    rw [createMultipleMappings_eq, houts]
    exact ⟨_, rfl⟩
  · rw [createMultipleMappings_eq] at h
    cases hr : runRequests fuel env 0 urlData rand store with
    | none => simp [hr] at h
    | some outs =>
      simp only [hr, Option.map_some', Option.some.injEq] at h
      subst h
      have hlen := runRequests_length fuel env 0 urlData rand store outs hr
      refine ⟨outs, rfl, hlen, rfl, length_createdOf_add_failuresFrom 0 urlData outs hlen,
        failuresFrom_index_increasing 0 urlData outs, fun e he => ?_, fun j d o hd ho => ?_⟩
      · obtain ⟨j, d, o, err, h1, h2, _, _, h5⟩ := failuresFrom_mem 0 urlData outs e he
        simp only [Nat.zero_add] at h1 h5
        exact ⟨d, h1 ▸ h2, by rw [h5]⟩
      · have hentry := batch_entry 0 urlData outs j d o hd ho
        simp only [Nat.zero_add] at hentry
        exact ⟨runRequests_step_store fuel env urlData rand store outs hr j d o hd ho,
          hentry.1, hentry.2⟩


/-- Witness for C7: the batch whose second request fails still creates the third one, and its
generation loop ends. -/
theorem createMultipleMappings_partial_success_witness :
    createMultipleMappings 5 stepRand (fun _ => envAt 1000) storeWithAbc123
        batchWithTakenShortcode = some takenShortcodeOutcome ∧
    createMultipleMappings 9 stepRand (fun _ => envAt 1000) storeWithAbc123
        batchWithTakenShortcode = some takenShortcodeOutcome ∧
    takenShortcodeOutcome.result.results.length + takenShortcodeOutcome.result.errors.length
      = batchWithTakenShortcode.length ∧
    GenerationEnds (fun _ => envAt 1000) stepRand storeWithAbc123 batchWithTakenShortcode :=
  ⟨rfl,
   ((createMultipleMappings_partial_success 5 stepRand (fun _ => envAt 1000) storeWithAbc123
      batchWithTakenShortcode).2.2 takenShortcodeOutcome rfl).1 9 (by decide),
   ((createMultipleMappings_partial_success 5 stepRand (fun _ => envAt 1000) storeWithAbc123
      batchWithTakenShortcode).2.2 takenShortcodeOutcome rfl).2.elim (fun _ hx => hx.2.2.2.1),
   (createMultipleMappings_partial_success 5 stepRand (fun _ => envAt 1000) storeWithAbc123
      batchWithTakenShortcode).1.1 ⟨5, takenShortcodeOutcome, rfl⟩⟩
/-! ## C28: duplicates inside one batch -/

/-- The records created by a run of requests carry shortcodes that were not stored before the
run, each at most once. -/
theorem runRequests_created_count (fuel : Nat) (env : Nat → Env) (urlData : List UrlData) :
    ∀ (index : Nat) (rand : Rand) (store : Store)
      (outs : List (Outcome (Except JsError Mapping))),
      runRequests fuel env index urlData rand store = some outs → ∀ s : String,
      (s ∈ shortcodes store → (createdOf outs).countP (fun m => m.shortcode == s) = 0) ∧
      (s ∉ shortcodes store → (createdOf outs).countP (fun m => m.shortcode == s) ≤ 1) := by
  induction urlData with
  | nil =>
    intro index rand store outs h s
    simp only [runRequests, Option.some.injEq] at h
    subst h
    exact ⟨fun _ => rfl, fun _ => Nat.zero_le _⟩
  | cons data rest ih =>
    intro index rand store outs h s
    obtain ⟨out, outs1, hc, hr, rfl⟩ := runRequests_cons h
    have ih1 := ih (index + 1) out.rand out.store outs1 hr s
    rcases createMapping_inv hc with ⟨e, he, hst⟩ | ⟨sc, iso, hok, hst, _, hfresh, _, _⟩
    · have hcr : createdOf (out :: outs1) = createdOf outs1 := by simp [createdOf, he]
      rw [hcr]
      rw [hst] at ih1
      exact ih1
    · have hcr : createdOf (out :: outs1) =
          ⟨sc, data.url, (env index).now, iso, 0⟩ :: createdOf outs1 := by
        simp [createdOf, hok]
      have hsh : shortcodes out.store = shortcodes store ++ [sc] := by
        rw [hst]
        simp [shortcodes]
      rw [hcr, List.countP_cons]
      rw [hsh] at ih1
      constructor
      · intro hmem
        have hne : sc ≠ s := fun h => hfresh (h ▸ hmem)
        have h0 := ih1.1 (List.mem_append_left _ hmem)
        rw [h0]
        simp [hne]
      · intro hnot
        by_cases hsc : sc = s
        · have h0 := ih1.1 (List.mem_append_right _ (by simp [hsc]))
          rw [h0]
          simp [hsc]
        · have h1 := ih1.2 (by simp [hnot, Ne.symm hsc])
          simp only [beq_iff_eq, hsc, if_false, Nat.add_zero]
          exact h1

/-- C28, as stated, fails in four ways.  Two requests with the empty string as custom
shortcode are both created under generated shortcodes, none is reported and no record has
the empty shortcode.  When the write fails, both of two requests with the custom shortcode
`dup` are reported and no record is stored.  Of three requests with the custom shortcode
`dup`, the pair at indices 1 and 2 has its first request reported in `errors`, not
created.  And when a later request needs a generated shortcode whose generation loop does not
end (every draw is `aaaaaa`, which is stored), the batch returns nothing at all. -/
theorem createMultipleMappings_duplicates_not_caught :
    (createMultipleMappings 5 stepRand (fun _ => envAt 1000) [] batchWithEmptyShortcodes).map
        (fun out => (out.result, out.store))
      = some (⟨[⟨"aaaaaa", "https://a.example", 1000, none, 0⟩,
                ⟨"bbbbbb", "https://b.example", 1000, none, 0⟩], []⟩,
          [⟨"aaaaaa", "https://a.example", 1000, none, 0⟩,
           ⟨"bbbbbb", "https://b.example", 1000, none, 0⟩]) ∧
    (createMultipleMappings 5 stepRand (fun _ => ⟨1000, false⟩) []
        (batchWithDuplicates.take 2)).map (fun out => (out.result, out.store))
      = some (⟨[], [⟨0, "https://a.example",
                    "Failed to save URL mappings. Storage might be full."⟩,
                  ⟨1, "https://b.example",
                    "Failed to save URL mappings. Storage might be full."⟩]⟩, []) ∧
    (createMultipleMappings 5 stepRand (fun _ => envAt 1000) [] batchWithDuplicates).map
        (fun out => (out.result, out.store))
      = some (⟨[⟨"dup", "https://a.example", 1000, none, 0⟩],
                [⟨1, "https://b.example",
                    "Shortcode \"dup\" is already in use. Please choose a different one."⟩,
                  ⟨2, "https://c.example",
                    "Shortcode \"dup\" is already in use. Please choose a different one."⟩]⟩,
          [⟨"dup", "https://a.example", 1000, none, 0⟩]) ∧
    ¬ ∃ fuel, (createMultipleMappings fuel zeroRand (fun _ => envAt 1000) storeWithAaaaaa
      batchWithGeneration).isSome = true := by
  refine ⟨by decide, by decide, by decide, ?_⟩
  rintro ⟨fuel, h⟩
  have e0 : createMapping fuel zeroRand 1000 true storeWithAaaaaa "https://a.example"
      (some "dup") none
      = some ⟨.ok ⟨"dup", "https://a.example", 1000, none, 0⟩,
          storeWithAaaaaa ++ [⟨"dup", "https://a.example", 1000, none, 0⟩], zeroRand⟩ := rfl
  have e1 := createMapping_shortcode_taken_aux fuel zeroRand 1000 true
    (storeWithAaaaaa ++ [⟨"dup", "https://a.example", 1000, none, 0⟩]) "https://b.example"
    "dup" none (by decide) (by decide)
  have e2 := createMapping_zeroRand_none_aux fuel 1000 true
    (storeWithAaaaaa ++ [⟨"dup", "https://a.example", 1000, none, 0⟩]) "https://c.example"
    none (by decide)
  have hnone : createMultipleMappings fuel zeroRand (fun _ => envAt 1000) storeWithAaaaaa
      batchWithGeneration = none := by
    rw [createMultipleMappings_eq]
    simp only [batchWithGeneration, runRequests, envAt, e0, e1, e2, Option.map_none']
  rw [hnone] at h
  cases h

/-- The duplicate in a completed batch. -/
theorem createMultipleMappings_duplicates_aux (fuel : Nat) (rand : Rand) (env : Nat → Env)
    (store : Store) (urlData : List UrlData) (i j : Nat) (di dj : UrlData) (s : String)
    (stored : Store) (hij : i < j) (hi : urlData.get? i = some di)
    (hj : urlData.get? j = some dj) (hsi : di.shortcode = some s)
    (hsj : dj.shortcode = some s) (hs : s ≠ "")
    (hturn : (createMultipleMappings fuel rand env store (urlData.take i)).map
      (fun out => out.store) = some stored)
    (hfree : s ∉ shortcodes stored) (hexp : di.expiryDate ≠ some .invalid)
    (hw : (env i).writeOk = true) :
    createMultipleMappings fuel rand env store urlData =
      (runRequests fuel env 0 urlData rand store).map (fun outs =>
        ⟨⟨createdOf outs, failuresFrom 0 urlData outs⟩, lastStore store outs,
          lastRand rand outs⟩) ∧
    ((∀ d ∈ urlData, ∃ c, d.shortcode = some c ∧ c ≠ "") →
      ∃ out, createMultipleMappings fuel rand env store urlData = some out) ∧
    ∀ out, createMultipleMappings fuel rand env store urlData = some out →
      (∃ r ∈ out.result.results, r.shortcode = s ∧ r.originalUrl = di.url ∧
        ∀ e ∈ out.result.errors, e.index ≠ i) ∧
      ⟨j, dj.url, (JsError.shortcodeInUse s).message⟩ ∈ out.result.errors ∧
      out.store.countP (fun m => m.shortcode == s) = 1 := by
  refine ⟨createMultipleMappings_eq fuel rand env store urlData, fun hcustom => ?_,
    fun out h => ?_⟩
  · obtain ⟨outs, houts⟩ := runRequests_custom_returns fuel env 0 urlData rand store hcustom
    rw [createMultipleMappings_eq, houts]
    exact ⟨_, rfl⟩
  rw [createMultipleMappings_eq] at h
  cases hr : runRequests fuel env 0 urlData rand store with
  | none => simp [hr] at h
  | some outs =>
    rw [hr] at h
    simp only [Option.map_some', Option.some.injEq] at h
    subst h
    have hlen := runRequests_length fuel env 0 urlData rand store outs hr
    have hilt : i < outs.length := by
      rw [hlen]
      exact (List.get?_eq_some.1 hi).1
    have hjlt : j < outs.length := by
      rw [hlen]
      exact (List.get?_eq_some.1 hj).1
    have hoi : outs.get? i = some (outs.get ⟨i, hilt⟩) := List.get?_eq_get hilt
    have hoj : outs.get? j = some (outs.get ⟨j, hjlt⟩) := List.get?_eq_get hjlt
    generalize outs.get ⟨i, hilt⟩ = oi at hoi
    generalize outs.get ⟨j, hjlt⟩ = oj at hoj
    -- the store when request `i` is reached
    have htake := runRequests_take fuel env 0 urlData rand store outs hr i
    have hstored : stored = store ++ createdOf (outs.take i) := by
      rw [createMultipleMappings_eq, htake] at hturn
      simp only [Option.map_some', Option.some.injEq] at hturn
      rw [← hturn]
      exact lastStore_eq fuel env 0 (urlData.take i) rand store (outs.take i) htake
    rw [hstored] at hfree
    -- request `i` is created
    have hci := runRequests_step_store fuel env urlData rand store outs hr i di oi hi hoi
    rw [hsi, hw] at hci
    obtain ⟨r, hr1⟩ := (createMapping_custom_ok_iff_aux fuel _ (env i).now _ di.url s
      di.expiryDate hs hexp oi hci).2 hfree
    have hrs : r.shortcode = s ∧ r.originalUrl = di.url := by
      rcases createMapping_inv hci with ⟨e, he, _⟩ | ⟨sc, iso, hok, _, _, _, _, hcustom⟩
      · rw [hr1] at he
        cases he
      · rw [hr1] at hok
        simp only [Except.ok.injEq] at hok
        rw [hok]
        exact ⟨hcustom s rfl hs, rfl⟩
    have hentry := (batch_entry 0 urlData outs i di oi hi hoi).1 r hr1
    simp only [Nat.zero_add] at hentry
    -- request `j` finds the shortcode stored
    have hdi : (urlData.take j).get? i = some di := by
      rw [← hi]
      simp [List.getElem?_take, hij]
    have hoi1 : (outs.take j).get? i = some oi := by
      rw [← hoi]
      simp [List.getElem?_take, hij]
    have hmemj := ((batch_entry 0 (urlData.take j) (outs.take j) i di oi hdi hoi1).1 r hr1).1
    have hcj := runRequests_step_store fuel env urlData rand store outs hr j dj oj hj hoj
    rw [hsj] at hcj
    have hsmem : s ∈ shortcodes (store ++ createdOf (outs.take j)) := by
      simp only [shortcodes, List.map_append, List.mem_append, List.mem_map]
      exact Or.inr ⟨r, hmemj, hrs.1⟩
    rw [createMapping_shortcode_taken_aux fuel _ (env j).now (env j).writeOk _ dj.url s
      dj.expiryDate hs hsmem] at hcj
    have hrj : oj.result = .error (.shortcodeInUse s) := by
      simp only [Option.some.injEq] at hcj
      rw [← hcj]
    have hentryj := (batch_entry 0 urlData outs j dj oj hj hoj).2 _ hrj
    simp only [Nat.zero_add] at hentryj
    refine ⟨⟨r, hentry.1, hrs.1, hrs.2, hentry.2⟩, hentryj.1, ?_⟩
    -- exactly one record with the shortcode
    show (lastStore store outs).countP (fun m => m.shortcode == s) = 1
    rw [lastStore_eq fuel env 0 urlData rand store outs hr, List.countP_append]
    have hnot : s ∉ shortcodes store := by
      intro hmem
      apply hfree
      simp only [shortcodes, List.map_append, List.mem_append]
      exact Or.inl hmem
    have h0 : store.countP (fun m => m.shortcode == s) = 0 := by
      rw [List.countP_eq_zero]
      intro m hm hms
      exact hnot (List.mem_map.2 ⟨m, hm, by simpa using hms⟩)
    have hle := (runRequests_created_count fuel env urlData 0 rand store outs hr s).2 hnot
    have hpos : 0 < (createdOf outs).countP (fun m => m.shortcode == s) :=
      List.countP_pos_iff.2 ⟨r, hentry.1, by simpa using hrs.1⟩
    omega


/-- C28 (amended): for every store and every batch in which the requests at indices `i < j`
carry the same non-empty custom shortcode `s`, where `s` is not stored when request `i` is
reached (neither before the batch nor by an earlier request of it), request `i` has a null or
valid expiry and its write succeeds: when every generation loop of the batch ends (as it does
when every request carries a non-empty custom shortcode), `createMultipleMappings` returns,
creates the record for request `i`, reports request `j` in `errors` with index `j` and the
shortcode-in-use message, and the store ends with exactly one record with shortcode `s`; and
`createMultipleMappings` equals applying `createMapping` to the requests one after another,
each against the store left by the previous one. -/
theorem createMultipleMappings_duplicates (fuel : Nat) (rand : Rand) (env : Nat → Env)
    (store : Store) (urlData : List UrlData) (i j : Nat) (di dj : UrlData) (s : String)
    (stored : Store) (hij : i < j) (hi : urlData.get? i = some di)
    (hj : urlData.get? j = some dj) (hsi : di.shortcode = some s)
    (hsj : dj.shortcode = some s) (hs : s ≠ "")
    (hturn : (createMultipleMappings fuel rand env store (urlData.take i)).map
      (fun out => out.store) = some stored)
    (hfree : s ∉ shortcodes stored) (hexp : di.expiryDate ≠ some .invalid)
    (hw : (env i).writeOk = true) :
    createMultipleMappings fuel rand env store urlData =
      (runRequests fuel env 0 urlData rand store).map (fun outs =>
        ⟨⟨createdOf outs, failuresFrom 0 urlData outs⟩, lastStore store outs,
          lastRand rand outs⟩) ∧
    (GenerationEnds env rand store urlData →
      ∃ fuel1 out, fuel ≤ fuel1 ∧
        createMultipleMappings fuel1 rand env store urlData = some out ∧
        (∃ r ∈ out.result.results, r.shortcode = s ∧ r.originalUrl = di.url ∧
          ∀ e ∈ out.result.errors, e.index ≠ i) ∧
        ⟨j, dj.url, (JsError.shortcodeInUse s).message⟩ ∈ out.result.errors ∧
        out.store.countP (fun m => m.shortcode == s) = 1) ∧
    ((∀ d ∈ urlData, ∃ c, d.shortcode = some c ∧ c ≠ "") →
      ∃ out, createMultipleMappings fuel rand env store urlData = some out ∧
        (∃ r ∈ out.result.results, r.shortcode = s ∧ r.originalUrl = di.url ∧
          ∀ e ∈ out.result.errors, e.index ≠ i) ∧
        ⟨j, dj.url, (JsError.shortcodeInUse s).message⟩ ∈ out.result.errors ∧
        out.store.countP (fun m => m.shortcode == s) = 1) ∧
    ∀ fuel1 out, fuel ≤ fuel1 →
      createMultipleMappings fuel1 rand env store urlData = some out →
      (∃ r ∈ out.result.results, r.shortcode = s ∧ r.originalUrl = di.url ∧
        ∀ e ∈ out.result.errors, e.index ≠ i) ∧
      ⟨j, dj.url, (JsError.shortcodeInUse s).message⟩ ∈ out.result.errors ∧
      out.store.countP (fun m => m.shortcode == s) = 1 := by
  -- the turn of request `i` is the same with more fuel
  have hturn1 : ∀ fuel1, fuel ≤ fuel1 →
      (createMultipleMappings fuel1 rand env store (urlData.take i)).map
        (fun out => out.store) = some stored := by
    intro fuel1 hle
    cases hc : createMultipleMappings fuel rand env store (urlData.take i) with
    | none => simp [hc] at hturn
    | some out0 =>
      rw [hc] at hturn
      rw [createMultipleMappings_mono fuel fuel1 rand env store _ out0 hc hle]
      exact hturn
  have hall : ∀ fuel1 out, fuel ≤ fuel1 →
      createMultipleMappings fuel1 rand env store urlData = some out →
      (∃ r ∈ out.result.results, r.shortcode = s ∧ r.originalUrl = di.url ∧
        ∀ e ∈ out.result.errors, e.index ≠ i) ∧
      ⟨j, dj.url, (JsError.shortcodeInUse s).message⟩ ∈ out.result.errors ∧
      out.store.countP (fun m => m.shortcode == s) = 1 :=
    fun fuel1 out hle hout =>
      (createMultipleMappings_duplicates_aux fuel1 rand env store urlData i j di dj s stored
        hij hi hj hsi hsj hs (hturn1 fuel1 hle) hfree hexp hw).2.2 out hout
  refine ⟨createMultipleMappings_eq fuel rand env store urlData, fun hends => ?_,
    fun hcustom => ?_, hall⟩
  · obtain ⟨fuel0, out0, h0⟩ :=
      (createMultipleMappings_completes_iff_aux env rand store urlData).2 hends
    have h1 := createMultipleMappings_mono fuel0 (max fuel fuel0) rand env store urlData out0
      h0 (le_max_right _ _)
    exact ⟨max fuel fuel0, out0, le_max_left _ _, h1, hall _ out0 (le_max_left _ _) h1⟩
  · obtain ⟨out, hout⟩ := (createMultipleMappings_duplicates_aux fuel rand env store urlData
      i j di dj s stored hij hi hj hsi hsj hs hturn hfree hexp hw).2.1 hcustom
    exact ⟨out, hout, hall fuel out (le_refl _) hout⟩

/-- Witness for C28: in `batchWithDuplicates` the second request is reported and one record
with shortcode `dup` is stored; the same holds in `batchWithGeneration`, whose third request
needs a generated shortcode, on the empty store. -/
theorem createMultipleMappings_duplicates_witness :
    (∃ out, createMultipleMappings 5 stepRand (fun _ => envAt 1000) [] batchWithDuplicates
        = some out ∧
      (∃ r ∈ out.result.results, r.shortcode = "dup" ∧ r.originalUrl = "https://a.example" ∧
        ∀ e ∈ out.result.errors, e.index ≠ 0) ∧
      ⟨1, "https://b.example", (JsError.shortcodeInUse "dup").message⟩ ∈ out.result.errors ∧
      out.store.countP (fun m => m.shortcode == "dup") = 1) ∧
    (∃ fuel1 out, 5 ≤ fuel1 ∧
      createMultipleMappings fuel1 stepRand (fun _ => envAt 1000) [] batchWithGeneration
        = some out ∧
      (∃ r ∈ out.result.results, r.shortcode = "dup" ∧ r.originalUrl = "https://a.example" ∧
        ∀ e ∈ out.result.errors, e.index ≠ 0) ∧
      ⟨1, "https://b.example", (JsError.shortcodeInUse "dup").message⟩ ∈ out.result.errors ∧
      out.store.countP (fun m => m.shortcode == "dup") = 1) := by
  have h := createMultipleMappings_duplicates 5 stepRand (fun _ => envAt 1000) []
    batchWithDuplicates 0 1 ⟨"https://a.example", some "dup", none⟩
    ⟨"https://b.example", some "dup", none⟩ "dup" [] (by decide) rfl rfl rfl rfl (by decide)
    rfl (by decide) (by decide) rfl
  have h1 := createMultipleMappings_duplicates 5 stepRand (fun _ => envAt 1000) []
    batchWithGeneration 0 1 ⟨"https://a.example", some "dup", none⟩
    ⟨"https://b.example", some "dup", none⟩ "dup" [] (by decide) rfl rfl rfl rfl (by decide)
    rfl (by decide) (by decide) rfl
  obtain ⟨out0, h0⟩ : ∃ out, createMultipleMappings 5 stepRand (fun _ => envAt 1000) []
      batchWithGeneration = some out := Option.isSome_iff_exists.1 (by decide)
  refine ⟨h.2.2.1 (by
    intro d hd
    simp only [batchWithDuplicates, List.mem_cons, List.mem_singleton, List.not_mem_nil,
      or_false] at hd
    rcases hd with rfl | rfl | rfl <;> exact ⟨"dup", rfl, by decide⟩), ?_⟩
  exact h1.2.1 ((createMultipleMappings_completes_iff_aux _ _ _ _).1 ⟨5, out0, h0⟩)

end UrlShortener
